import Mathlib

/-!
Verification development for the DB2025 storage and execution engine.

The definitions below are a shallow embedding of the C++ sources:
`rm_file_handle.cpp` (record file: insert/get/update/delete, page handles,
free-page list), `rm_scan.cpp` (the heap-file scan iterator),
`executor_abstract.h` / `executor_seq_scan.h` (predicate evaluation),
`executor_nestedloop_join.h` (nested-loop join) and `execution_sort.h`
(sort operator comparator).

Machine `int` values are modelled as `Int`, byte buffers as `List Nat`,
and `float` values as `Rat` (the claims below never depend on rounding,
only on sign comparisons and on which code branch is taken).
C++ exceptions are modelled by returning the state reached at the throw
point together with `Except.error`; in-place page mutation is modelled by
functional update of the page map.
-/

/-- `RM_NO_PAGE` sentinel (-1): "no page", also the end-of-scan marker. -/
def RM_NO_PAGE : Int := -1

/-- `RM_FIRST_RECORD_PAGE`: record pages start at page 1 (page 0 is the file header). -/
def RM_FIRST_RECORD_PAGE : Int := 1

/-- Row identifier `(page_no, slot_no)`, both signed 32-bit in the source. -/
structure Rid where
  page_no : Int
  slot_no : Int
deriving DecidableEq, Repr

/-- Modelled from the spec: the slotted-page bitmap helpers (`Bitmap::first_bit`,
`Bitmap::next_bit`, `Bitmap::set`, `Bitmap::reset`, `Bitmap::is_set`,
`Bitmap::init`) live in a header that is not part of the sources; §4.2 of the
spec defines them as pure bit set/clear/test plus `first_clear_bit(bitmap, N)`
and `next_set_bit(bitmap, N, from_exclusive)`.  A bitmap is a `List Bool`;
out-of-range tests read `false`, out-of-range writes are dropped. -/
def Bitmap.test (bm : List Bool) (i : Int) : Bool :=
  bm.getD i.toNat false

/-- `Bitmap::set`: set bit `i`. -/
def Bitmap.setBit (bm : List Bool) (i : Int) : List Bool :=
  bm.set i.toNat true

/-- `Bitmap::reset`: clear bit `i`. -/
def Bitmap.resetBit (bm : List Bool) (i : Int) : List Bool :=
  bm.set i.toNat false

/-- The loop of the bitmap scans: examine `max_n - start` positions from
`start`; return the first whose bit equals `target`, else `max_n`. -/
def Bitmap.findFromGo (target : Bool) (bm : List Bool) (max_n : Nat) :
    Nat → Nat → Nat
  | 0, _ => max_n
  | fuel + 1, s =>
    if bm.getD s false = target then s
    else Bitmap.findFromGo target bm max_n fuel (s + 1)

/-- Scan `[start, max_n)` for the first index whose bit equals `target`. -/
def Bitmap.findFrom (target : Bool) (bm : List Bool) (max_n start : Nat) : Nat :=
  Bitmap.findFromGo target bm max_n (max_n - start) start

/-- `Bitmap::first_bit(target, bm, max_n)`: first index in `[0, max_n)` whose
bit equals `target`, else `max_n`. -/
def Bitmap.firstBit (target : Bool) (bm : List Bool) (max_n : Nat) : Nat :=
  Bitmap.findFrom target bm max_n 0

/-- `Bitmap::next_bit(target, bm, max_n, curr)`: first index in `(curr, max_n)`
whose bit equals `target`, else `max_n`.  `curr` may be `-1`. -/
def Bitmap.nextBit (target : Bool) (bm : List Bool) (max_n : Nat) (curr : Int) : Nat :=
  Bitmap.findFrom target bm max_n (curr + 1).toNat

/-- Record-page layout (pages ≥ 1): page header `(next_free_page_no,
num_records)`, the slot bitmap, and `N` fixed-width slots.  Slot payloads are
byte lists. -/
structure RmPageData where
  next_free_page_no : Int
  num_records : Int
  bitmap : List Bool
  slots : List (List Nat)
deriving DecidableEq, Repr

/-- File header kept on page 0: record size, per-page slot capacity `N`,
page count, and the head of the intrusive free-page list.
(`bitmap_size` is a pure function of `N` and is not consulted by any
operation modelled here, so it is omitted.) -/
structure RmFileHdr where
  record_size : Nat
  num_records_per_page : Nat
  num_pages : Nat
  first_free_page_no : Int
deriving DecidableEq, Repr

/-- A record file: the in-memory file header plus the pages reachable through
the buffer pool.  The page map is total: the source never range-checks a page
number from below, and `read_page` zero-fills past EOF, so every page number
yields bytes (page 0 and negative pages give whatever bytes sit there). -/
structure RmFile where
  file_hdr : RmFileHdr
  pages : Int → RmPageData

/-- Error kinds raised by the record-file operations modelled here. -/
inductive RmError where
  | recordNotFound (page_no slot_no : Int)
  | pageNotExist (page_no : Int)
deriving DecidableEq, Repr

/-- Pin/unpin events against the buffer pool, in program order. -/
inductive PinEvent where
  | pin (page_no : Int)
  | unpin (page_no : Int) (dirty : Bool)
deriving DecidableEq, Repr

/-- A zeroed page as handed out by the buffer pool (`new_page` returns a
zero-filled frame): header zeros, all bits clear, `N` zero-byte slots. -/
def zeroPage (record_size N : Nat) : RmPageData :=
  { next_free_page_no := 0
    num_records := 0
    bitmap := List.replicate N false
    slots := List.replicate N (List.replicate record_size 0) }

/-- Modelled from the spec: `RmManager::create_file` is not among the sources.
§3 and §4.3: a fresh file has `num_pages = 1` (just the header page) and an
empty free list (`first_free_page_no = RM_NO_PAGE`). -/
def freshRmFile (record_size N : Nat) : RmFile :=
  { file_hdr :=
      { record_size := record_size
        num_records_per_page := N
        num_pages := 1
        first_free_page_no := RM_NO_PAGE }
    pages := fun _ => zeroPage record_size N }

/-- Functional update of the page map at page `p`. -/
def RmFile.setPage (f : RmFile) (p : Int) (pg : RmPageData) : RmFile :=
  { f with pages := fun q => if q = p then pg else f.pages q }

/-- `RmFileHandle::fetch_page_handle`: raises `PageNotExist` iff
`page_no >= num_pages`; the buffer-pool lookup itself is modelled as always
succeeding (spec §6 cache contract), so there is no lower bound on `page_no`. -/
def RmFile.fetch_page_handle (f : RmFile) (page_no : Int) : Except RmError RmPageData :=
  if page_no ≥ (f.file_hdr.num_pages : Int) then
    .error (.pageNotExist page_no)
  else
    .ok (f.pages page_no)

/-- Modelled from the spec: the buffer pool's `new_page` together with
`DiskManager::allocate_page` hands out page numbers sequentially, so the fresh
page of `create_new_page_handle` is page number `num_pages`.
`RmFileHandle::create_new_page_handle`: initialize the page header
(`next_free_page_no := first_free_page_no`, `num_records := 0`), zero the
bitmap, increment `num_pages`, and push the new page onto the free list. -/
def RmFile.create_new_page_handle (f : RmFile) : RmFile × Int :=
  let p : Int := (f.file_hdr.num_pages : Int)
  let pg : RmPageData :=
    { next_free_page_no := f.file_hdr.first_free_page_no
      num_records := 0
      bitmap := List.replicate f.file_hdr.num_records_per_page false
      slots := List.replicate f.file_hdr.num_records_per_page
          (List.replicate f.file_hdr.record_size 0) }
  let f' := f.setPage p pg
  ({ f' with file_hdr := { f'.file_hdr with
        num_pages := f'.file_hdr.num_pages + 1
        first_free_page_no := p } }, p)

/-- `RmFileHandle::create_page_handle`: reuse the head of the free list if
there is one, otherwise create a new page.  Returns the page number. -/
def RmFile.create_page_handle (f : RmFile) : RmFile × Except RmError Int :=
  if f.file_hdr.first_free_page_no = RM_NO_PAGE then
    let (f', p) := f.create_new_page_handle
    (f', .ok p)
  else
    match f.fetch_page_handle f.file_hdr.first_free_page_no with
    | .error e => (f, .error e)
    | .ok _ => (f, .ok f.file_hdr.first_free_page_no)

/-- `RmFileHandle::release_page_handle`: push page `p` onto the free list
(`p.next_free_page_no := first_free_page_no; first_free_page_no := p`). -/
def RmFile.release_page_handle (f : RmFile) (p : Int) : RmFile :=
  let pg := f.pages p
  let f' := f.setPage p { pg with next_free_page_no := f.file_hdr.first_free_page_no }
  { f' with file_hdr := { f'.file_hdr with first_free_page_no := p } }

/-- `RmFileHandle::get_record`: fetch the page and copy the slot's bytes out
(no bitmap check), unpin clean. -/
def RmFile.get_record (f : RmFile) (rid : Rid) : Except RmError (List Nat) := do
  let pg ← f.fetch_page_handle rid.page_no
  .ok (pg.slots.getD rid.slot_no.toNat [])

/-- `RmFileHandle::insert_record(buf)` (no Rid): acquire a free page, take the
first clear bit, copy the payload in, set the bit, bump `num_records`, and if
the page is now full pop it off the free list
(`first_free_page_no := page.next_free_page_no`).  Returns the new `Rid`. -/
def RmFile.insert_record (f : RmFile) (buf : List Nat) : RmFile × Except RmError Rid :=
  match f.create_page_handle with
  | (f', .error e) => (f', .error e)
  | (f', .ok p) =>
    let N := f'.file_hdr.num_records_per_page
    let pg := f'.pages p
    let slot_no : Nat := Bitmap.firstBit false pg.bitmap N
    let pg' : RmPageData :=
      { pg with
        slots := pg.slots.set slot_no buf
        bitmap := Bitmap.setBit pg.bitmap (slot_no : Int)
        num_records := pg.num_records + 1 }
    let fb := f'.setPage p pg'
    let fc :=
      if pg'.num_records = (N : Int) then
        { fb with file_hdr :=
            { fb.file_hdr with first_free_page_no := pg'.next_free_page_no } }
      else fb
    (fc, .ok ⟨p, (slot_no : Int)⟩)

/-- `RmFileHandle::insert_record(rid, buf)` (explicit Rid): fetch the page; if
the target bit is already set, unpin clean and raise `RecordNotFound`;
otherwise write the payload, set the bit, bump `num_records`, and if the page
is now full assign `first_free_page_no := page.next_free_page_no`.  The pin
trace records the buffer-pool pin/unpin calls in program order. -/
def RmFile.insert_record_rid (f : RmFile) (rid : Rid) (buf : List Nat) :
    RmFile × Except RmError Unit × List PinEvent :=
  match f.fetch_page_handle rid.page_no with
  | .error e => (f, .error e, [])
  | .ok pg =>
    if Bitmap.test pg.bitmap rid.slot_no then
      (f, .error (.recordNotFound rid.page_no rid.slot_no),
        [.pin rid.page_no, .unpin rid.page_no false])
    else
      let pg' : RmPageData :=
        { pg with
          slots := pg.slots.set rid.slot_no.toNat buf
          bitmap := Bitmap.setBit pg.bitmap rid.slot_no
          num_records := pg.num_records + 1 }
      let f' := f.setPage rid.page_no pg'
      let fb :=
        if pg'.num_records = (f.file_hdr.num_records_per_page : Int) then
          { f' with file_hdr :=
              { f'.file_hdr with first_free_page_no := pg'.next_free_page_no } }
        else f'
      (fb, .ok (), [.pin rid.page_no, .unpin rid.page_no true])

/-- `RmFileHandle::update_record`: fetch; raise `RecordNotFound` if the bit is
clear; overwrite the slot in place; unpin dirty. -/
def RmFile.update_record (f : RmFile) (rid : Rid) (buf : List Nat) :
    RmFile × Except RmError Unit :=
  match f.fetch_page_handle rid.page_no with
  | .error e => (f, .error e)
  | .ok pg =>
    if ¬ Bitmap.test pg.bitmap rid.slot_no then
      (f, .error (.recordNotFound rid.page_no rid.slot_no))
    else
      (f.setPage rid.page_no { pg with slots := pg.slots.set rid.slot_no.toNat buf },
        .ok ())

/-- `RmFileHandle::delete_record`: fetch; raise `RecordNotFound` if the bit is
clear; clear the bit and decrement `num_records`; if the page just went from
full to `N-1` records, push it back onto the free list. -/
def RmFile.delete_record (f : RmFile) (rid : Rid) : RmFile × Except RmError Unit :=
  match f.fetch_page_handle rid.page_no with
  | .error e => (f, .error e)
  | .ok pg =>
    if ¬ Bitmap.test pg.bitmap rid.slot_no then
      (f, .error (.recordNotFound rid.page_no rid.slot_no))
    else
      let pg' : RmPageData :=
        { pg with
          bitmap := Bitmap.resetBit pg.bitmap rid.slot_no
          num_records := pg.num_records - 1 }
      let f' := f.setPage rid.page_no pg'
      let fb :=
        if pg'.num_records = (f.file_hdr.num_records_per_page : Int) - 1 then
          f'.release_page_handle rid.page_no
        else f'
      (fb, .ok ())

/-! ## Scan iterator (`rm_scan.cpp`) -/

/-- The body of `RmScan::next()`: starting the while-loop at cursor
`(page_no, slot_no)`, fetch each page in turn, look for the next set bit
strictly after `slot_no`, and either stop on it or move to the next page with
`slot_no = -1`; when the pages run out set `page_no = RM_NO_PAGE`. -/
def RmFile.scanNextFrom (f : RmFile) (page_no slot_no : Int) : Rid :=
  if h : page_no < (f.file_hdr.num_pages : Int) then
    let s := Bitmap.nextBit true (f.pages page_no).bitmap
        f.file_hdr.num_records_per_page slot_no
    if s < f.file_hdr.num_records_per_page then ⟨page_no, (s : Int)⟩
    else f.scanNextFrom (page_no + 1) (-1)
  else ⟨RM_NO_PAGE, slot_no⟩
termination_by ((f.file_hdr.num_pages : Int) - page_no).toNat
decreasing_by
  simp only [Int.lt_iff_add_one_le] at *
  omega

/-- `RmScan::next()` from a cursor `rid`. -/
def RmFile.scanNext (f : RmFile) (rid : Rid) : Rid :=
  f.scanNextFrom rid.page_no rid.slot_no

/-- The cursor right after `RmScan::RmScan` (the constructor starts at
`(RM_FIRST_RECORD_PAGE, -1)` and immediately calls `next()`). -/
def RmFile.scanBegin (f : RmFile) : Rid :=
  f.scanNextFrom RM_FIRST_RECORD_PAGE (-1)

/-- `RmScan::is_end()`. -/
def RmScan.is_end (rid : Rid) : Bool := rid.page_no = RM_NO_PAGE

/-- Collect the cursor positions visited by repeatedly calling `next()` until
`is_end()`, starting from `rid`, with explicit fuel. -/
def RmFile.scanCollect (f : RmFile) (fuel : Nat) (rid : Rid) : List Rid :=
  if RmScan.is_end rid then []
  else
    match fuel with
    | 0 => []
    | fuel + 1 => rid :: f.scanCollect fuel (f.scanNext rid)

/-- All Rids a full scan of `f` visits (constructor, then `next()` until
`is_end()`).  The fuel bounds the number of live records. -/
def RmFile.scanRids (f : RmFile) : List Rid :=
  f.scanCollect (f.file_hdr.num_pages * f.file_hdr.num_records_per_page) f.scanBegin

/-! ## Live-record enumeration and the free-list chain -/

/-- The record pages of `f`, in page order: `1, 2, …, num_pages - 1`. -/
def RmFile.recordPages (f : RmFile) : List Int :=
  List.map (fun (k : Nat) => (k : Int)) (List.range' 1 (f.file_hdr.num_pages - 1))

/-- The live slot numbers of one page: indices below `N` whose bit is set. -/
def pageLiveSlots (pg : RmPageData) (N : Nat) : List Nat :=
  (List.range N).filter (fun s => pg.bitmap.getD s false)

/-- The live Rids of `f`, in scan (page-major, slot-ascending) order. -/
def RmFile.liveRids (f : RmFile) : List Rid :=
  f.recordPages.flatMap (fun p =>
    (pageLiveSlots (f.pages p) f.file_hdr.num_records_per_page).map
      (fun (s : Nat) => (⟨p, (s : Int)⟩ : Rid)))

/-- The payloads of the live records of `f`, in scan order. -/
def RmFile.liveRecords (f : RmFile) : List (List Nat) :=
  f.recordPages.flatMap (fun p =>
    (pageLiveSlots (f.pages p) f.file_hdr.num_records_per_page).map
      (fun (s : Nat) => (f.pages p).slots.getD s []))

/-- `freeChain f head fl`: `fl` is exactly the free list obtained by walking
`next_free_page_no` links from `head` until the `RM_NO_PAGE` sentinel. -/
def freeChain (f : RmFile) : Int → List Int → Bool
  | head, [] => head = RM_NO_PAGE
  | head, p :: rest =>
    head = p ∧ p ≠ RM_NO_PAGE ∧ freeChain f (f.pages p).next_free_page_no rest

/-- Page `p` is reachable from the free-list head via `next_free_page_no`. -/
def RmFile.onFreeList (f : RmFile) (p : Int) : Prop :=
  ∃ fl, freeChain f f.file_hdr.first_free_page_no fl = true ∧ p ∈ fl

/-- The record-file well-formedness invariant, with the free list made
explicit as `fl`.  It packages I2 (`num_records` = popcount of the bitmap),
I3 (free-list membership ⇔ non-full) and the structural facts they rest on. -/
structure RmInv (f : RmFile) (fl : List Int) : Prop where
  hN : 0 < f.file_hdr.num_records_per_page
  hpages : 1 ≤ f.file_hdr.num_pages
  len_bitmap : ∀ p ∈ f.recordPages,
    (f.pages p).bitmap.length = f.file_hdr.num_records_per_page
  len_slots : ∀ p ∈ f.recordPages,
    (f.pages p).slots.length = f.file_hdr.num_records_per_page
  i2 : ∀ p ∈ f.recordPages,
    (f.pages p).num_records = ((f.pages p).bitmap.count true : Int)
  chain : freeChain f f.file_hdr.first_free_page_no fl = true
  nodup : fl.Nodup
  mem_valid : ∀ p ∈ fl, 1 ≤ p ∧ p < (f.file_hdr.num_pages : Int) ∧
    (f.pages p).num_records < (f.file_hdr.num_records_per_page : Int)
  mem_of_nonfull : ∀ p ∈ f.recordPages,
    (f.pages p).num_records < (f.file_hdr.num_records_per_page : Int) → p ∈ fl

/-! ## Operation sequences -/

/-- A record-file API call. -/
inductive RmOp where
  | ins (buf : List Nat)
  | insRid (rid : Rid) (buf : List Nat)
  | upd (rid : Rid) (buf : List Nat)
  | del (rid : Rid)
deriving DecidableEq, Repr

/-- Apply one call, keeping the state reached even when the call throws
(the source mutates pages in place, so the state at the throw point is the
state the caller sees). -/
def RmFile.applyOp (f : RmFile) : RmOp → RmFile
  | .ins buf => (f.insert_record buf).1
  | .insRid rid buf => (f.insert_record_rid rid buf).1
  | .upd rid buf => (f.update_record rid buf).1
  | .del rid => (f.delete_record rid).1

/-- Run a call sequence left to right. -/
def RmFile.runOps (f : RmFile) : List RmOp → RmFile
  | [] => f
  | op :: ops => (f.applyOp op).runOps ops

/-- An argument-validity bound for one call: payloads have the file's record
size, and explicit Rids point at a record page (`page_no ≥ 1`) and a real slot
(`0 ≤ slot_no < N`) — the shape of every Rid the API itself hands out (I6). -/
def validOp (record_size N : Nat) : RmOp → Bool
  | .ins buf => buf.length = record_size
  | .insRid rid buf =>
    buf.length = record_size ∧ 1 ≤ rid.page_no ∧ 0 ≤ rid.slot_no ∧ rid.slot_no < (N : Int)
  | .upd rid buf =>
    buf.length = record_size ∧ 1 ≤ rid.page_no ∧ 0 ≤ rid.slot_no ∧ rid.slot_no < (N : Int)
  | .del rid => 1 ≤ rid.page_no ∧ 0 ≤ rid.slot_no ∧ rid.slot_no < (N : Int)

/-- Ghost accounting for C1: run the sequence, also collecting the multiset of
inserted payloads and the multiset of payloads removed by the deletes that
succeed (a failing delete removes nothing). -/
def RmFile.runAcc (f : RmFile) :
    List RmOp → RmFile × Multiset (List Nat) × Multiset (List Nat)
  | [] => (f, 0, 0)
  | .ins buf :: ops =>
    let (f', ins, del) := (f.insert_record buf).1.runAcc ops
    (f', buf ::ₘ ins, del)
  | .del rid :: ops =>
    let step := f.delete_record rid
    let (f', ins, del) := step.1.runAcc ops
    match step.2 with
    | .ok _ => (f', ins, ((f.pages rid.page_no).slots.getD rid.slot_no.toNat []) ::ₘ del)
    | .error _ => (f', ins, del)
  | op :: ops => (f.applyOp op).runAcc ops

/-! ## Basic list lemmas -/

theorem getD_set_self {l : List Bool} {i : Nat} (h : i < l.length) (a d : Bool) :
    (l.set i a).getD i d = a := by
  simp [List.getD_eq_getElem?_getD, List.getElem?_set, h]

theorem getD_set_ne {α : Type} {l : List α} {i j : Nat} (h : i ≠ j) (a d : α) :
    (l.set i a).getD j d = l.getD j d := by
  simp [List.getD_eq_getElem?_getD, List.getElem?_set_ne h]

theorem getD_slots_set_self {l : List (List Nat)} {i : Nat} (h : i < l.length)
    (a d : List Nat) : (l.set i a).getD i d = a := by
  simp [List.getD_eq_getElem?_getD, List.getElem?_set, h]

theorem count_set_true {l : List Bool} {i : Nat} (hlen : i < l.length)
    (hbit : l.getD i false = false) :
    (l.set i true).count true = l.count true + 1 := by
  induction l generalizing i with
  | nil => simp at hlen
  | cons b rest ih =>
    cases i with
    | zero =>
      simp only [List.getD_eq_getElem?_getD] at hbit
      simp at hbit
      subst hbit
      simp [List.set, List.count_cons]
    | succ n =>
      simp only [List.length_cons, Nat.succ_lt_succ_iff] at hlen
      have := ih (i := n) hlen (by simpa [List.getD_eq_getElem?_getD] using hbit)
      simp only [List.set, List.count_cons]
      omega

theorem count_set_false {l : List Bool} {i : Nat}
    (hbit : l.getD i false = true) :
    (l.set i false).count true + 1 = l.count true := by
  induction l generalizing i with
  | nil => simp [List.getD_eq_getElem?_getD] at hbit
  | cons b rest ih =>
    cases i with
    | zero =>
      simp only [List.getD_eq_getElem?_getD] at hbit
      simp at hbit
      subst hbit
      simp [List.set, List.count_cons]
    | succ n =>
      have := ih (i := n) (by simpa [List.getD_eq_getElem?_getD] using hbit)
      simp only [List.set, List.count_cons]
      omega

theorem getD_true_lt_length {l : List Bool} {i : Nat}
    (hbit : l.getD i false = true) : i < l.length := by
  by_contra h
  rw [List.getD_eq_getElem?_getD, List.getElem?_eq_none (by omega)] at hbit
  simp at hbit

theorem exists_clear_of_count_lt {l : List Bool}
    (h : l.count true < l.length) : ∃ j, j < l.length ∧ l.getD j false = false := by
  induction l with
  | nil => simp at h
  | cons b rest ih =>
    cases b with
    | false => exact ⟨0, by simp, by simp [List.getD_eq_getElem?_getD]⟩
    | true =>
      simp [List.count_cons, List.length_cons] at h
      obtain ⟨j, hj, hbit⟩ := ih (by omega)
      exact ⟨j + 1, by simpa using hj, by simpa [List.getD_eq_getElem?_getD] using hbit⟩

/-! ## `Bitmap.findFrom` specification -/

theorem findFrom_stop (target : Bool) (bm : List Bool) (max_n start : Nat)
    (hs : start < max_n) (hb : bm.getD start false = target) :
    Bitmap.findFrom target bm max_n start = start := by
  unfold Bitmap.findFrom
  have hk : max_n - start = (max_n - start - 1) + 1 := by omega
  rw [hk, Bitmap.findFromGo, if_pos hb]

theorem findFrom_step (target : Bool) (bm : List Bool) (max_n start : Nat)
    (hs : start < max_n) (hb : bm.getD start false ≠ target) :
    Bitmap.findFrom target bm max_n start =
      Bitmap.findFrom target bm max_n (start + 1) := by
  unfold Bitmap.findFrom
  have hk : max_n - start = (max_n - (start + 1)) + 1 := by omega
  rw [hk, Bitmap.findFromGo, if_neg hb]

theorem findFrom_exhausted (target : Bool) (bm : List Bool) (max_n start : Nat)
    (hs : ¬ start < max_n) : Bitmap.findFrom target bm max_n start = max_n := by
  unfold Bitmap.findFrom
  have hk : max_n - start = 0 := by omega
  rw [hk, Bitmap.findFromGo]

theorem findFrom_le_max (target : Bool) (bm : List Bool) (max_n start : Nat) :
    Bitmap.findFrom target bm max_n start ≤ max_n := by
  by_cases hs : start < max_n
  · by_cases hb : bm.getD start false = target
    · rw [findFrom_stop target bm max_n start hs hb]; omega
    · rw [findFrom_step target bm max_n start hs hb]
      exact findFrom_le_max target bm max_n (start + 1)
  · rw [findFrom_exhausted target bm max_n start hs]
termination_by max_n - start

theorem findFrom_start_le (target : Bool) (bm : List Bool) (max_n start : Nat) :
    start ≤ Bitmap.findFrom target bm max_n start ∨
      Bitmap.findFrom target bm max_n start = max_n := by
  by_cases hs : start < max_n
  · by_cases hb : bm.getD start false = target
    · rw [findFrom_stop target bm max_n start hs hb]; omega
    · rw [findFrom_step target bm max_n start hs hb]
      rcases findFrom_start_le target bm max_n (start + 1) with h | h
      · left; omega
      · right; exact h
  · right; exact findFrom_exhausted target bm max_n start hs
termination_by max_n - start

theorem findFrom_bit (target : Bool) (bm : List Bool) (max_n start : Nat)
    (h : Bitmap.findFrom target bm max_n start < max_n) :
    bm.getD (Bitmap.findFrom target bm max_n start) false = target := by
  by_cases hs : start < max_n
  · by_cases hb : bm.getD start false = target
    · rw [findFrom_stop target bm max_n start hs hb]; exact hb
    · rw [findFrom_step target bm max_n start hs hb] at h ⊢
      exact findFrom_bit target bm max_n (start + 1) h
  · rw [findFrom_exhausted target bm max_n start hs] at h; omega
termination_by max_n - start

theorem findFrom_min (target : Bool) (bm : List Bool) (max_n start : Nat)
    {j : Nat} (h1 : start ≤ j) (h2 : j < Bitmap.findFrom target bm max_n start)
    (h3 : j < max_n) : bm.getD j false ≠ target := by
  by_cases hs : start < max_n
  · by_cases hb : bm.getD start false = target
    · rw [findFrom_stop target bm max_n start hs hb] at h2; omega
    · rw [findFrom_step target bm max_n start hs hb] at h2
      rcases Nat.eq_or_lt_of_le h1 with heq | hlt
      · subst heq; exact hb
      · exact findFrom_min target bm max_n (start + 1) hlt h2 h3
  · rw [findFrom_exhausted target bm max_n start hs] at h2; omega
termination_by max_n - start

/-! ## State-access lemmas -/

theorem pages_setPage_self (f : RmFile) (p : Int) (pg : RmPageData) :
    (f.setPage p pg).pages p = pg := by
  simp [RmFile.setPage]

theorem pages_setPage_ne (f : RmFile) (p : Int) (pg : RmPageData) {q : Int}
    (h : q ≠ p) : (f.setPage p pg).pages q = f.pages q := by
  simp [RmFile.setPage, h]

theorem file_hdr_setPage (f : RmFile) (p : Int) (pg : RmPageData) :
    (f.setPage p pg).file_hdr = f.file_hdr := rfl

theorem mem_recordPages {f : RmFile} {p : Int} :
    p ∈ f.recordPages ↔ 1 ≤ p ∧ p < (f.file_hdr.num_pages : Int) := by
  constructor
  · intro hp
    unfold RmFile.recordPages at hp
    obtain ⟨k, hk, hkp⟩ := List.mem_map.mp hp
    rcases List.mem_range'.mp hk with ⟨i, hi, rfl⟩
    subst hkp
    constructor
    · have : (1 : Nat) ≤ 1 + 1 * i := by omega
      exact_mod_cast this
    · have : 1 + 1 * i < f.file_hdr.num_pages := by omega
      exact_mod_cast this
  · rintro ⟨h1, h2⟩
    unfold RmFile.recordPages
    apply List.mem_map.mpr
    exact ⟨p.toNat, List.mem_range'.mpr ⟨p.toNat - 1, by omega, by omega⟩, by omega⟩

/-! ## Free-chain lemmas -/

theorem freeChain_no_page {f : RmFile} {fl : List Int}
    (h : freeChain f RM_NO_PAGE fl = true) : fl = [] := by
  cases fl with
  | nil => rfl
  | cons p rest =>
    simp only [freeChain, Bool.and_eq_true, decide_eq_true_eq] at h
    exact absurd h.1.symm h.2.1

theorem freeChain_cons {f : RmFile} {head p : Int} {rest : List Int} :
    freeChain f head (p :: rest) = true ↔
      head = p ∧ p ≠ RM_NO_PAGE ∧
        freeChain f (f.pages p).next_free_page_no rest = true := by
  simp [freeChain]

theorem freeChain_nil {f : RmFile} {head : Int} :
    freeChain f head [] = true ↔ head = RM_NO_PAGE := by
  simp [freeChain]

theorem freeChain_frame {f f' : RmFile} {fl : List Int} {head : Int}
    (hsame : ∀ q ∈ fl, (f'.pages q).next_free_page_no = (f.pages q).next_free_page_no)
    (h : freeChain f head fl = true) : freeChain f' head fl = true := by
  induction fl generalizing head with
  | nil => simpa [freeChain_nil] using h
  | cons p rest ih =>
    rw [freeChain_cons] at h ⊢
    refine ⟨h.1, h.2.1, ?_⟩
    rw [hsame p (by simp)]
    exact ih (fun q hq => hsame q (by simp [hq])) h.2.2

theorem freeChain_unique {f : RmFile} {head : Int} {fl fl' : List Int}
    (h : freeChain f head fl = true) (h' : freeChain f head fl' = true) :
    fl = fl' := by
  induction fl generalizing head fl' with
  | nil =>
    rw [freeChain_nil] at h
    subst h
    exact (freeChain_no_page h').symm
  | cons p rest ih =>
    rw [freeChain_cons] at h
    obtain ⟨rfl, hp, hrest⟩ := h
    cases fl' with
    | nil =>
      rw [freeChain_nil] at h'
      exact absurd h' hp
    | cons q rest' =>
      rw [freeChain_cons] at h'
      obtain ⟨rfl, hq, hrest'⟩ := h'
      rw [ih hrest hrest']

theorem freeChain_suffix {f : RmFile} {head : Int} {l1 l2 : List Int} {p : Int}
    (h : freeChain f head (l1 ++ p :: l2) = true) :
    freeChain f (f.pages p).next_free_page_no l2 = true := by
  induction l1 generalizing head with
  | nil =>
    rw [List.nil_append, freeChain_cons] at h
    exact h.2.2
  | cons q rest ih =>
    rw [List.cons_append, freeChain_cons] at h
    exact ih h.2.2

/-! ## Multiset bookkeeping for page updates -/

theorem flatMap_update_multiset {α : Type} (l : List Int) (g g' : Int → List α)
    {p : Int} (hp : p ∈ l) (hnd : l.Nodup)
    (hsame : ∀ q ∈ l, q ≠ p → g' q = g q) :
    (↑(l.flatMap g') + ↑(g p) : Multiset α) = ↑(l.flatMap g) + ↑(g' p) := by
  induction l with
  | nil => simp at hp
  | cons a rest ih =>
    rcases List.mem_cons.mp hp with rfl | hmem
    · have hrest : rest.flatMap g' = rest.flatMap g := by
        apply List.flatMap_congr
        intro q hq
        exact hsame q (by simp [hq]) (fun hqp => (List.nodup_cons.mp hnd).1 (hqp ▸ hq))
      simp only [List.flatMap_cons, hrest]
      rw [← Multiset.coe_add, ← Multiset.coe_add]
      abel
    · have hne : a ≠ p := fun h => (List.nodup_cons.mp hnd).1 (h ▸ hmem)
      have ha : g' a = g a := hsame a (by simp) hne
      have := ih hmem (List.nodup_cons.mp hnd).2
        (fun q hq hqp => hsame q (by simp [hq]) hqp)
      simp only [List.flatMap_cons, ha]
      rw [← Multiset.coe_add, ← Multiset.coe_add, add_assoc, add_assoc, this]

theorem filtermap_set_true {l : List Nat} {s : Nat} {bm : List Bool}
    {slots : List (List Nat)} {buf : List Nat}
    (hnd : l.Nodup) (hs : s ∈ l) (hbit : bm.getD s false = false)
    (hbm : s < bm.length) (hsl : s < slots.length) :
    (↑((l.filter (fun t => (bm.set s true).getD t false)).map
        (fun t => (slots.set s buf).getD t [])) : Multiset (List Nat)) =
      buf ::ₘ ↑((l.filter (fun t => bm.getD t false)).map (fun t => slots.getD t [])) := by
  induction l with
  | nil => simp at hs
  | cons a rest ih =>
    have hans := (List.nodup_cons.mp hnd).1
    have hnd' := (List.nodup_cons.mp hnd).2
    rcases List.mem_cons.mp hs with rfl | hmem
    · have h1 : (bm.set s true).getD s false = true := getD_set_self hbm true false
      have h2 : (slots.set s buf).getD s [] = buf := getD_slots_set_self hsl buf []
      rw [@List.filter_cons_of_pos _ (fun t => (bm.set s true).getD t false) s rest h1,
        @List.filter_cons_of_neg _ (fun t => bm.getD t false) s rest
          (fun h => Bool.false_ne_true (hbit ▸ h)),
        List.map_cons, h2]
      have htail : rest.filter (fun t => (bm.set s true).getD t false) =
          rest.filter (fun t => bm.getD t false) := by
        apply List.filter_congr
        intro t ht
        rw [getD_set_ne (fun h : s = t => hans (h.symm ▸ ht)) true false]
      have hmap : (rest.filter (fun t => bm.getD t false)).map
            (fun t => (slots.set s buf).getD t []) =
          (rest.filter (fun t => bm.getD t false)).map (fun t => slots.getD t []) := by
        apply List.map_congr_left
        intro t ht
        have ht2 : t ∈ rest := (List.mem_filter.mp ht).1
        rw [getD_set_ne (fun h : s = t => hans (h.symm ▸ ht2)) buf []]
      rw [htail, hmap, ← Multiset.cons_coe]
    · have hsa : a ≠ s := fun h => hans (h ▸ hmem)
      have hba : (bm.set s true).getD a false = bm.getD a false :=
        getD_set_ne (fun h => hsa h.symm) true false
      have hma : (slots.set s buf).getD a [] = slots.getD a [] :=
        getD_set_ne (fun h => hsa h.symm) buf []
      by_cases hb : bm.getD a false = true
      · rw [@List.filter_cons_of_pos _ (fun t => (bm.set s true).getD t false) a rest
            (hba.trans hb),
          @List.filter_cons_of_pos _ (fun t => bm.getD t false) a rest hb,
          List.map_cons, List.map_cons, hma,
          ← Multiset.cons_coe, ← Multiset.cons_coe, ih hnd' hmem]
        exact (Multiset.cons_swap _ _ _).symm
      · rw [@List.filter_cons_of_neg _ (fun t => (bm.set s true).getD t false) a rest
            (fun h => hb (hba.symm.trans h)),
          @List.filter_cons_of_neg _ (fun t => bm.getD t false) a rest hb]
        exact ih hnd' hmem

theorem filtermap_set_false {l : List Nat} {s : Nat} {bm : List Bool}
    {slots : List (List Nat)}
    (hnd : l.Nodup) (hs : s ∈ l) (hbit : bm.getD s false = true) :
    (↑((l.filter (fun t => bm.getD t false)).map (fun t => slots.getD t []))
        : Multiset (List Nat)) =
      (slots.getD s []) ::ₘ
        ↑((l.filter (fun t => (bm.set s false).getD t false)).map
          (fun t => slots.getD t [])) := by
  induction l with
  | nil => simp at hs
  | cons a rest ih =>
    have hans := (List.nodup_cons.mp hnd).1
    have hnd' := (List.nodup_cons.mp hnd).2
    rcases List.mem_cons.mp hs with rfl | hmem
    · have hsetbm : s < bm.length := getD_true_lt_length hbit
      have h1 : (bm.set s false).getD s false = false := getD_set_self hsetbm false false
      rw [@List.filter_cons_of_pos _ (fun t => bm.getD t false) s rest hbit,
        @List.filter_cons_of_neg _ (fun t => (bm.set s false).getD t false) s rest
          (fun h => Bool.false_ne_true (h1 ▸ h)),
        List.map_cons]
      have htail : rest.filter (fun t => (bm.set s false).getD t false) =
          rest.filter (fun t => bm.getD t false) := by
        apply List.filter_congr
        intro t ht
        rw [getD_set_ne (fun h : s = t => hans (h.symm ▸ ht)) false false]
      rw [htail, ← Multiset.cons_coe]
    · have hsa : a ≠ s := fun h => hans (h ▸ hmem)
      have hba : (bm.set s false).getD a false = bm.getD a false :=
        getD_set_ne (fun h => hsa h.symm) false false
      by_cases hb : bm.getD a false = true
      · rw [@List.filter_cons_of_pos _ (fun t => bm.getD t false) a rest hb,
          @List.filter_cons_of_pos _ (fun t => (bm.set s false).getD t false) a rest
            (hba.trans hb),
          List.map_cons, List.map_cons, ← Multiset.cons_coe, ← Multiset.cons_coe,
          ih hnd' hmem]
        exact Multiset.cons_swap _ _ _
      · rw [@List.filter_cons_of_neg _ (fun t => bm.getD t false) a rest hb,
          @List.filter_cons_of_neg _ (fun t => (bm.set s false).getD t false) a rest
            (fun h => hb (hba.symm.trans h))]
        exact ih hnd' hmem

theorem recordPages_nodup (f : RmFile) : f.recordPages.Nodup := by
  unfold RmFile.recordPages
  exact List.Nodup.map (fun a b hab => by exact_mod_cast hab) (List.nodup_range' _ _)

theorem recordPages_hdr {f f' : RmFile}
    (h : f'.file_hdr.num_pages = f.file_hdr.num_pages) :
    f'.recordPages = f.recordPages := by
  unfold RmFile.recordPages
  rw [h]

theorem recordPages_grow {f f' : RmFile}
    (h : f'.file_hdr.num_pages = f.file_hdr.num_pages + 1)
    (hpos : 1 ≤ f.file_hdr.num_pages) :
    f'.recordPages = f.recordPages ++ [(f.file_hdr.num_pages : Int)] := by
  unfold RmFile.recordPages
  rw [h]
  have h2 : f.file_hdr.num_pages + 1 - 1 = (f.file_hdr.num_pages - 1) + 1 := by omega
  rw [h2, List.range'_concat, List.map_append]
  have h3 : 1 + 1 * (f.file_hdr.num_pages - 1) = f.file_hdr.num_pages := by omega
  rw [h3, List.map_singleton]

/-- The per-page live-record contribution used by `RmFile.liveRecords`. -/
def pageLiveRecs (pg : RmPageData) (N : Nat) : List (List Nat) :=
  (pageLiveSlots pg N).map (fun s => pg.slots.getD s [])

theorem liveRecords_eq (f : RmFile) :
    f.liveRecords = f.recordPages.flatMap
      (fun p => pageLiveRecs (f.pages p) f.file_hdr.num_records_per_page) := rfl

theorem pageLiveRecs_zero (record_size N n : Nat) :
    pageLiveRecs (zeroPage record_size n) N = [] := by
  unfold pageLiveRecs pageLiveSlots zeroPage
  have : (List.range N).filter
      (fun s => (List.replicate n false).getD s false) = [] := by
    apply List.filter_eq_nil_iff.mpr
    intro a _
    simp [List.getD_eq_getElem?_getD, List.getElem?_replicate]
    split <;> simp
  rw [this]
  rfl

theorem liveRecords_fresh (record_size N : Nat) :
    (freshRmFile record_size N).liveRecords = [] := by
  rw [liveRecords_eq]
  have : (freshRmFile record_size N).recordPages = [] := by
    unfold RmFile.recordPages freshRmFile
    simp
  rw [this]
  rfl

theorem pageLiveRecs_of_bitmap_false {pg : RmPageData} {N n : Nat}
    (h : pg.bitmap = List.replicate n false) : pageLiveRecs pg N = [] := by
  unfold pageLiveRecs pageLiveSlots
  rw [h]
  have hf : (List.range N).filter
      (fun s => (List.replicate n false).getD s false) = [] := by
    apply List.filter_eq_nil_iff.mpr
    intro a _
    simp [List.getD_eq_getElem?_getD, List.getElem?_replicate]
    split <;> simp
  rw [hf]
  rfl

theorem create_new_page_handle_eq (f : RmFile) :
    f.create_new_page_handle =
      ({ file_hdr := { f.file_hdr with
            num_pages := f.file_hdr.num_pages + 1
            first_free_page_no := (f.file_hdr.num_pages : Int) }
         pages := fun q => if q = (f.file_hdr.num_pages : Int) then
             { next_free_page_no := f.file_hdr.first_free_page_no
               num_records := 0
               bitmap := List.replicate f.file_hdr.num_records_per_page false
               slots := List.replicate f.file_hdr.num_records_per_page
                   (List.replicate f.file_hdr.record_size 0) }
           else f.pages q }, (f.file_hdr.num_pages : Int)) := rfl

theorem create_page_handle_none {f : RmFile}
    (h : f.file_hdr.first_free_page_no = RM_NO_PAGE) :
    f.create_page_handle =
      (f.create_new_page_handle.1, .ok f.create_new_page_handle.2) := by
  unfold RmFile.create_page_handle
  rw [if_pos h]

theorem create_page_handle_some {f : RmFile}
    (h : f.file_hdr.first_free_page_no ≠ RM_NO_PAGE)
    (hlt : f.file_hdr.first_free_page_no < (f.file_hdr.num_pages : Int)) :
    f.create_page_handle = (f, .ok f.file_hdr.first_free_page_no) := by
  unfold RmFile.create_page_handle
  rw [if_neg h]
  unfold RmFile.fetch_page_handle
  rw [if_neg (not_le.mpr hlt)]

theorem cnp_np (f : RmFile) :
    f.create_new_page_handle.1.file_hdr.num_pages = f.file_hdr.num_pages + 1 := rfl

theorem cnp_ff (f : RmFile) :
    f.create_new_page_handle.1.file_hdr.first_free_page_no =
      (f.file_hdr.num_pages : Int) := rfl

theorem cnp_rs (f : RmFile) :
    f.create_new_page_handle.1.file_hdr.record_size = f.file_hdr.record_size := rfl

theorem cnp_nrpp (f : RmFile) :
    f.create_new_page_handle.1.file_hdr.num_records_per_page =
      f.file_hdr.num_records_per_page := rfl

theorem cnp_snd (f : RmFile) :
    f.create_new_page_handle.2 = (f.file_hdr.num_pages : Int) := rfl

theorem cnp_pages_self (f : RmFile) :
    f.create_new_page_handle.1.pages (f.file_hdr.num_pages : Int) =
      { next_free_page_no := f.file_hdr.first_free_page_no
        num_records := 0
        bitmap := List.replicate f.file_hdr.num_records_per_page false
        slots := List.replicate f.file_hdr.num_records_per_page
            (List.replicate f.file_hdr.record_size 0) } := by
  show (if ((f.file_hdr.num_pages : Int)) = ((f.file_hdr.num_pages : Int)) then _ else _) = _
  rw [if_pos rfl]

theorem cnp_pages_ne (f : RmFile) {q : Int} (h : q ≠ (f.file_hdr.num_pages : Int)) :
    f.create_new_page_handle.1.pages q = f.pages q := by
  show (if q = ((f.file_hdr.num_pages : Int)) then _ else _) = _
  rw [if_neg h]

theorem create_page_handle_spec {f : RmFile} {fl : List Int} (hinv : RmInv f fl) :
    ∃ f' p rest,
      f.create_page_handle = (f', .ok p) ∧
      RmInv f' (p :: rest) ∧
      f'.file_hdr.first_free_page_no = p ∧
      f'.file_hdr.record_size = f.file_hdr.record_size ∧
      f'.file_hdr.num_records_per_page = f.file_hdr.num_records_per_page ∧
      f.file_hdr.num_pages ≤ f'.file_hdr.num_pages ∧
      f'.liveRecords = f.liveRecords := by
  by_cases hff : f.file_hdr.first_free_page_no = RM_NO_PAGE
  · have hfl : fl = [] := freeChain_no_page (hff ▸ hinv.chain)
    subst hfl
    set f1 := f.create_new_page_handle.1 with hf1
    set pn := (f.file_hdr.num_pages : Int) with hpn
    have hgrow : f1.recordPages = f.recordPages ++ [pn] :=
      recordPages_grow (cnp_np f) hinv.hpages
    have hpn1 : 1 ≤ pn := by
      have := hinv.hpages
      omega
    have hmemPages : ∀ q ∈ f.recordPages, q ≠ pn := by
      intro q hq
      have := (mem_recordPages.mp hq).2
      omega
    refine ⟨f1, pn, [], ?_, ?_, cnp_ff f, cnp_rs f, cnp_nrpp f, by rw [cnp_np f]; omega, ?_⟩
    · rw [create_page_handle_none hff, cnp_snd f]
    · refine ⟨?_, ?_, ?_, ?_, ?_, ?_, ?_, ?_, ?_⟩
      · rw [cnp_nrpp f]; exact hinv.hN
      · rw [cnp_np f]; omega
      · intro q hq
        rw [hgrow] at hq
        rcases List.mem_append.mp hq with hq | hq
        · rw [cnp_pages_ne f (hmemPages q hq), cnp_nrpp f]
          exact hinv.len_bitmap q hq
        · have hq : q = pn := by simpa using hq
          subst hq
          rw [cnp_pages_self f, cnp_nrpp f]
          exact List.length_replicate _ _
      · intro q hq
        rw [hgrow] at hq
        rcases List.mem_append.mp hq with hq | hq
        · rw [cnp_pages_ne f (hmemPages q hq), cnp_nrpp f]
          exact hinv.len_slots q hq
        · have hq : q = pn := by simpa using hq
          subst hq
          rw [cnp_pages_self f, cnp_nrpp f]
          exact List.length_replicate _ _
      · intro q hq
        rw [hgrow] at hq
        rcases List.mem_append.mp hq with hq | hq
        · rw [cnp_pages_ne f (hmemPages q hq)]
          exact hinv.i2 q hq
        · have hq : q = pn := by simpa using hq
          subst hq
          rw [cnp_pages_self f]
          simp [List.count_replicate]
      · rw [freeChain_cons]
        refine ⟨(cnp_ff f).symm ▸ rfl, by rw [RM_NO_PAGE]; omega, ?_⟩
        rw [cnp_pages_self f]
        show freeChain f1 f.file_hdr.first_free_page_no [] = true
        rw [freeChain_nil]
        exact hff
      · simp
      · intro q hq
        have hq : q = pn := by simpa using hq
        subst hq
        refine ⟨hpn1, ?_, ?_⟩
        · rw [cnp_np f]
          push_cast
          omega
        · rw [cnp_pages_self f, cnp_nrpp f]
          show (0 : Int) < (f.file_hdr.num_records_per_page : Int)
          exact_mod_cast hinv.hN
      · intro q hq hnf
        rw [hgrow] at hq
        rcases List.mem_append.mp hq with hq | hq
        · rw [cnp_pages_ne f (hmemPages q hq), cnp_nrpp f] at hnf
          exact absurd (hinv.mem_of_nonfull q hq hnf) (List.not_mem_nil q)
        · simpa using hq
    · rw [liveRecords_eq, liveRecords_eq, hgrow, List.flatMap_append]
      have hnew : [pn].flatMap
          (fun p => pageLiveRecs (f1.pages p) f1.file_hdr.num_records_per_page) = [] := by
        simp only [List.flatMap_cons, List.flatMap_nil, List.append_nil]
        rw [cnp_pages_self f]
        exact pageLiveRecs_of_bitmap_false rfl
      rw [hnew, List.append_nil]
      apply List.flatMap_congr
      intro q hq
      rw [cnp_pages_ne f (hmemPages q hq), cnp_nrpp f]
  · cases fl with
    | nil => exact absurd (freeChain_nil.mp hinv.chain) hff
    | cons h rest =>
      have hchain := hinv.chain
      rw [freeChain_cons] at hchain
      obtain ⟨hh, hne, hrest⟩ := hchain
      have hvalid := hinv.mem_valid h (by simp)
      refine ⟨f, h, rest, ?_, ?_, hh, rfl, rfl, le_refl _, rfl⟩
      · rw [create_page_handle_some hff (hh ▸ hvalid.2.1)]
        rw [hh]
      · have : f.file_hdr.first_free_page_no :: rest = h :: rest := by rw [hh]
        exact hinv

theorem setBit_natCast (bm : List Bool) (s : Nat) :
    Bitmap.setBit bm (s : Int) = bm.set s true := by
  unfold Bitmap.setBit
  rw [Int.toNat_natCast]

theorem test_natCast (bm : List Bool) (s : Nat) :
    Bitmap.test bm (s : Int) = bm.getD s false := by
  unfold Bitmap.test
  rw [Int.toNat_natCast]

theorem firstBit_clear_of_nonfull {bm : List Bool} {N : Nat}
    (hlen : bm.length = N) (hcount : bm.count true < N) :
    Bitmap.firstBit false bm N < N ∧
      bm.getD (Bitmap.firstBit false bm N) false = false := by
  have hcl : bm.count true < bm.length := by omega
  obtain ⟨j, hj, hjbit⟩ := exists_clear_of_count_lt hcl
  have hlt : Bitmap.firstBit false bm N < N := by
    by_contra hge
    have hle := findFrom_le_max false bm N 0
    have heq : Bitmap.firstBit false bm N = N := by unfold Bitmap.firstBit at *; omega
    have := findFrom_min false bm N 0 (Nat.zero_le j)
      (by unfold Bitmap.firstBit at heq; omega) (by omega)
    exact this hjbit
  exact ⟨hlt, findFrom_bit false bm N 0 hlt⟩

theorem insert_record_ok {f : RmFile} {fl : List Int} (hinv : RmInv f fl)
    (buf : List Nat) :
    ∃ f' rid,
      f.insert_record buf = (f', .ok rid) ∧
      (∃ fl', RmInv f' fl') ∧
      f'.file_hdr.record_size = f.file_hdr.record_size ∧
      f'.file_hdr.num_records_per_page = f.file_hdr.num_records_per_page ∧
      f.file_hdr.num_pages ≤ f'.file_hdr.num_pages ∧
      1 ≤ rid.page_no ∧ rid.page_no < (f'.file_hdr.num_pages : Int) ∧
      0 ≤ rid.slot_no ∧
      rid.slot_no < (f'.file_hdr.num_records_per_page : Int) ∧
      Bitmap.test (f'.pages rid.page_no).bitmap rid.slot_no = true ∧
      rid.slot_no.toNat < (f'.pages rid.page_no).slots.length ∧
      (f'.pages rid.page_no).slots.getD rid.slot_no.toNat [] = buf ∧
      (↑f'.liveRecords : Multiset (List Nat)) = buf ::ₘ ↑f.liveRecords := by
  obtain ⟨f1, p, rest, hcph, hinv1, hfirst, hrs1, hN1, hnp1, hlive1⟩ :=
    create_page_handle_spec hinv
  set N := f1.file_hdr.num_records_per_page with hsetN
  set pg := f1.pages p with hsetpg
  set s := Bitmap.firstBit false pg.bitmap N with hsets
  set pg' : RmPageData :=
    { pg with
      slots := pg.slots.set s buf
      bitmap := pg.bitmap.set s true
      num_records := pg.num_records + 1 } with hsetpg'
  set f2 := f1.setPage p pg' with hsetf2
  have hv := hinv1.mem_valid p (by simp)
  have hpmem : p ∈ f1.recordPages := mem_recordPages.mpr ⟨hv.1, hv.2.1⟩
  have hlen_bm : pg.bitmap.length = N := hinv1.len_bitmap p hpmem
  have hlen_sl : pg.slots.length = N := hinv1.len_slots p hpmem
  have hi2p : pg.num_records = (pg.bitmap.count true : Int) := hinv1.i2 p hpmem
  have hcnt : pg.bitmap.count true < N := by
    have := hv.2.2
    rw [hi2p] at this
    exact_mod_cast this
  obtain ⟨hsN, hsbit⟩ := firstBit_clear_of_nonfull hlen_bm hcnt
  have hppos : 1 ≤ p := hv.1
  have hpne : p ≠ RM_NO_PAGE := by rw [RM_NO_PAGE]; omega
  have hpnotr : p ∉ rest := (List.nodup_cons.mp hinv1.nodup).1
  have hchain1 := hinv1.chain
  rw [hfirst, freeChain_cons] at hchain1
  have hc2 := hchain1.2.2
  set f3 : RmFile := if pg'.num_records = (N : Int) then
      { f2 with file_hdr :=
          { f2.file_hdr with first_free_page_no := pg'.next_free_page_no } }
    else f2 with hsetf3
  have heq : f.insert_record buf = (f3, .ok ⟨p, (s : Int)⟩) := by
    unfold RmFile.insert_record
    rw [hcph]
    rfl
  have hsbm : s < pg.bitmap.length := by omega
  have hssl : s < pg.slots.length := by omega
  have hhdr3 : f3.file_hdr.record_size = f1.file_hdr.record_size ∧
      f3.file_hdr.num_records_per_page = f1.file_hdr.num_records_per_page ∧
      f3.file_hdr.num_pages = f1.file_hdr.num_pages := by
    rw [hsetf3]
    split <;> exact ⟨rfl, rfl, rfl⟩
  have hpages3 : f3.pages = f2.pages := by
    rw [hsetf3]
    split <;> rfl
  have hp3 : f3.pages p = pg' := by
    rw [hpages3]
    exact pages_setPage_self f1 p pg'
  have hp3ne : ∀ q : Int, q ≠ p → f3.pages q = f1.pages q := by
    intro q hq
    rw [hpages3]
    exact pages_setPage_ne f1 p pg' hq
  have hrp3 : f3.recordPages = f1.recordPages := recordPages_hdr hhdr3.2.2
  have hsame2 : ∀ q ∈ f1.recordPages, q ≠ p →
      (fun q => pageLiveRecs (f2.pages q) N) q =
        (fun q => pageLiveRecs (f1.pages q) N) q := by
    intro q _ hq
    show pageLiveRecs (f2.pages q) N = pageLiveRecs (f1.pages q) N
    rw [pages_setPage_ne f1 p pg' hq]
  have hg2p : (↑(pageLiveRecs (f2.pages p) N) : Multiset (List Nat)) =
      buf ::ₘ ↑(pageLiveRecs (f1.pages p) N) := by
    rw [pages_setPage_self f1 p pg']
    unfold pageLiveRecs pageLiveSlots
    exact filtermap_set_true (List.nodup_range N) (List.mem_range.mpr hsN)
      hsbit hsbm hssl
  have hupd := flatMap_update_multiset f1.recordPages
      (fun q => pageLiveRecs (f1.pages q) N)
      (fun q => pageLiveRecs (f2.pages q) N)
      hpmem (recordPages_nodup f1) hsame2
  rw [hg2p] at hupd
  have hdelta : (↑f2.liveRecords : Multiset (List Nat)) = buf ::ₘ ↑f1.liveRecords := by
    rw [liveRecords_eq f2, liveRecords_eq f1, recordPages_hdr (show
      f2.file_hdr.num_pages = f1.file_hdr.num_pages from rfl)]
    have h2 : (↑(f1.recordPages.flatMap fun q => pageLiveRecs (f2.pages q) N)
          : Multiset (List Nat)) + ↑(pageLiveRecs (f1.pages p) N) =
        (buf ::ₘ ↑(f1.recordPages.flatMap fun q => pageLiveRecs (f1.pages q) N)) +
          ↑(pageLiveRecs (f1.pages p) N) := by
      rw [hupd, ← Multiset.singleton_add, ← Multiset.singleton_add]
      abel
    exact add_right_cancel h2
  have hlive3 : (↑f3.liveRecords : Multiset (List Nat)) = buf ::ₘ ↑f.liveRecords := by
    have h32 : f3.liveRecords = f2.liveRecords := by
      rw [liveRecords_eq f3, liveRecords_eq f2, recordPages_hdr (show
        f3.file_hdr.num_pages = f2.file_hdr.num_pages from hhdr3.2.2)]
      apply List.flatMap_congr
      intro q _
      rw [hpages3, hhdr3.2.1]
      rfl
    rw [h32, hdelta, hlive1]
  have hcount3 : pg'.num_records = ((pg.bitmap.set s true).count true : Int) := by
    show pg.num_records + 1 = _
    rw [count_set_true hsbm hsbit, hi2p]
    push_cast
    ring
  have hinv3 : ∃ fl', RmInv f3 fl' := by
    by_cases hfull : pg'.num_records = (N : Int)
    · refine ⟨rest, ?_, ?_, ?_, ?_, ?_, ?_, ?_, ?_, ?_⟩
      · rw [hhdr3.2.1]; exact hinv1.hN
      · rw [hhdr3.2.2]; exact hinv1.hpages
      · intro q hq
        rw [hrp3] at hq
        rw [hhdr3.2.1]
        by_cases hqp : q = p
        · subst hqp
          rw [hp3]
          show (pg.bitmap.set s true).length = N
          rw [List.length_set]
          exact hlen_bm
        · rw [hp3ne q hqp]
          exact hinv1.len_bitmap q hq
      · intro q hq
        rw [hrp3] at hq
        rw [hhdr3.2.1]
        by_cases hqp : q = p
        · subst hqp
          rw [hp3]
          show (pg.slots.set s buf).length = N
          rw [List.length_set]
          exact hlen_sl
        · rw [hp3ne q hqp]
          exact hinv1.len_slots q hq
      · intro q hq
        rw [hrp3] at hq
        by_cases hqp : q = p
        · subst hqp
          rw [hp3]
          exact hcount3
        · rw [hp3ne q hqp]
          exact hinv1.i2 q hq
      · have hfchead : f3.file_hdr.first_free_page_no = (f1.pages p).next_free_page_no := by
          rw [hsetf3, if_pos hfull]
        rw [hfchead]
        apply freeChain_frame ?_ hc2
        intro q hq
        rw [hp3ne q (fun h => hpnotr (h ▸ hq))]
      · exact (List.nodup_cons.mp hinv1.nodup).2
      · intro q hq
        have hqp : q ≠ p := fun h => hpnotr (h ▸ hq)
        have hold := hinv1.mem_valid q (by simp [hq])
        rw [hhdr3.2.2, hhdr3.2.1, hp3ne q hqp]
        exact hold
      · intro q hq hnf
        rw [hrp3] at hq
        by_cases hqp : q = p
        · subst hqp
          rw [hp3, hfull, hhdr3.2.1] at hnf
          omega
        · rw [hp3ne q hqp, hhdr3.2.1] at hnf
          have := hinv1.mem_of_nonfull q hq hnf
          rcases List.mem_cons.mp this with h | h
          · exact absurd h hqp
          · exact h
    · refine ⟨p :: rest, ?_, ?_, ?_, ?_, ?_, ?_, ?_, ?_, ?_⟩
      · rw [hhdr3.2.1]; exact hinv1.hN
      · rw [hhdr3.2.2]; exact hinv1.hpages
      · intro q hq
        rw [hrp3] at hq
        rw [hhdr3.2.1]
        by_cases hqp : q = p
        · subst hqp
          rw [hp3]
          show (pg.bitmap.set s true).length = N
          rw [List.length_set]
          exact hlen_bm
        · rw [hp3ne q hqp]
          exact hinv1.len_bitmap q hq
      · intro q hq
        rw [hrp3] at hq
        rw [hhdr3.2.1]
        by_cases hqp : q = p
        · subst hqp
          rw [hp3]
          show (pg.slots.set s buf).length = N
          rw [List.length_set]
          exact hlen_sl
        · rw [hp3ne q hqp]
          exact hinv1.len_slots q hq
      · intro q hq
        rw [hrp3] at hq
        by_cases hqp : q = p
        · subst hqp
          rw [hp3]
          exact hcount3
        · rw [hp3ne q hqp]
          exact hinv1.i2 q hq
      · have hfchead : f3.file_hdr.first_free_page_no = p := by
          rw [hsetf3, if_neg hfull]
          show f1.file_hdr.first_free_page_no = p
          exact hfirst
        rw [hfchead, freeChain_cons]
        refine ⟨rfl, hpne, ?_⟩
        rw [hp3]
        show freeChain f3 (f1.pages p).next_free_page_no rest = true
        apply freeChain_frame ?_ hc2
        intro q hq
        rw [hp3ne q (fun h => hpnotr (h ▸ hq))]
      · exact hinv1.nodup
      · intro q hq
        rcases List.mem_cons.mp hq with rfl | hq2
        · rw [hhdr3.2.2, hhdr3.2.1, hp3]
          refine ⟨hppos, hv.2.1, ?_⟩
          show pg.num_records + 1 < (N : Int)
          have h1 : pg.num_records + 1 ≠ (N : Int) := hfull
          have h2 : pg.num_records < (N : Int) := hv.2.2
          omega
        · have hqp : q ≠ p := fun h => hpnotr (h ▸ hq2)
          have hold := hinv1.mem_valid q (by simp [hq2])
          rw [hhdr3.2.2, hhdr3.2.1, hp3ne q hqp]
          exact hold
      · intro q hq _
        by_cases hqp : q = p
        · subst hqp; simp
        · rw [hrp3] at hq
          rename_i hnf
          rw [hp3ne q hqp, hhdr3.2.1] at hnf
          exact hinv1.mem_of_nonfull q hq hnf
  refine ⟨f3, ⟨p, (s : Int)⟩, heq, hinv3, ?_, ?_, ?_, hppos, ?_, ?_, ?_, ?_, ?_, ?_, hlive3⟩
  · rw [hhdr3.1, hrs1]
  · rw [hhdr3.2.1]
    exact hN1
  · rw [hhdr3.2.2]
    exact hnp1
  · show p < (f3.file_hdr.num_pages : Int)
    rw [hhdr3.2.2]
    exact hv.2.1
  · show (0 : Int) ≤ (s : Int)
    exact_mod_cast Nat.zero_le s
  · show ((s : Int)) < (f3.file_hdr.num_records_per_page : Int)
    rw [hhdr3.2.1]
    exact_mod_cast hsN
  · show Bitmap.test (f3.pages p).bitmap (s : Int) = true
    rw [hp3, test_natCast]
    show (pg.bitmap.set s true).getD s false = true
    exact getD_set_self hsbm true false
  · show ((s : Int)).toNat < (f3.pages p).slots.length
    rw [hp3, Int.toNat_natCast]
    show s < (pg.slots.set s buf).length
    rw [List.length_set]
    exact hssl
  · show (f3.pages p).slots.getD ((s : Int)).toNat [] = buf
    rw [hp3, Int.toNat_natCast]
    exact getD_slots_set_self hssl buf []

theorem fetch_ok {f : RmFile} {page_no : Int}
    (h : page_no < (f.file_hdr.num_pages : Int)) :
    f.fetch_page_handle page_no = .ok (f.pages page_no) := by
  unfold RmFile.fetch_page_handle
  rw [if_neg (not_le.mpr h)]

theorem fetch_err {f : RmFile} {page_no : Int}
    (h : (f.file_hdr.num_pages : Int) ≤ page_no) :
    f.fetch_page_handle page_no = .error (.pageNotExist page_no) := by
  unfold RmFile.fetch_page_handle
  rw [if_pos h]

theorem release_pages_self (f : RmFile) (p : Int) :
    (f.release_page_handle p).pages p =
      { f.pages p with next_free_page_no := f.file_hdr.first_free_page_no } := by
  show (if p = p then _ else _) = _
  rw [if_pos rfl]

theorem release_pages_ne (f : RmFile) {q p : Int} (h : q ≠ p) :
    (f.release_page_handle p).pages q = f.pages q := by
  show (if q = p then _ else _) = _
  rw [if_neg h]

theorem release_hdr_first (f : RmFile) (p : Int) :
    (f.release_page_handle p).file_hdr.first_free_page_no = p := rfl

theorem release_hdr_rs (f : RmFile) (p : Int) :
    (f.release_page_handle p).file_hdr.record_size = f.file_hdr.record_size := rfl

theorem release_hdr_nrpp (f : RmFile) (p : Int) :
    (f.release_page_handle p).file_hdr.num_records_per_page =
      f.file_hdr.num_records_per_page := rfl

theorem release_hdr_np (f : RmFile) (p : Int) :
    (f.release_page_handle p).file_hdr.num_pages = f.file_hdr.num_pages := rfl

theorem delete_record_err_page {f : RmFile} {rid : Rid}
    (h : (f.file_hdr.num_pages : Int) ≤ rid.page_no) :
    f.delete_record rid = (f, .error (.pageNotExist rid.page_no)) := by
  unfold RmFile.delete_record
  rw [fetch_err h]

theorem delete_record_err_clear {f : RmFile} {rid : Rid}
    (hlt : rid.page_no < (f.file_hdr.num_pages : Int))
    (h : Bitmap.test (f.pages rid.page_no).bitmap rid.slot_no = false) :
    f.delete_record rid = (f, .error (.recordNotFound rid.page_no rid.slot_no)) := by
  unfold RmFile.delete_record
  rw [fetch_ok hlt]
  show (if ¬ Bitmap.test (f.pages rid.page_no).bitmap rid.slot_no = true then _
    else _) = _
  rw [if_pos (by rw [h]; simp)]

theorem delete_record_ok {f : RmFile} {fl : List Int} (hinv : RmInv f fl)
    {rid : Rid}
    (hp1 : 1 ≤ rid.page_no) (hplt : rid.page_no < (f.file_hdr.num_pages : Int))
    (hs0 : 0 ≤ rid.slot_no)
    (hsltN : rid.slot_no < (f.file_hdr.num_records_per_page : Int))
    (hbit : Bitmap.test (f.pages rid.page_no).bitmap rid.slot_no = true) :
    ∃ f',
      f.delete_record rid = (f', .ok ()) ∧
      (∃ fl', RmInv f' fl') ∧
      f'.file_hdr.record_size = f.file_hdr.record_size ∧
      f'.file_hdr.num_records_per_page = f.file_hdr.num_records_per_page ∧
      f'.file_hdr.num_pages = f.file_hdr.num_pages ∧
      (↑f.liveRecords : Multiset (List Nat)) =
        ((f.pages rid.page_no).slots.getD rid.slot_no.toNat []) ::ₘ
          ↑f'.liveRecords := by
  set N := f.file_hdr.num_records_per_page with hsetN
  set p := rid.page_no with hsetp
  set s := rid.slot_no.toNat with hsets
  have hscast : rid.slot_no = (s : Int) := by omega
  have hsN : s < N := by omega
  set pg := f.pages p with hsetpg
  have hbit' : pg.bitmap.getD s false = true := hbit
  have hsbm : s < pg.bitmap.length := getD_true_lt_length hbit'
  set pg' : RmPageData :=
    { pg with
      bitmap := pg.bitmap.set s false
      num_records := pg.num_records - 1 } with hsetpg'
  set f2 := f.setPage p pg' with hsetf2
  set f3 : RmFile := if pg'.num_records = (N : Int) - 1 then
      f2.release_page_handle p else f2 with hsetf3
  have heq : f.delete_record rid = (f3, .ok ()) := by
    unfold RmFile.delete_record
    rw [fetch_ok hplt]
    show (if ¬ Bitmap.test (f.pages rid.page_no).bitmap rid.slot_no = true then _
      else _) = _
    rw [if_neg (by rw [hbit]; simp)]
    rfl
  have hpmem : p ∈ f.recordPages := mem_recordPages.mpr ⟨hp1, hplt⟩
  have hlen_bm : pg.bitmap.length = N := hinv.len_bitmap p hpmem
  have hlen_sl : pg.slots.length = N := hinv.len_slots p hpmem
  have hi2p : pg.num_records = (pg.bitmap.count true : Int) := hinv.i2 p hpmem
  have hcset := count_set_false hbit'
  have hcount3 : pg'.num_records = ((pg.bitmap.set s false).count true : Int) := by
    show pg.num_records - 1 = _
    rw [hi2p]
    omega
  have hcle : pg.bitmap.count true ≤ N := by
    rw [← hlen_bm]
    exact List.count_le_length true pg.bitmap
  have hpages3ne : ∀ q : Int, q ≠ p → f3.pages q = f.pages q := by
    intro q hq
    rw [hsetf3]
    split
    · rw [release_pages_ne _ hq]
      exact pages_setPage_ne f p pg' hq
    · exact pages_setPage_ne f p pg' hq
  have hbm3 : (f3.pages p).bitmap = pg.bitmap.set s false := by
    rw [hsetf3]
    split
    · rw [release_pages_self]
      show (f2.pages p).bitmap = _
      rw [pages_setPage_self]
    · rw [pages_setPage_self]
  have hsl3 : (f3.pages p).slots = pg.slots := by
    rw [hsetf3]
    split
    · rw [release_pages_self]
      show (f2.pages p).slots = _
      rw [pages_setPage_self]
    · rw [pages_setPage_self]
  have hnr3 : (f3.pages p).num_records = pg.num_records - 1 := by
    rw [hsetf3]
    split
    · rw [release_pages_self]
      show (f2.pages p).num_records = _
      rw [pages_setPage_self]
    · rw [pages_setPage_self]
  have hhdr3 : f3.file_hdr.record_size = f.file_hdr.record_size ∧
      f3.file_hdr.num_records_per_page = N ∧
      f3.file_hdr.num_pages = f.file_hdr.num_pages := by
    rw [hsetf3]
    split <;> exact ⟨rfl, rfl, rfl⟩
  have hrp3 : f3.recordPages = f.recordPages := recordPages_hdr hhdr3.2.2
  have hlive32 : f3.liveRecords = f2.liveRecords := by
    rw [liveRecords_eq f3, liveRecords_eq f2,
      recordPages_hdr (show f3.file_hdr.num_pages = f2.file_hdr.num_pages from
        hhdr3.2.2)]
    apply List.flatMap_congr
    intro q _
    by_cases hq : q = p
    · subst hq
      have hb2 : (f2.pages p).bitmap = pg.bitmap.set s false := by
        rw [pages_setPage_self]
      have hs2 : (f2.pages p).slots = pg.slots := by
        rw [pages_setPage_self]
      unfold pageLiveRecs pageLiveSlots
      rw [hbm3, hsl3, hb2, hs2, hhdr3.2.1]
      rfl
    · rw [hpages3ne q hq, hhdr3.2.1]
      show pageLiveRecs (f.pages q) N = pageLiveRecs (f2.pages q) _
      rw [pages_setPage_ne f p pg' hq]
      rfl
  have hg2p : (↑(pageLiveRecs (f.pages p) N) : Multiset (List Nat)) =
      (pg.slots.getD s []) ::ₘ ↑(pageLiveRecs (f2.pages p) N) := by
    rw [pages_setPage_self]
    unfold pageLiveRecs pageLiveSlots
    exact filtermap_set_false (List.nodup_range N) (List.mem_range.mpr hsN) hbit'
  have hsame2 : ∀ q ∈ f.recordPages, q ≠ p →
      (fun q => pageLiveRecs (f2.pages q) N) q =
        (fun q => pageLiveRecs (f.pages q) N) q := by
    intro q _ hq
    show pageLiveRecs (f2.pages q) N = pageLiveRecs (f.pages q) N
    rw [pages_setPage_ne f p pg' hq]
  have hupd := flatMap_update_multiset f.recordPages
      (fun q => pageLiveRecs (f.pages q) N)
      (fun q => pageLiveRecs (f2.pages q) N)
      hpmem (recordPages_nodup f) hsame2
  have hdelta : (↑f.liveRecords : Multiset (List Nat)) =
      (pg.slots.getD s []) ::ₘ ↑f2.liveRecords := by
    rw [liveRecords_eq f, liveRecords_eq f2,
      recordPages_hdr (show f2.file_hdr.num_pages = f.file_hdr.num_pages from rfl)]
    have h2 : (↑(f.recordPages.flatMap fun q => pageLiveRecs (f.pages q) N)
          : Multiset (List Nat)) + ↑(pageLiveRecs (f2.pages p) N) =
        ((pg.slots.getD s []) ::ₘ
          ↑(f.recordPages.flatMap fun q => pageLiveRecs (f2.pages q) N)) +
          ↑(pageLiveRecs (f2.pages p) N) := by
      rw [← hupd, hg2p, ← Multiset.singleton_add, ← Multiset.singleton_add]
      abel
    exact add_right_cancel h2
  have hinv3 : ∃ fl', RmInv f3 fl' := by
    by_cases hfull : pg'.num_records = (N : Int) - 1
    · have hwasfull : pg.num_records = (N : Int) := by
        have : pg.num_records - 1 = (N : Int) - 1 := hfull
        omega
      have hpnotfl : p ∉ fl := by
        intro hmem
        have hlt := (hinv.mem_valid p hmem).2.2
        rw [← hsetpg, ← hsetN] at hlt
        omega
      refine ⟨p :: fl, ?_, ?_, ?_, ?_, ?_, ?_, ?_, ?_, ?_⟩
      · rw [hhdr3.2.1]; exact hinv.hN
      · rw [hhdr3.2.2]; exact hinv.hpages
      · intro q hq
        rw [hrp3] at hq
        rw [hhdr3.2.1]
        by_cases hqp : q = p
        · subst hqp
          rw [hbm3, List.length_set]
          exact hlen_bm
        · rw [hpages3ne q hqp]
          exact hinv.len_bitmap q hq
      · intro q hq
        rw [hrp3] at hq
        rw [hhdr3.2.1]
        by_cases hqp : q = p
        · subst hqp
          rw [hsl3]
          exact hlen_sl
        · rw [hpages3ne q hqp]
          exact hinv.len_slots q hq
      · intro q hq
        rw [hrp3] at hq
        by_cases hqp : q = p
        · subst hqp
          rw [hnr3, hbm3]
          rw [hi2p]
          omega
        · rw [hpages3ne q hqp]
          exact hinv.i2 q hq
      · have hfirst3 : f3.file_hdr.first_free_page_no = p := by
          rw [hsetf3, if_pos hfull, release_hdr_first]
        rw [hfirst3, freeChain_cons]
        refine ⟨rfl, by rw [RM_NO_PAGE]; omega, ?_⟩
        have hnext3 : (f3.pages p).next_free_page_no =
            f.file_hdr.first_free_page_no := by
          rw [hsetf3, if_pos hfull, release_pages_self]
          show f2.file_hdr.first_free_page_no = _
          rfl
        rw [hnext3]
        apply freeChain_frame ?_ hinv.chain
        intro q hq
        rw [hpages3ne q (fun h => hpnotfl (h ▸ hq))]
      · exact List.nodup_cons.mpr ⟨hpnotfl, hinv.nodup⟩
      · intro q hq
        rcases List.mem_cons.mp hq with rfl | hq2
        · refine ⟨hp1, ?_, ?_⟩
          · rw [hhdr3.2.2]; exact hplt
          · rw [hhdr3.2.1, hnr3, hwasfull]
            omega
        · have hqp : q ≠ p := fun h => hpnotfl (h ▸ hq2)
          have hold := hinv.mem_valid q hq2
          rw [hhdr3.2.2, hhdr3.2.1, hpages3ne q hqp]
          exact hold
      · intro q hq _
        by_cases hqp : q = p
        · subst hqp; simp
        · rw [hrp3] at hq
          rename_i hnf
          rw [hpages3ne q hqp, hhdr3.2.1] at hnf
          exact List.mem_cons.mpr (Or.inr (hinv.mem_of_nonfull q hq hnf))
    · have hwasnotfull : pg.num_records < (N : Int) := by
        have h1 : pg.num_records ≠ (N : Int) := by
          intro h
          exact hfull (by show pg.num_records - 1 = _; omega)
        rw [hi2p]
        rw [hi2p] at h1
        omega
      have hpfl : p ∈ fl := hinv.mem_of_nonfull p hpmem hwasnotfull
      have hf3f2 : f3 = f2 := by rw [hsetf3, if_neg hfull]
      refine ⟨fl, ?_, ?_, ?_, ?_, ?_, ?_, ?_, ?_, ?_⟩
      · rw [hhdr3.2.1]; exact hinv.hN
      · rw [hhdr3.2.2]; exact hinv.hpages
      · intro q hq
        rw [hrp3] at hq
        rw [hhdr3.2.1]
        by_cases hqp : q = p
        · subst hqp
          rw [hbm3, List.length_set]
          exact hlen_bm
        · rw [hpages3ne q hqp]
          exact hinv.len_bitmap q hq
      · intro q hq
        rw [hrp3] at hq
        rw [hhdr3.2.1]
        by_cases hqp : q = p
        · subst hqp
          rw [hsl3]
          exact hlen_sl
        · rw [hpages3ne q hqp]
          exact hinv.len_slots q hq
      · intro q hq
        rw [hrp3] at hq
        by_cases hqp : q = p
        · subst hqp
          rw [hnr3, hbm3, hi2p]
          omega
        · rw [hpages3ne q hqp]
          exact hinv.i2 q hq
      · have hfirst3 : f3.file_hdr.first_free_page_no =
            f.file_hdr.first_free_page_no := by rw [hf3f2]; rfl
        rw [hfirst3]
        apply freeChain_frame ?_ hinv.chain
        intro q hq
        by_cases hqp : q = p
        · subst hqp
          rw [hf3f2, hsetf2, pages_setPage_self]
        · rw [hpages3ne q hqp]
      · exact hinv.nodup
      · intro q hq
        by_cases hqp : q = p
        · subst hqp
          rw [hhdr3.2.2, hhdr3.2.1, hnr3]
          refine ⟨hp1, hplt, by omega⟩
        · have hold := hinv.mem_valid q hq
          rw [hhdr3.2.2, hhdr3.2.1, hpages3ne q hqp]
          exact hold
      · intro q hq _
        by_cases hqp : q = p
        · subst hqp; exact hpfl
        · rw [hrp3] at hq
          rename_i hnf
          rw [hpages3ne q hqp, hhdr3.2.1] at hnf
          exact hinv.mem_of_nonfull q hq hnf
  refine ⟨f3, heq, hinv3, hhdr3.1, hhdr3.2.1, hhdr3.2.2, ?_⟩
  rw [hlive32]
  exact hdelta

theorem recordPages_fresh (rs N : Nat) : (freshRmFile rs N).recordPages = [] := by
  unfold RmFile.recordPages freshRmFile
  simp

theorem fresh_inv (rs N : Nat) (hN : 0 < N) : RmInv (freshRmFile rs N) [] := by
  have hrp := recordPages_fresh rs N
  refine ⟨hN, le_refl 1, ?_, ?_, ?_, ?_, List.nodup_nil, ?_, ?_⟩
  · intro p hp; rw [hrp] at hp; exact absurd hp (List.not_mem_nil p)
  · intro p hp; rw [hrp] at hp; exact absurd hp (List.not_mem_nil p)
  · intro p hp; rw [hrp] at hp; exact absurd hp (List.not_mem_nil p)
  · rw [freeChain_nil]
    rfl
  · intro p hp; exact absurd hp (List.not_mem_nil p)
  · intro p hp; rw [hrp] at hp; exact absurd hp (List.not_mem_nil p)

/-- Argument-validity bound for the C1 sequences: inserts are unrestricted,
deletes carry a Rid of the shape the API itself returns (I6). -/
def insDelOp (N : Nat) : RmOp → Bool
  | .ins _ => true
  | .del rid => decide (1 ≤ rid.page_no) && decide (0 ≤ rid.slot_no) &&
      decide (rid.slot_no < (N : Int))
  | _ => false

theorem runAcc_nil (f : RmFile) : f.runAcc [] = (f, 0, 0) := rfl

theorem runAcc_ins (f : RmFile) (buf : List Nat) (ops : List RmOp) :
    f.runAcc (.ins buf :: ops) =
      (((f.insert_record buf).1.runAcc ops).1,
        buf ::ₘ ((f.insert_record buf).1.runAcc ops).2.1,
        ((f.insert_record buf).1.runAcc ops).2.2) := rfl

theorem runAcc_del_ok {f f' : RmFile} {rid : Rid}
    (heq : f.delete_record rid = (f', .ok ())) (ops : List RmOp) :
    f.runAcc (.del rid :: ops) =
      ((f'.runAcc ops).1, (f'.runAcc ops).2.1,
        ((f.pages rid.page_no).slots.getD rid.slot_no.toNat []) ::ₘ
          (f'.runAcc ops).2.2) := by
  rcases hr : f'.runAcc ops with ⟨f2, I, D⟩
  show (let step := f.delete_record rid
    match step.1.runAcc ops with
    | (f2, ins, del) =>
      match step.2 with
      | .ok _ => (f2, ins,
          ((f.pages rid.page_no).slots.getD rid.slot_no.toNat []) ::ₘ del)
      | .error _ => (f2, ins, del)) = _
  rw [heq]
  show (match f'.runAcc ops with
    | (f2, ins, del) => (f2, ins,
        ((f.pages rid.page_no).slots.getD rid.slot_no.toNat []) ::ₘ del)) = _
  rw [hr]

theorem runAcc_del_err {f f' : RmFile} {rid : Rid} {e : RmError}
    (heq : f.delete_record rid = (f', .error e)) (ops : List RmOp) :
    f.runAcc (.del rid :: ops) = f'.runAcc ops := by
  rcases hr : f'.runAcc ops with ⟨f2, I, D⟩
  show (let step := f.delete_record rid
    match step.1.runAcc ops with
    | (f2, ins, del) =>
      match step.2 with
      | .ok _ => (f2, ins,
          ((f.pages rid.page_no).slots.getD rid.slot_no.toNat []) ::ₘ del)
      | .error _ => (f2, ins, del)) = _
  rw [heq]
  show (match f'.runAcc ops with
    | (f2, ins, del) => (f2, ins, del)) = _
  rw [hr]

theorem cons_add_swap {α : Type} (a : α) (x y : Multiset α) :
    (a ::ₘ x) + y = x + (a ::ₘ y) := by
  rw [← Multiset.singleton_add, ← Multiset.singleton_add]
  abel

theorem add_cons_eq {α : Type} (c : α) (x y : Multiset α) :
    x + (c ::ₘ y) = c ::ₘ (x + y) := by
  rw [← Multiset.singleton_add, ← Multiset.singleton_add]
  abel

theorem runAcc_spec (ops : List RmOp) :
    ∀ (f : RmFile) (fl : List Int), RmInv f fl →
    (∀ op ∈ ops, insDelOp f.file_hdr.num_records_per_page op = true) →
    ∃ fl', RmInv (f.runAcc ops).1 fl' ∧
      (f.runAcc ops).1.file_hdr.num_records_per_page =
        f.file_hdr.num_records_per_page ∧
      (↑(f.runAcc ops).1.liveRecords : Multiset (List Nat)) + (f.runAcc ops).2.2 =
        ↑f.liveRecords + (f.runAcc ops).2.1 := by
  induction ops with
  | nil =>
    intro f fl hinv _
    exact ⟨fl, hinv, rfl, rfl⟩
  | cons op rest ih =>
    intro f fl hinv hops
    cases op with
    | ins buf =>
      obtain ⟨f1, rid, heq, ⟨fl1, hinv1⟩, _, hN1, _, _, _, _, _, _, _, _, hlive⟩ :=
        insert_record_ok hinv buf
      have hf1 : (f.insert_record buf).1 = f1 := by rw [heq]
      have hops1 : ∀ o ∈ rest,
          insDelOp f1.file_hdr.num_records_per_page o = true := by
        intro o ho
        rw [hN1]
        exact hops o (by simp [ho])
      obtain ⟨fl', hinv', hN', hacc⟩ := ih f1 fl1 hinv1 hops1
      rw [runAcc_ins, hf1]
      refine ⟨fl', hinv', by rw [hN', hN1], ?_⟩
      show (↑(f1.runAcc rest).1.liveRecords : Multiset (List Nat)) +
          (f1.runAcc rest).2.2 =
        ↑f.liveRecords + (buf ::ₘ (f1.runAcc rest).2.1)
      rw [← cons_add_swap, ← hlive]
      exact hacc
    | del rid =>
      have hvalid := hops (.del rid) (by simp)
      simp only [insDelOp, Bool.and_eq_true, decide_eq_true_eq] at hvalid
      obtain ⟨⟨hp1, hs0⟩, hsltN⟩ := hvalid
      by_cases hplt : rid.page_no < (f.file_hdr.num_pages : Int)
      · by_cases hbit : Bitmap.test (f.pages rid.page_no).bitmap rid.slot_no = true
        · obtain ⟨f3, heq, ⟨fl3, hinv3⟩, _, hN3, _, hlive⟩ :=
            delete_record_ok hinv hp1 hplt hs0 hsltN hbit
          have hops3 : ∀ o ∈ rest,
              insDelOp f3.file_hdr.num_records_per_page o = true := by
            intro o ho
            rw [hN3]
            exact hops o (by simp [ho])
          obtain ⟨fl', hinv', hN', hacc⟩ := ih f3 fl3 hinv3 hops3
          rw [runAcc_del_ok heq]
          refine ⟨fl', hinv', by rw [hN', hN3], ?_⟩
          show (↑(f3.runAcc rest).1.liveRecords : Multiset (List Nat)) +
              (((f.pages rid.page_no).slots.getD rid.slot_no.toNat []) ::ₘ
                (f3.runAcc rest).2.2) =
            ↑f.liveRecords + (f3.runAcc rest).2.1
          rw [add_cons_eq, hacc, ← Multiset.cons_add, ← hlive]
        · have heq := delete_record_err_clear hplt
            (by revert hbit
                cases (Bitmap.test (f.pages rid.page_no).bitmap rid.slot_no) <;> simp)
          rw [runAcc_del_err heq]
          exact ih f fl hinv (fun o ho => hops o (by simp [ho]))
      · have hge : (f.file_hdr.num_pages : Int) ≤ rid.page_no := by omega
        have heq := delete_record_err_page hge
        rw [runAcc_del_err heq]
        exact ih f fl hinv (fun o ho => hops o (by simp [ho]))
    | insRid rid buf =>
      have := hops (.insRid rid buf) (by simp)
      simp [insDelOp] at this
    | upd rid buf =>
      have := hops (.upd rid buf) (by simp)
      simp [insDelOp] at this

/-! ## Scan correctness -/

/-- The tail of the scan-order live-Rid enumeration: the live rids strictly
after cursor `(p, s)` in page-major, slot-ascending order. -/
def RmFile.liveAfter (f : RmFile) (p s : Int) : List Rid :=
  if h : p < (f.file_hdr.num_pages : Int) then
    ((pageLiveSlots (f.pages p) f.file_hdr.num_records_per_page).filter
        (fun (t : Nat) => decide (s < (t : Int)))).map (fun t => ⟨p, (t : Int)⟩) ++
      f.liveAfter (p + 1) (-1)
  else []
termination_by ((f.file_hdr.num_pages : Int) - p).toNat
decreasing_by
  simp only [Int.lt_iff_add_one_le] at *
  omega

theorem liveAfter_step {f : RmFile} {p s : Int}
    (h : p < (f.file_hdr.num_pages : Int)) :
    f.liveAfter p s =
      ((pageLiveSlots (f.pages p) f.file_hdr.num_records_per_page).filter
          (fun (t : Nat) => decide (s < (t : Int)))).map (fun t => ⟨p, (t : Int)⟩) ++
        f.liveAfter (p + 1) (-1) := by
  rw [RmFile.liveAfter, dif_pos h]

theorem liveAfter_stop {f : RmFile} {p s : Int}
    (h : ¬ p < (f.file_hdr.num_pages : Int)) : f.liveAfter p s = [] := by
  rw [RmFile.liveAfter, dif_neg h]

theorem scanNextFrom_found {f : RmFile} {p s : Int}
    (hp : p < (f.file_hdr.num_pages : Int))
    (ht : Bitmap.nextBit true (f.pages p).bitmap
      f.file_hdr.num_records_per_page s < f.file_hdr.num_records_per_page) :
    f.scanNextFrom p s = ⟨p, (Bitmap.nextBit true (f.pages p).bitmap
      f.file_hdr.num_records_per_page s : Int)⟩ := by
  rw [RmFile.scanNextFrom, dif_pos hp]
  simp only [ht, if_pos]

theorem scanNextFrom_next {f : RmFile} {p s : Int}
    (hp : p < (f.file_hdr.num_pages : Int))
    (ht : ¬ Bitmap.nextBit true (f.pages p).bitmap
      f.file_hdr.num_records_per_page s < f.file_hdr.num_records_per_page) :
    f.scanNextFrom p s = f.scanNextFrom (p + 1) (-1) := by
  rw [RmFile.scanNextFrom, dif_pos hp]
  simp only [ht, if_neg, if_false]

theorem scanNextFrom_stop {f : RmFile} {p s : Int}
    (hp : ¬ p < (f.file_hdr.num_pages : Int)) :
    f.scanNextFrom p s = ⟨RM_NO_PAGE, s⟩ := by
  rw [RmFile.scanNextFrom, dif_neg hp]

theorem scanCollect_end {f : RmFile} {rid : Rid} (h : RmScan.is_end rid = true)
    (fuel : Nat) : f.scanCollect fuel rid = [] := by
  cases fuel <;> · rw [RmFile.scanCollect]; simp [h]

theorem scanCollect_cons {f : RmFile} {rid : Rid}
    (h : RmScan.is_end rid = false) (fuel : Nat) :
    f.scanCollect (fuel + 1) rid = rid :: f.scanCollect fuel (f.scanNext rid) := by
  rw [RmFile.scanCollect]
  simp [h]

theorem filter_lt_cons_of_min {l : List Nat} (hsort : List.Pairwise (· < ·) l)
    {t : Nat} (ht : t ∈ l) {s : Int} (hst : s < (t : Int))
    (hmin : ∀ j ∈ l, s < (j : Int) → t ≤ j) :
    l.filter (fun (j : Nat) => decide (s < (j : Int))) =
      t :: l.filter (fun (j : Nat) => decide ((t : Int) < (j : Int))) := by
  induction l with
  | nil => simp at ht
  | cons a rest ih =>
    have hpw := List.pairwise_cons.mp hsort
    rcases List.mem_cons.mp ht with rfl | hmem
    · rw [@List.filter_cons_of_pos _ (fun (j : Nat) => decide (s < (j : Int))) t rest
          (decide_eq_true hst),
        @List.filter_cons_of_neg _ (fun (j : Nat) => decide ((t : Int) < (j : Int))) t rest
          (by simp)]
      congr 1
      apply List.filter_congr
      intro j hj
      have haj : t < j := hpw.1 j hj
      have h1 : s < (j : Int) := by omega
      have h2 : (t : Int) < (j : Int) := by exact_mod_cast haj
      rw [decide_eq_true h1, decide_eq_true h2]
    · have hta : ¬ s < (a : Int) := by
        intro hcon
        have := hmin a (by simp) hcon
        have := hpw.1 t hmem
        omega
      rw [List.filter_cons_of_neg (by simpa using hta),
        List.filter_cons_of_neg ?_]
      · exact ih hpw.2 hmem (fun j hj hsj => hmin j (by simp [hj]) hsj)
      · have : a < t := hpw.1 t hmem
        simp only [decide_eq_true_eq]
        omega

theorem pageLiveSlots_sorted (pg : RmPageData) (N : Nat) :
    List.Pairwise (· < ·) (pageLiveSlots pg N) :=
  List.Pairwise.filter _ (List.pairwise_lt_range N)

theorem liveAfter_length_le (f : RmFile) : ∀ (p s : Int),
    (f.liveAfter p s).length ≤
      ((f.file_hdr.num_pages : Int) - p).toNat *
        f.file_hdr.num_records_per_page := by
  intro p s
  by_cases hp : p < (f.file_hdr.num_pages : Int)
  · rw [liveAfter_step hp]
    have hk : (((f.file_hdr.num_pages : Int)) - p).toNat =
        (((f.file_hdr.num_pages : Int)) - (p + 1)).toNat + 1 := by omega
    rw [List.length_append, List.length_map, hk, Nat.succ_mul]
    have h1 : ((pageLiveSlots (f.pages p) f.file_hdr.num_records_per_page).filter
        (fun (t : Nat) => decide (s < (t : Int)))).length ≤
        f.file_hdr.num_records_per_page := by
      calc ((pageLiveSlots (f.pages p) f.file_hdr.num_records_per_page).filter
            (fun (t : Nat) => decide (s < (t : Int)))).length ≤
          (pageLiveSlots (f.pages p) f.file_hdr.num_records_per_page).length :=
            List.length_filter_le _ _
        _ ≤ (List.range f.file_hdr.num_records_per_page).length :=
            List.length_filter_le _ _
        _ = f.file_hdr.num_records_per_page := List.length_range _
    have h2 := liveAfter_length_le f (p + 1) (-1)
    omega
  · rw [liveAfter_stop hp]
    simp
termination_by p _ => ((f.file_hdr.num_pages : Int) - p).toNat
decreasing_by
  simp only [Int.lt_iff_add_one_le] at *
  omega

theorem nextBit_found_props {bm : List Bool} {N : Nat} {s : Int}
    (ht : Bitmap.nextBit true bm N s < N) :
    bm.getD (Bitmap.nextBit true bm N s) false = true ∧
      s < ((Bitmap.nextBit true bm N s : Nat) : Int) ∧
      ∀ j : Nat, j < N → bm.getD j false = true → s < (j : Int) →
        Bitmap.nextBit true bm N s ≤ j := by
  unfold Bitmap.nextBit at *
  refine ⟨findFrom_bit true bm N _ ht, ?_, ?_⟩
  · rcases findFrom_start_le true bm N (s + 1).toNat with h | h
    · have h2 : (s + 1) ≤ ((s + 1).toNat : Int) := Int.self_le_toNat _
      omega
    · omega
  · intro j hjN hjbit hsj
    by_contra hlt
    have hstart : (s + 1).toNat ≤ j := by omega
    exact findFrom_min true bm N (s + 1).toNat hstart (by omega) hjN hjbit

theorem nextBit_none_props {bm : List Bool} {N : Nat} {s : Int}
    (ht : ¬ Bitmap.nextBit true bm N s < N) :
    ∀ j : Nat, j < N → bm.getD j false = true → ¬ s < (j : Int) := by
  intro j hjN hjbit hsj
  unfold Bitmap.nextBit at ht
  have hstart : (s + 1).toNat ≤ j := by omega
  have hle := findFrom_le_max true bm N (s + 1).toNat
  exact findFrom_min true bm N (s + 1).toNat hstart (by omega) hjN hjbit

theorem liveAfter_found {f : RmFile} {p s : Int}
    (hp : p < (f.file_hdr.num_pages : Int))
    (ht : Bitmap.nextBit true (f.pages p).bitmap
      f.file_hdr.num_records_per_page s < f.file_hdr.num_records_per_page) :
    f.liveAfter p s =
      ⟨p, ((Bitmap.nextBit true (f.pages p).bitmap
        f.file_hdr.num_records_per_page s : Nat) : Int)⟩ ::
        f.liveAfter p ((Bitmap.nextBit true (f.pages p).bitmap
          f.file_hdr.num_records_per_page s : Nat) : Int) := by
  obtain ⟨hbit, hst, hmin⟩ := nextBit_found_props ht
  set t := Bitmap.nextBit true (f.pages p).bitmap
    f.file_hdr.num_records_per_page s with hsett
  have htmem : t ∈ pageLiveSlots (f.pages p) f.file_hdr.num_records_per_page := by
    unfold pageLiveSlots
    exact List.mem_filter.mpr ⟨List.mem_range.mpr ht, hbit⟩
  have hmin2 : ∀ j ∈ pageLiveSlots (f.pages p) f.file_hdr.num_records_per_page,
      s < (j : Int) → t ≤ j := by
    intro j hj hsj
    have hj2 := List.mem_filter.mp hj
    exact hmin j (List.mem_range.mp hj2.1) hj2.2 hsj
  rw [liveAfter_step hp, liveAfter_step hp,
    filter_lt_cons_of_min (pageLiveSlots_sorted _ _) htmem hst hmin2,
    List.map_cons]
  rfl

theorem liveAfter_empty_page {f : RmFile} {p s : Int}
    (hp : p < (f.file_hdr.num_pages : Int))
    (ht : ¬ Bitmap.nextBit true (f.pages p).bitmap
      f.file_hdr.num_records_per_page s < f.file_hdr.num_records_per_page) :
    f.liveAfter p s = f.liveAfter (p + 1) (-1) := by
  have hnone := nextBit_none_props ht
  rw [liveAfter_step hp]
  have hfe : (pageLiveSlots (f.pages p) f.file_hdr.num_records_per_page).filter
      (fun (t : Nat) => decide (s < (t : Int))) = [] := by
    apply List.filter_eq_nil_iff.mpr
    intro j hj
    have hj2 := List.mem_filter.mp hj
    have := hnone j (List.mem_range.mp hj2.1) hj2.2
    simpa using this
  rw [hfe]
  rfl

theorem scanCollect_eq (f : RmFile) : ∀ (k : Nat) (p s : Int) (fuel : Nat),
    0 ≤ p →
    (f.liveAfter p s).length +
      ((f.file_hdr.num_pages : Int) - p).toNat ≤ k →
    (f.liveAfter p s).length ≤ fuel →
    f.scanCollect fuel (f.scanNextFrom p s) = f.liveAfter p s := by
  intro k
  induction k with
  | zero =>
    intro p s fuel hp hk _
    have hp2 : ¬ p < (f.file_hdr.num_pages : Int) := by omega
    rw [scanNextFrom_stop hp2, liveAfter_stop hp2]
    exact scanCollect_end (by rw [RmScan.is_end]; simp [RM_NO_PAGE]) fuel
  | succ k ih =>
    intro p s fuel hp hk hfuel
    by_cases hp2 : p < (f.file_hdr.num_pages : Int)
    · by_cases ht : Bitmap.nextBit true (f.pages p).bitmap
          f.file_hdr.num_records_per_page s < f.file_hdr.num_records_per_page
      · set t := Bitmap.nextBit true (f.pages p).bitmap
          f.file_hdr.num_records_per_page s with hsett
        rw [scanNextFrom_found hp2 ht, liveAfter_found hp2 ht]
        have hfl : (f.liveAfter p s).length =
            (f.liveAfter p ((t : Nat) : Int)).length + 1 := by
          rw [liveAfter_found hp2 ht]
          simp
        cases fuel with
        | zero => omega
        | succ m =>
          rw [scanCollect_cons (by
            rw [RmScan.is_end]
            simp only [RM_NO_PAGE]
            simp only [decide_eq_false_iff_not]
            omega) m]
          congr 1
          show f.scanCollect m (f.scanNextFrom p ((t : Nat) : Int)) =
            f.liveAfter p ((t : Nat) : Int)
          exact ih p ((t : Nat) : Int) m hp (by omega) (by omega)
      · rw [scanNextFrom_next hp2 ht, liveAfter_empty_page hp2 ht]
        have hlen : (f.liveAfter p s).length =
            (f.liveAfter (p + 1) (-1)).length := by
          rw [liveAfter_empty_page hp2 ht]
        exact ih (p + 1) (-1) fuel (by omega) (by omega) (by omega)
    · rw [scanNextFrom_stop hp2, liveAfter_stop hp2]
      exact scanCollect_end (by rw [RmScan.is_end]; simp [RM_NO_PAGE]) fuel

theorem liveAfter_eq_suffix (f : RmFile) : ∀ (p : Nat), 1 ≤ p →
    f.liveAfter (p : Int) (-1) =
      (List.map (fun (k : Nat) => (k : Int))
        (List.range' p (f.file_hdr.num_pages - p))).flatMap
        (fun q => (pageLiveSlots (f.pages q)
          f.file_hdr.num_records_per_page).map (fun t => ⟨q, (t : Int)⟩)) := by
  intro p hp
  by_cases h : (p : Int) < (f.file_hdr.num_pages : Int)
  · rw [liveAfter_step h]
    have hnp : p < f.file_hdr.num_pages := by exact_mod_cast h
    rw [show f.file_hdr.num_pages - p = (f.file_hdr.num_pages - (p + 1)) + 1 from
      by omega, List.range'_succ, List.map_cons, List.flatMap_cons]
    congr 1
    · rw [List.filter_eq_self.mpr ?_]
      intro a _
      exact decide_eq_true (by omega)
    · have := liveAfter_eq_suffix f (p + 1) (by omega)
      rw [show ((p : Int)) + 1 = (((p + 1 : Nat) : Nat) : Int) from by push_cast; ring]
      exact this
  · rw [liveAfter_stop h]
    have h0 : f.file_hdr.num_pages - p = 0 := by omega
    rw [h0]
    rfl
termination_by p => f.file_hdr.num_pages - p
decreasing_by omega

theorem liveAfter_one (f : RmFile) : f.liveAfter 1 (-1) = f.liveRids :=
  liveAfter_eq_suffix f 1 (le_refl 1)

/-- The full scan visits exactly the live Rids, in page-major slot-ascending
order. -/
theorem scanRids_eq_liveRids (f : RmFile) : f.scanRids = f.liveRids := by
  unfold RmFile.scanRids RmFile.scanBegin
  have hb : (f.liveAfter 1 (-1)).length ≤
      f.file_hdr.num_pages * f.file_hdr.num_records_per_page := by
    have h1 := liveAfter_length_le f 1 (-1)
    have h2 : (((f.file_hdr.num_pages : Int)) - 1).toNat ≤ f.file_hdr.num_pages := by
      omega
    calc (f.liveAfter 1 (-1)).length ≤
        (((f.file_hdr.num_pages : Int)) - 1).toNat *
          f.file_hdr.num_records_per_page := h1
      _ ≤ f.file_hdr.num_pages * f.file_hdr.num_records_per_page :=
        Nat.mul_le_mul_right _ h2
  have h := scanCollect_eq f
    ((f.liveAfter 1 (-1)).length + (((f.file_hdr.num_pages : Int)) - 1).toNat)
    1 (-1) (f.file_hdr.num_pages * f.file_hdr.num_records_per_page)
    (by omega) (le_refl _) hb
  rw [show RM_FIRST_RECORD_PAGE = (1 : Int) from rfl, h, liveAfter_one]

/-- `rid` designates a live record of `f`: a real slot of a real record page
whose bitmap bit is set. -/
def RmFile.liveAt (f : RmFile) (rid : Rid) : Bool :=
  decide (1 ≤ rid.page_no) &&
  decide (rid.page_no < (f.file_hdr.num_pages : Int)) &&
  decide (0 ≤ rid.slot_no) &&
  decide (rid.slot_no < (f.file_hdr.num_records_per_page : Int)) &&
  Bitmap.test (f.pages rid.page_no).bitmap rid.slot_no

theorem liveRids_nodup (f : RmFile) : f.liveRids.Nodup := by
  unfold RmFile.liveRids
  rw [List.nodup_flatMap]
  constructor
  · intro p _
    apply List.Nodup.map
    · intro a b hab
      have : ((a : Nat) : Int) = ((b : Nat) : Int) := congrArg Rid.slot_no hab
      exact_mod_cast this
    · exact List.Nodup.filter _ (List.nodup_range _)
  · have hnd := recordPages_nodup f
    apply List.Pairwise.imp ?_ hnd
    intro p q hpq
    intro rid h1 h2
    obtain ⟨_, _, rfl⟩ := List.mem_map.mp h1
    obtain ⟨_, _, heq⟩ := List.mem_map.mp h2
    exact hpq (congrArg Rid.page_no heq).symm

theorem mem_liveRids {f : RmFile} {rid : Rid} :
    rid ∈ f.liveRids ↔ f.liveAt rid = true := by
  unfold RmFile.liveRids RmFile.liveAt
  rw [List.mem_flatMap]
  constructor
  · rintro ⟨p, hp, hin⟩
    obtain ⟨s, hs, rfl⟩ := List.mem_map.mp hin
    obtain ⟨hsr, hsb⟩ := List.mem_filter.mp hs
    have hsN := List.mem_range.mp hsr
    obtain ⟨hp1, hp2⟩ := mem_recordPages.mp hp
    simp only [Bool.and_eq_true, decide_eq_true_eq]
    refine ⟨⟨⟨⟨hp1, hp2⟩, by omega⟩, by exact_mod_cast hsN⟩, ?_⟩
    rw [test_natCast]
    exact hsb
  · intro h
    simp only [Bool.and_eq_true, decide_eq_true_eq] at h
    obtain ⟨⟨⟨⟨hp1, hp2⟩, hs0⟩, hsN⟩, hbit⟩ := h
    refine ⟨rid.page_no, mem_recordPages.mpr ⟨hp1, hp2⟩, ?_⟩
    apply List.mem_map.mpr
    refine ⟨rid.slot_no.toNat, ?_, ?_⟩
    · apply List.mem_filter.mpr
      refine ⟨List.mem_range.mpr (by omega), ?_⟩
      exact hbit
    · show (⟨rid.page_no, ((rid.slot_no.toNat : Nat) : Int)⟩ : Rid) = rid
      have : ((rid.slot_no.toNat : Nat) : Int) = rid.slot_no := by omega
      rw [this]

theorem length_liveRids_eq (f : RmFile) :
    f.liveRids.length = f.liveRecords.length := by
  unfold RmFile.liveRids RmFile.liveRecords
  rw [List.length_flatMap, List.length_flatMap]
  congr 1
  apply List.map_congr_left
  intro p _
  show ((pageLiveSlots (f.pages p) f.file_hdr.num_records_per_page).map
      (fun (s : Nat) => (⟨p, (s : Int)⟩ : Rid))).length = _
  rw [List.length_map]
  show _ = ((pageLiveSlots (f.pages p) f.file_hdr.num_records_per_page).map
      (fun (s : Nat) => (f.pages p).slots.getD s [])).length
  rw [List.length_map]

theorem scanCollect_nil_end {f : RmFile} {fuel : Nat} {rid : Rid}
    (hfuel : 0 < fuel) (h : f.scanCollect fuel rid = []) :
    RmScan.is_end rid = true := by
  cases hend : RmScan.is_end rid with
  | true => rfl
  | false =>
    cases fuel with
    | zero => omega
    | succ m =>
      rw [scanCollect_cons hend m] at h
      exact absurd h (List.cons_ne_nil _ _)

/-- C1: after any insert/delete sequence on a fresh heap file, the live
multiset is the inserted payloads minus the deleted ones; the scan visits
exactly the live Rids, each exactly once; a file with no live records is
at end straight from the scan constructor. -/
theorem c1_heap_multiset_and_scan (rs N : Nat) (hN : 0 < N) (ops : List RmOp)
    (hops : ∀ op ∈ ops, insDelOp N op = true) :
    (↑((freshRmFile rs N).runAcc ops).1.liveRecords : Multiset (List Nat)) =
        ((freshRmFile rs N).runAcc ops).2.1 -
          ((freshRmFile rs N).runAcc ops).2.2 ∧
    ((freshRmFile rs N).runAcc ops).2.2 ≤ ((freshRmFile rs N).runAcc ops).2.1 ∧
    ((freshRmFile rs N).runAcc ops).1.scanRids =
        ((freshRmFile rs N).runAcc ops).1.liveRids ∧
    (∀ rid : Rid, ((freshRmFile rs N).runAcc ops).1.scanRids.count rid =
        if ((freshRmFile rs N).runAcc ops).1.liveAt rid = true then 1 else 0) ∧
    (((freshRmFile rs N).runAcc ops).1.liveRecords = [] →
        RmScan.is_end ((freshRmFile rs N).runAcc ops).1.scanBegin = true) := by
  obtain ⟨fl', hinv', hN', hacc⟩ :=
    runAcc_spec ops (freshRmFile rs N) [] (fresh_inv rs N hN) hops
  rw [liveRecords_fresh rs N, Multiset.coe_nil, zero_add] at hacc
  refine ⟨eq_tsub_of_add_eq hacc, ?_, scanRids_eq_liveRids _, ?_, ?_⟩
  · rw [← hacc]
    exact le_add_self
  · intro rid
    rw [scanRids_eq_liveRids]
    by_cases hl : ((freshRmFile rs N).runAcc ops).1.liveAt rid = true
    · rw [if_pos hl]
      exact List.count_eq_one_of_mem (liveRids_nodup _) (mem_liveRids.mpr hl)
    · rw [if_neg hl]
      apply List.count_eq_zero.mpr
      intro hmem
      exact hl (mem_liveRids.mp hmem)
  · intro hempty
    have hlen : ((freshRmFile rs N).runAcc ops).1.liveRids.length = 0 := by
      rw [length_liveRids_eq, hempty]
      rfl
    have hnil : ((freshRmFile rs N).runAcc ops).1.liveRids = [] :=
      List.eq_nil_of_length_eq_zero hlen
    have hscan := scanRids_eq_liveRids ((freshRmFile rs N).runAcc ops).1
    rw [hnil] at hscan
    apply scanCollect_nil_end ?_ hscan
    have h1 := hinv'.hpages
    have h2 := hinv'.hN
    rw [hN'] at h2
    show 0 < ((freshRmFile rs N).runAcc ops).1.file_hdr.num_pages *
      ((freshRmFile rs N).runAcc ops).1.file_hdr.num_records_per_page
    have h3 : 0 < ((freshRmFile rs N).runAcc ops).1.file_hdr.num_records_per_page := by
      rw [hN']
      exact h2
    exact Nat.mul_pos (by omega) h3

/-- A small concrete call sequence used to witness the C1 theorem. -/
def c1SampleOps : List RmOp := [.ins [7], .ins [8], .del ⟨1, 0⟩]

/-- Witness for C1 at `record_size = 1`, `N = 2`, a 3-call sequence. -/
theorem c1_heap_multiset_and_scan_witness :
    (0 < 2 ∧ ∀ op ∈ c1SampleOps, insDelOp 2 op = true) ∧
    ((↑((freshRmFile 1 2).runAcc c1SampleOps).1.liveRecords : Multiset (List Nat)) =
        ((freshRmFile 1 2).runAcc c1SampleOps).2.1 -
          ((freshRmFile 1 2).runAcc c1SampleOps).2.2 ∧
      ((freshRmFile 1 2).runAcc c1SampleOps).2.2 ≤
        ((freshRmFile 1 2).runAcc c1SampleOps).2.1 ∧
      ((freshRmFile 1 2).runAcc c1SampleOps).1.scanRids =
          ((freshRmFile 1 2).runAcc c1SampleOps).1.liveRids ∧
      (∀ rid : Rid, ((freshRmFile 1 2).runAcc c1SampleOps).1.scanRids.count rid =
          if ((freshRmFile 1 2).runAcc c1SampleOps).1.liveAt rid = true
          then 1 else 0) ∧
      (((freshRmFile 1 2).runAcc c1SampleOps).1.liveRecords = [] →
          RmScan.is_end ((freshRmFile 1 2).runAcc c1SampleOps).1.scanBegin =
            true)) :=
  ⟨⟨by decide, by decide⟩,
    c1_heap_multiset_and_scan 1 2 (by decide) c1SampleOps (by decide)⟩

/-- The 7-call sequence (valid Rids throughout, `record_size = 1`, `N = 2`)
after which `insert_record(rid, buf)`'s free-list head assignment strands
non-full page 2: fill pages 1 and 2, free one slot on each (free list
`[2, 1]`), then refill page 1's slot by Rid.  Filling a page that is not the
free-list head sets `first_free_page_no := page.next_free_page_no`, dropping
every earlier list entry. -/
def opsC3 : List RmOp :=
  [.ins [10], .ins [11], .ins [12], .ins [13],
   .del ⟨1, 0⟩, .del ⟨2, 0⟩, .insRid ⟨1, 0⟩ [14]]

/-- Two more calls on top of `opsC3`: the second Rid-insert fills page 2 and
sets the free-list head to stale `page2.next_free_page_no = 1` — a full page.
The next plain insert then fetches full page 1, `first_bit` finds no clear
slot (returns `N`), and `num_records` is incremented to 3 with only 2 bits
set. -/
def opsC2 : List RmOp := opsC3 ++ [.insRid ⟨2, 0⟩ [15], .ins [16]]

/-- C2: invariant I2 (`num_records = popcount(bitmap)`) is NOT preserved by
the record-file operations: after the 9 valid calls of `opsC2` on a fresh
file, record page 1 (with `0 < 1 < num_pages`) reports `num_records = 3`
while its bitmap has only 2 set bits. -/
theorem c2_i2_violated :
    opsC2.all (validOp 1 2) = true ∧
    (0 : Int) < 1 ∧
    1 < (((freshRmFile 1 2).runOps opsC2).file_hdr.num_pages : Int) ∧
    (((freshRmFile 1 2).runOps opsC2).pages 1).num_records ≠
      (((((freshRmFile 1 2).runOps opsC2).pages 1).bitmap.count true : Nat) :
        Int) := by
  refine ⟨by decide, by decide, by decide, by decide⟩

/-- C3: invariant I3 is NOT preserved by `insert_record(rid, buf)`: after the
7 valid calls of `opsC3` on a fresh file, the free list is empty
(`first_free_page_no = RM_NO_PAGE`) although record page 2 is non-full
(1 record of 2) — a non-full page is no longer reachable over the
`next_free_page_no` chain. -/
theorem c3_i3_violated :
    opsC3.all (validOp 1 2) = true ∧
    ((freshRmFile 1 2).runOps opsC3).file_hdr.first_free_page_no = RM_NO_PAGE ∧
    1 ≤ (2 : Int) ∧
    2 < (((freshRmFile 1 2).runOps opsC3).file_hdr.num_pages : Int) ∧
    (((freshRmFile 1 2).runOps opsC3).pages 2).num_records <
      (((freshRmFile 1 2).runOps opsC3).file_hdr.num_records_per_page : Int) ∧
    ¬ ((freshRmFile 1 2).runOps opsC3).onFreeList 2 := by
  refine ⟨by decide, by decide, by decide, by decide, by decide, ?_⟩
  rintro ⟨fl, hchain, hmem⟩
  have hff : ((freshRmFile 1 2).runOps opsC3).file_hdr.first_free_page_no =
      RM_NO_PAGE := by decide
  rw [hff] at hchain
  rw [freeChain_no_page hchain] at hmem
  exact absurd hmem (List.not_mem_nil 2)

/-! ## C4: get/update round trip (`get_record`, `update_record`) -/

/-- Record `r` is stored live at `rid` in `f`: the page exists, the slot index
is in range, the slot holds exactly the bytes of `r`, and the bitmap bit for
the slot is set. -/
def RmFile.holdsAt (f : RmFile) (rid : Rid) (r : List Nat) : Prop :=
  rid.page_no < (f.file_hdr.num_pages : Int) ∧
  rid.slot_no.toNat < (f.pages rid.page_no).slots.length ∧
  (f.pages rid.page_no).slots.getD rid.slot_no.toNat [] = r ∧
  Bitmap.test (f.pages rid.page_no).bitmap rid.slot_no = true

/-- The call does not update or delete the record at `rid` (inserts are always
allowed: an explicit-Rid insert aimed at `rid` throws `RecordNotFound` without
touching the slot).  The slot bound mirrors I6: the API only ever hands out
non-negative slot numbers. -/
def opAvoids (rid : Rid) : RmOp → Bool
  | .ins _ => true
  | .insRid _ _ => true
  | .upd rid2 _ => decide (rid2 ≠ rid) && decide (0 ≤ rid2.slot_no)
  | .del rid2 => decide (rid2 ≠ rid) && decide (0 ≤ rid2.slot_no)

/-- `insert_record` (no Rid) never disturbs a live slot: the fresh-page path
writes only to the brand-new page `num_pages`, and the reuse path writes only
to a clear bit of the free-list head. -/
theorem insert_record_frame (f : RmFile) (buf : List Nat) {rid : Rid}
    {r : List Nat} (h : f.holdsAt rid r)
    (hjN : rid.slot_no.toNat < f.file_hdr.num_records_per_page) :
    (f.insert_record buf).1.holdsAt rid r ∧
    (f.insert_record buf).1.file_hdr.num_records_per_page =
      f.file_hdr.num_records_per_page := by
  obtain ⟨hplt, hslen, hslot, hbit⟩ := h
  by_cases hff : f.file_hdr.first_free_page_no = RM_NO_PAGE
  · have hcph : f.create_page_handle =
        (f.create_new_page_handle.1, .ok f.create_new_page_handle.2) :=
      create_page_handle_none hff
    set f1 := f.create_new_page_handle.1 with hsetf1
    set p := f.create_new_page_handle.2 with hsetp
    set N := f1.file_hdr.num_records_per_page with hsetN
    set pg := f1.pages p with hsetpg
    set s := Bitmap.firstBit false pg.bitmap N with hsets
    set pg' : RmPageData :=
      { pg with
        slots := pg.slots.set s buf
        bitmap := pg.bitmap.set s true
        num_records := pg.num_records + 1 } with hsetpg'
    set f2 := f1.setPage p pg' with hsetf2
    set f3 : RmFile := if pg'.num_records = (N : Int) then
        { f2 with file_hdr :=
            { f2.file_hdr with first_free_page_no := pg'.next_free_page_no } }
      else f2 with hsetf3
    have heq : f.insert_record buf = (f3, .ok ⟨p, (s : Int)⟩) := by
      unfold RmFile.insert_record
      rw [hcph]
      rfl
    have hqnep : rid.page_no ≠ p := by
      rw [hsetp, cnp_snd]
      omega
    have hpages32 : f3.pages = f2.pages := by
      rw [hsetf3]
      split <;> rfl
    have hhdrN : f3.file_hdr.num_records_per_page =
        f.file_hdr.num_records_per_page := by
      have h32 : f3.file_hdr.num_records_per_page =
          f2.file_hdr.num_records_per_page := by
        rw [hsetf3]
        split <;> rfl
      rw [h32]
      show f1.file_hdr.num_records_per_page = f.file_hdr.num_records_per_page
      rw [hsetf1]
      exact cnp_nrpp f
    have hhdrnp : f3.file_hdr.num_pages = f.file_hdr.num_pages + 1 := by
      have h32 : f3.file_hdr.num_pages = f2.file_hdr.num_pages := by
        rw [hsetf3]
        split <;> rfl
      rw [h32]
      show f1.file_hdr.num_pages = f.file_hdr.num_pages + 1
      rw [hsetf1]
      exact cnp_np f
    have hpg : f3.pages rid.page_no = f.pages rid.page_no := by
      rw [hpages32, hsetf2, pages_setPage_ne f1 p pg' hqnep, hsetf1]
      exact cnp_pages_ne f (by rw [hsetp, cnp_snd] at hqnep; exact hqnep)
    rw [heq]
    show f3.holdsAt rid r ∧ f3.file_hdr.num_records_per_page =
      f.file_hdr.num_records_per_page
    refine ⟨⟨?_, ?_, ?_, ?_⟩, hhdrN⟩
    · rw [hhdrnp]
      omega
    · rw [hpg]; exact hslen
    · rw [hpg]; exact hslot
    · rw [hpg]; exact hbit
  · by_cases hlt : f.file_hdr.first_free_page_no < (f.file_hdr.num_pages : Int)
    · have hcph := create_page_handle_some hff hlt
      set p := f.file_hdr.first_free_page_no with hsetp
      set N := f.file_hdr.num_records_per_page with hsetN
      set pg := f.pages p with hsetpg
      set s := Bitmap.firstBit false pg.bitmap N with hsets
      set pg' : RmPageData :=
        { pg with
          slots := pg.slots.set s buf
          bitmap := pg.bitmap.set s true
          num_records := pg.num_records + 1 } with hsetpg'
      set f2 := f.setPage p pg' with hsetf2
      set f3 : RmFile := if pg'.num_records = (N : Int) then
          { f2 with file_hdr :=
              { f2.file_hdr with first_free_page_no := pg'.next_free_page_no } }
        else f2 with hsetf3
      have heq : f.insert_record buf = (f3, .ok ⟨p, (s : Int)⟩) := by
        unfold RmFile.insert_record
        rw [hcph]
        rfl
      have hpages32 : f3.pages = f2.pages := by
        rw [hsetf3]
        split <;> rfl
      have hhdrN : f3.file_hdr.num_records_per_page = N := by
        rw [hsetf3]
        split <;> rfl
      have hhdrnp : f3.file_hdr.num_pages = f.file_hdr.num_pages := by
        rw [hsetf3]
        split <;> rfl
      rw [heq]
      show f3.holdsAt rid r ∧ f3.file_hdr.num_records_per_page = N
      by_cases hqp : rid.page_no = p
      · have hbit2 : pg.bitmap.getD rid.slot_no.toNat false = true := by
          rw [hsetpg, ← hqp]
          exact hbit
        have hslen2 : rid.slot_no.toNat < pg.slots.length := by
          rw [hsetpg, ← hqp]
          exact hslen
        have hslot2 : pg.slots.getD rid.slot_no.toNat [] = r := by
          rw [hsetpg, ← hqp]
          exact hslot
        have hsne : s ≠ rid.slot_no.toNat := by
          by_cases hsN : s < N
          · have hclear : pg.bitmap.getD s false = false :=
              findFrom_bit false pg.bitmap N 0 hsN
            intro hco
            rw [hco, hbit2] at hclear
            exact absurd hclear (by decide)
          · have hle : s ≤ N := by
              rw [hsets]
              exact findFrom_le_max false pg.bitmap N 0
            omega
        have hpgq : f3.pages rid.page_no = pg' := by
          rw [hpages32, hsetf2, hqp]
          exact pages_setPage_self f p pg'
        refine ⟨⟨?_, ?_, ?_, ?_⟩, hhdrN⟩
        · rw [hhdrnp]; exact hplt
        · rw [hpgq]
          show rid.slot_no.toNat < (pg.slots.set s buf).length
          rw [List.length_set]
          exact hslen2
        · rw [hpgq]
          show (pg.slots.set s buf).getD rid.slot_no.toNat [] = r
          rw [getD_set_ne hsne]
          exact hslot2
        · rw [hpgq]
          show (pg.bitmap.set s true).getD rid.slot_no.toNat false = true
          rw [getD_set_ne hsne]
          exact hbit2
      · have hpgq : f3.pages rid.page_no = f.pages rid.page_no := by
          rw [hpages32, hsetf2]
          exact pages_setPage_ne f p pg' hqp
        refine ⟨⟨?_, ?_, ?_, ?_⟩, hhdrN⟩
        · rw [hhdrnp]; exact hplt
        · rw [hpgq]; exact hslen
        · rw [hpgq]; exact hslot
        · rw [hpgq]; exact hbit
    · have hcph : f.create_page_handle =
          (f, .error (.pageNotExist f.file_hdr.first_free_page_no)) := by
        unfold RmFile.create_page_handle
        rw [if_neg hff, fetch_err (by omega)]
      have heq : (f.insert_record buf).1 = f := by
        unfold RmFile.insert_record
        rw [hcph]
      rw [heq]
      exact ⟨⟨hplt, hslen, hslot, hbit⟩, rfl⟩

/-- `insert_record(rid,buf)` on a dangling page number: `PageNotExist`, no
state change, no pin. -/
theorem insRid_err_page {f : RmFile} {rid : Rid} (buf : List Nat)
    (h : (f.file_hdr.num_pages : Int) ≤ rid.page_no) :
    f.insert_record_rid rid buf =
      (f, .error (.pageNotExist rid.page_no), []) := by
  unfold RmFile.insert_record_rid
  rw [fetch_err h]

/-- `insert_record(rid,buf)` on an occupied slot: `RecordNotFound`, no state
change, and the page is unpinned (clean) before the throw. -/
theorem insRid_err_set {f : RmFile} {rid : Rid} (buf : List Nat)
    (hlt : rid.page_no < (f.file_hdr.num_pages : Int))
    (hset : Bitmap.test (f.pages rid.page_no).bitmap rid.slot_no = true) :
    f.insert_record_rid rid buf =
      (f, .error (.recordNotFound rid.page_no rid.slot_no),
        [.pin rid.page_no, .unpin rid.page_no false]) := by
  unfold RmFile.insert_record_rid
  rw [fetch_ok hlt]
  show (if Bitmap.test (f.pages rid.page_no).bitmap rid.slot_no then _ else _) = _
  rw [if_pos hset]

/-- `insert_record(rid,buf)` on a clear slot: the explicit success state. -/
theorem insRid_ok {f : RmFile} {rid : Rid} (buf : List Nat)
    (hlt : rid.page_no < (f.file_hdr.num_pages : Int))
    (hclear : Bitmap.test (f.pages rid.page_no).bitmap rid.slot_no = false) :
    f.insert_record_rid rid buf =
      ((let pg := f.pages rid.page_no
        let pg' : RmPageData :=
          { pg with
            slots := pg.slots.set rid.slot_no.toNat buf
            bitmap := Bitmap.setBit pg.bitmap rid.slot_no
            num_records := pg.num_records + 1 }
        let f2 := f.setPage rid.page_no pg'
        if pg'.num_records = (f.file_hdr.num_records_per_page : Int) then
          { f2 with file_hdr :=
              { f2.file_hdr with first_free_page_no := pg'.next_free_page_no } }
        else f2),
       .ok (), [.pin rid.page_no, .unpin rid.page_no true]) := by
  unfold RmFile.insert_record_rid
  rw [fetch_ok hlt]
  show (if Bitmap.test (f.pages rid.page_no).bitmap rid.slot_no then _ else _) = _
  rw [if_neg (by rw [hclear]; exact Bool.false_ne_true)]

/-- `update_record` on a dangling page number: `PageNotExist`, no change. -/
theorem update_record_err_page {f : RmFile} {rid : Rid} (buf : List Nat)
    (h : (f.file_hdr.num_pages : Int) ≤ rid.page_no) :
    f.update_record rid buf = (f, .error (.pageNotExist rid.page_no)) := by
  unfold RmFile.update_record
  rw [fetch_err h]

/-- `update_record` on a clear bit: `RecordNotFound`, no change. -/
theorem update_record_err_clear {f : RmFile} {rid : Rid} (buf : List Nat)
    (hlt : rid.page_no < (f.file_hdr.num_pages : Int))
    (h : Bitmap.test (f.pages rid.page_no).bitmap rid.slot_no = false) :
    f.update_record rid buf =
      (f, .error (.recordNotFound rid.page_no rid.slot_no)) := by
  unfold RmFile.update_record
  rw [fetch_ok hlt]
  show (if ¬ Bitmap.test (f.pages rid.page_no).bitmap rid.slot_no = true then _
    else _) = _
  rw [if_pos (by rw [h]; simp)]

/-- `update_record` on a set bit: overwrite the slot in place. -/
theorem update_record_ok_eq {f : RmFile} {rid : Rid} (buf : List Nat)
    (hlt : rid.page_no < (f.file_hdr.num_pages : Int))
    (hset : Bitmap.test (f.pages rid.page_no).bitmap rid.slot_no = true) :
    f.update_record rid buf =
      (f.setPage rid.page_no
        { f.pages rid.page_no with
          slots := (f.pages rid.page_no).slots.set rid.slot_no.toNat buf },
       .ok ()) := by
  unfold RmFile.update_record
  rw [fetch_ok hlt]
  show (if ¬ Bitmap.test (f.pages rid.page_no).bitmap rid.slot_no = true then _
    else _) = _
  rw [if_neg (not_not_intro hset)]

/-- `delete_record` on a set bit: the explicit success state. -/
theorem delete_record_ok_eq {f : RmFile} {rid : Rid}
    (hlt : rid.page_no < (f.file_hdr.num_pages : Int))
    (hset : Bitmap.test (f.pages rid.page_no).bitmap rid.slot_no = true) :
    f.delete_record rid =
      ((let pg := f.pages rid.page_no
        let pg' : RmPageData :=
          { pg with
            bitmap := Bitmap.resetBit pg.bitmap rid.slot_no
            num_records := pg.num_records - 1 }
        let f2 := f.setPage rid.page_no pg'
        if pg'.num_records = (f.file_hdr.num_records_per_page : Int) - 1 then
          f2.release_page_handle rid.page_no
        else f2),
       .ok ()) := by
  unfold RmFile.delete_record
  rw [fetch_ok hlt]
  show (if ¬ Bitmap.test (f.pages rid.page_no).bitmap rid.slot_no = true then _
    else _) = _
  rw [if_neg (not_not_intro hset)]

/-- `insert_record(rid2,buf)` never disturbs a live slot: it either throws
without touching the state, or writes a slot whose bit was clear. -/
theorem insert_record_rid_frame (f : RmFile) (rid2 : Rid) (buf : List Nat)
    {rid : Rid} {r : List Nat} (h : f.holdsAt rid r) :
    (f.insert_record_rid rid2 buf).1.holdsAt rid r ∧
    (f.insert_record_rid rid2 buf).1.file_hdr.num_records_per_page =
      f.file_hdr.num_records_per_page := by
  obtain ⟨hplt, hslen, hslot, hbit⟩ := h
  by_cases hpe : (f.file_hdr.num_pages : Int) ≤ rid2.page_no
  · rw [insRid_err_page buf hpe]
    exact ⟨⟨hplt, hslen, hslot, hbit⟩, rfl⟩
  · push_neg at hpe
    by_cases hset : Bitmap.test (f.pages rid2.page_no).bitmap rid2.slot_no = true
    · rw [insRid_err_set buf hpe hset]
      exact ⟨⟨hplt, hslen, hslot, hbit⟩, rfl⟩
    · have hclear : Bitmap.test (f.pages rid2.page_no).bitmap rid2.slot_no = false :=
        Bool.eq_false_iff.mpr hset
      set pg := f.pages rid2.page_no with hsetpg
      set pg' : RmPageData :=
        { pg with
          slots := pg.slots.set rid2.slot_no.toNat buf
          bitmap := Bitmap.setBit pg.bitmap rid2.slot_no
          num_records := pg.num_records + 1 } with hsetpg'
      set f2 := f.setPage rid2.page_no pg' with hsetf2
      set f3 : RmFile := if pg'.num_records = (f.file_hdr.num_records_per_page : Int) then
          { f2 with file_hdr :=
              { f2.file_hdr with first_free_page_no := pg'.next_free_page_no } }
        else f2 with hsetf3
      have heq : (f.insert_record_rid rid2 buf).1 = f3 := by
        rw [insRid_ok buf hpe hclear]
      rw [heq]
      have hpages32 : f3.pages = f2.pages := by
        rw [hsetf3]
        split <;> rfl
      have hhdrN : f3.file_hdr.num_records_per_page =
          f.file_hdr.num_records_per_page := by
        rw [hsetf3]
        split <;> rfl
      have hhdrnp : f3.file_hdr.num_pages = f.file_hdr.num_pages := by
        rw [hsetf3]
        split <;> rfl
      by_cases hqp : rid.page_no = rid2.page_no
      · have hbit2 : pg.bitmap.getD rid.slot_no.toNat false = true := by
          rw [hsetpg, ← hqp]
          exact hbit
        have hclear2 : pg.bitmap.getD rid2.slot_no.toNat false = false := hclear
        have hsne : rid2.slot_no.toNat ≠ rid.slot_no.toNat := by
          intro hco
          rw [hco, hbit2] at hclear2
          exact absurd hclear2 (by decide)
        have hslen2 : rid.slot_no.toNat < pg.slots.length := by
          rw [hsetpg, ← hqp]
          exact hslen
        have hslot2 : pg.slots.getD rid.slot_no.toNat [] = r := by
          rw [hsetpg, ← hqp]
          exact hslot
        have hpgq : f3.pages rid.page_no = pg' := by
          rw [hpages32, hsetf2, hqp]
          exact pages_setPage_self f rid2.page_no pg'
        refine ⟨⟨?_, ?_, ?_, ?_⟩, hhdrN⟩
        · rw [hhdrnp]; exact hplt
        · rw [hpgq]
          show rid.slot_no.toNat < (pg.slots.set rid2.slot_no.toNat buf).length
          rw [List.length_set]
          exact hslen2
        · rw [hpgq]
          show (pg.slots.set rid2.slot_no.toNat buf).getD rid.slot_no.toNat [] = r
          rw [getD_set_ne hsne]
          exact hslot2
        · rw [hpgq]
          show (pg.bitmap.set rid2.slot_no.toNat true).getD rid.slot_no.toNat false
            = true
          rw [getD_set_ne hsne]
          exact hbit2
      · have hpgq : f3.pages rid.page_no = f.pages rid.page_no := by
          rw [hpages32, hsetf2]
          exact pages_setPage_ne f rid2.page_no pg' hqp
        refine ⟨⟨?_, ?_, ?_, ?_⟩, hhdrN⟩
        · rw [hhdrnp]; exact hplt
        · rw [hpgq]; exact hslen
        · rw [hpgq]; exact hslot
        · rw [hpgq]; exact hbit

/-- `update_record` at a Rid other than `rid` never disturbs the record at
`rid` (slot numbers are taken non-negative, the shape of every Rid the API
hands out). -/
theorem update_record_frame (f : RmFile) (rid2 : Rid) (buf : List Nat)
    {rid : Rid} {r : List Nat} (h : f.holdsAt rid r)
    (hne : rid2 ≠ rid) (hs2 : 0 ≤ rid2.slot_no) (hs : 0 ≤ rid.slot_no) :
    (f.update_record rid2 buf).1.holdsAt rid r ∧
    (f.update_record rid2 buf).1.file_hdr.num_records_per_page =
      f.file_hdr.num_records_per_page := by
  obtain ⟨hplt, hslen, hslot, hbit⟩ := h
  by_cases hpe : (f.file_hdr.num_pages : Int) ≤ rid2.page_no
  · rw [update_record_err_page buf hpe]
    exact ⟨⟨hplt, hslen, hslot, hbit⟩, rfl⟩
  · push_neg at hpe
    by_cases hset : Bitmap.test (f.pages rid2.page_no).bitmap rid2.slot_no = true
    · rw [update_record_ok_eq buf hpe hset]
      by_cases hqp : rid.page_no = rid2.page_no
      · have hsne : rid2.slot_no.toNat ≠ rid.slot_no.toNat := by
          intro hco
          have hsl : rid2.slot_no = rid.slot_no := by omega
          apply hne
          have h1 : rid2 = (⟨rid2.page_no, rid2.slot_no⟩ : Rid) := rfl
          rw [h1, hsl, hqp.symm]
        refine ⟨⟨?_, ?_, ?_, ?_⟩, rfl⟩
        · exact hplt
        · rw [hqp, pages_setPage_self]
          show rid.slot_no.toNat <
            ((f.pages rid2.page_no).slots.set rid2.slot_no.toNat buf).length
          rw [List.length_set, ← hqp]
          exact hslen
        · rw [hqp, pages_setPage_self]
          show ((f.pages rid2.page_no).slots.set rid2.slot_no.toNat buf).getD
            rid.slot_no.toNat [] = r
          rw [getD_set_ne hsne, ← hqp]
          exact hslot
        · rw [hqp, pages_setPage_self]
          show Bitmap.test (f.pages rid2.page_no).bitmap rid.slot_no = true
          rw [← hqp]
          exact hbit
      · refine ⟨⟨?_, ?_, ?_, ?_⟩, rfl⟩
        · exact hplt
        · rw [pages_setPage_ne f rid2.page_no _ hqp]; exact hslen
        · rw [pages_setPage_ne f rid2.page_no _ hqp]; exact hslot
        · rw [pages_setPage_ne f rid2.page_no _ hqp]; exact hbit
    · have hclear : Bitmap.test (f.pages rid2.page_no).bitmap rid2.slot_no = false :=
        Bool.eq_false_iff.mpr hset
      rw [update_record_err_clear buf hpe hclear]
      exact ⟨⟨hplt, hslen, hslot, hbit⟩, rfl⟩

/-- `delete_record` at a Rid other than `rid` never disturbs the record at
`rid`. -/
theorem delete_record_frame (f : RmFile) (rid2 : Rid)
    {rid : Rid} {r : List Nat} (h : f.holdsAt rid r)
    (hne : rid2 ≠ rid) (hs2 : 0 ≤ rid2.slot_no) (hs : 0 ≤ rid.slot_no) :
    (f.delete_record rid2).1.holdsAt rid r ∧
    (f.delete_record rid2).1.file_hdr.num_records_per_page =
      f.file_hdr.num_records_per_page := by
  obtain ⟨hplt, hslen, hslot, hbit⟩ := h
  by_cases hpe : (f.file_hdr.num_pages : Int) ≤ rid2.page_no
  · rw [delete_record_err_page hpe]
    exact ⟨⟨hplt, hslen, hslot, hbit⟩, rfl⟩
  · push_neg at hpe
    by_cases hset : Bitmap.test (f.pages rid2.page_no).bitmap rid2.slot_no = true
    · set pg := f.pages rid2.page_no with hsetpg
      set pg' : RmPageData :=
        { pg with
          bitmap := Bitmap.resetBit pg.bitmap rid2.slot_no
          num_records := pg.num_records - 1 } with hsetpg'
      set f2 := f.setPage rid2.page_no pg' with hsetf2
      set f3 : RmFile := if pg'.num_records =
          (f.file_hdr.num_records_per_page : Int) - 1 then
          f2.release_page_handle rid2.page_no
        else f2 with hsetf3
      have heq : (f.delete_record rid2).1 = f3 := by
        rw [delete_record_ok_eq hpe hset]
      rw [heq]
      have hhdrN : f3.file_hdr.num_records_per_page =
          f.file_hdr.num_records_per_page := by
        rw [hsetf3]
        split
        · exact release_hdr_nrpp f2 rid2.page_no
        · rfl
      have hhdrnp : f3.file_hdr.num_pages = f.file_hdr.num_pages := by
        rw [hsetf3]
        split
        · exact release_hdr_np f2 rid2.page_no
        · rfl
      by_cases hqp : rid.page_no = rid2.page_no
      · have hsne : rid2.slot_no.toNat ≠ rid.slot_no.toNat := by
          intro hco
          have hsl : rid2.slot_no = rid.slot_no := by omega
          apply hne
          have h1 : rid2 = (⟨rid2.page_no, rid2.slot_no⟩ : Rid) := rfl
          rw [h1, hsl, hqp.symm]
        have hpgq : f3.pages rid.page_no = pg' ∨
            f3.pages rid.page_no =
              { pg' with next_free_page_no := f2.file_hdr.first_free_page_no } := by
          rw [hqp, hsetf3]
          split
          · right
            rw [release_pages_self f2 rid2.page_no, hsetf2, pages_setPage_self]
          · left
            rw [hsetf2]
            exact pages_setPage_self f rid2.page_no pg'
        refine ⟨⟨?_, ?_, ?_, ?_⟩, hhdrN⟩
        · rw [hhdrnp]; exact hplt
        · rcases hpgq with hq | hq
          · rw [hq]
            show rid.slot_no.toNat < pg.slots.length
            rw [hsetpg, ← hqp]
            exact hslen
          · rw [hq]
            show rid.slot_no.toNat < pg.slots.length
            rw [hsetpg, ← hqp]
            exact hslen
        · rcases hpgq with hq | hq
          · rw [hq]
            show pg.slots.getD rid.slot_no.toNat [] = r
            rw [hsetpg, ← hqp]
            exact hslot
          · rw [hq]
            show pg.slots.getD rid.slot_no.toNat [] = r
            rw [hsetpg, ← hqp]
            exact hslot
        · rcases hpgq with hq | hq
          · rw [hq]
            show (pg.bitmap.set rid2.slot_no.toNat false).getD
              rid.slot_no.toNat false = true
            rw [getD_set_ne hsne, hsetpg, ← hqp]
            exact hbit
          · rw [hq]
            show (pg.bitmap.set rid2.slot_no.toNat false).getD
              rid.slot_no.toNat false = true
            rw [getD_set_ne hsne, hsetpg, ← hqp]
            exact hbit
      · have hpgq : f3.pages rid.page_no = f.pages rid.page_no := by
          rw [hsetf3]
          split
          · rw [release_pages_ne f2 hqp, hsetf2]
            exact pages_setPage_ne f rid2.page_no pg' hqp
          · rw [hsetf2]
            exact pages_setPage_ne f rid2.page_no pg' hqp
        refine ⟨⟨?_, ?_, ?_, ?_⟩, hhdrN⟩
        · rw [hhdrnp]; exact hplt
        · rw [hpgq]; exact hslen
        · rw [hpgq]; exact hslot
        · rw [hpgq]; exact hbit
    · have hclear : Bitmap.test (f.pages rid2.page_no).bitmap rid2.slot_no = false :=
        Bool.eq_false_iff.mpr hset
      rw [delete_record_err_clear hpe hclear]
      exact ⟨⟨hplt, hslen, hslot, hbit⟩, rfl⟩

/-- One avoiding call preserves a live record. -/
theorem holdsAt_applyOp {f : RmFile} {rid : Rid} {r : List Nat}
    (h : f.holdsAt rid r) (hs : 0 ≤ rid.slot_no)
    (hjN : rid.slot_no.toNat < f.file_hdr.num_records_per_page)
    (op : RmOp) (hop : opAvoids rid op = true) :
    (f.applyOp op).holdsAt rid r ∧
    (f.applyOp op).file_hdr.num_records_per_page =
      f.file_hdr.num_records_per_page := by
  cases op with
  | ins buf => exact insert_record_frame f buf h hjN
  | insRid rid2 buf => exact insert_record_rid_frame f rid2 buf h
  | upd rid2 buf =>
    simp only [opAvoids, Bool.and_eq_true, decide_eq_true_eq] at hop
    exact update_record_frame f rid2 buf h hop.1 hop.2 hs
  | del rid2 =>
    simp only [opAvoids, Bool.and_eq_true, decide_eq_true_eq] at hop
    exact delete_record_frame f rid2 h hop.1 hop.2 hs

/-- A whole sequence of avoiding calls preserves a live record. -/
theorem holdsAt_runOps {rid : Rid} (hs : 0 ≤ rid.slot_no) :
    ∀ (ops : List RmOp) (f : RmFile) (r : List Nat),
      f.holdsAt rid r →
      rid.slot_no.toNat < f.file_hdr.num_records_per_page →
      (∀ op ∈ ops, opAvoids rid op = true) →
      (f.runOps ops).holdsAt rid r ∧
      (f.runOps ops).file_hdr.num_records_per_page =
        f.file_hdr.num_records_per_page := by
  intro ops
  induction ops with
  | nil => exact fun f r h _ _ => ⟨h, rfl⟩
  | cons op ops ih =>
    intro f r h hj hall
    obtain ⟨h1, hN1⟩ := holdsAt_applyOp h hs hj op (hall op (by simp))
    obtain ⟨h2, hN2⟩ := ih (f.applyOp op) r h1 (by rw [hN1]; exact hj)
      (fun o ho => hall o (by simp [ho]))
    exact ⟨h2, hN2.trans hN1⟩

/-- A live record is what `get_record` returns. -/
theorem get_record_of_holdsAt {f : RmFile} {rid : Rid} {r : List Nat}
    (h : f.holdsAt rid r) : f.get_record rid = .ok r := by
  obtain ⟨hplt, _, hslot, _⟩ := h
  unfold RmFile.get_record
  rw [fetch_ok hplt]
  exact congrArg Except.ok hslot

/-- `update_record` at a live Rid succeeds and afterwards `get_record`
returns the new payload. -/
theorem update_then_get {f : RmFile} {rid : Rid} {r : List Nat}
    (h : f.holdsAt rid r) (u : List Nat) :
    (f.update_record rid u).2 = .ok () ∧
    (f.update_record rid u).1.get_record rid = .ok u := by
  obtain ⟨hplt, hslen, _, hbit⟩ := h
  rw [update_record_ok_eq u hplt hbit]
  refine ⟨rfl, ?_⟩
  set f2 := f.setPage rid.page_no
      { f.pages rid.page_no with
        slots := (f.pages rid.page_no).slots.set rid.slot_no.toNat u } with hsetf2
  show f2.get_record rid = .ok u
  unfold RmFile.get_record
  rw [fetch_ok (show rid.page_no < (f2.file_hdr.num_pages : Int) from hplt)]
  show Except.ok ((f2.pages rid.page_no).slots.getD rid.slot_no.toNat []) =
    Except.ok u
  rw [hsetf2, pages_setPage_self]
  show Except.ok (((f.pages rid.page_no).slots.set rid.slot_no.toNat u).getD
    rid.slot_no.toNat []) = Except.ok u
  rw [getD_slots_set_self hslen]

/-- C4: round trip through the record file.  From any well-formed file state,
`insert_record r` (payload of the file's record size) succeeds with some Rid
`rid`; `get_record rid` returns `r` after any further sequence of calls none
of which updates or deletes `rid`; and at any such point `update_record rid u`
reports success and a subsequent `get_record rid` returns `u`. -/
theorem c4_get_update_roundtrip {f : RmFile} {fl : List Int} (hinv : RmInv f fl)
    (r : List Nat) (_hr : r.length = f.file_hdr.record_size) :
    ∃ f1 rid, f.insert_record r = (f1, .ok rid) ∧
      ∀ ops : List RmOp, (∀ op ∈ ops, opAvoids rid op = true) →
        (f1.runOps ops).get_record rid = .ok r ∧
        ∀ u : List Nat,
          ((f1.runOps ops).update_record rid u).2 = .ok () ∧
          ((f1.runOps ops).update_record rid u).1.get_record rid = .ok u := by
  obtain ⟨f1, rid, heq, _, _, _, _, _, hplt, hs0, hsltN, hbit, hslen, hslot, _⟩ :=
    insert_record_ok hinv r
  refine ⟨f1, rid, heq, ?_⟩
  intro ops hops
  have hhold : f1.holdsAt rid r := ⟨hplt, hslen, hslot, hbit⟩
  have hjN : rid.slot_no.toNat < f1.file_hdr.num_records_per_page := by omega
  obtain ⟨h2, _⟩ := holdsAt_runOps hs0 ops f1 r hhold hjN hops
  exact ⟨get_record_of_holdsAt h2, fun u => update_then_get h2 u⟩

/-- Witness for C4: fresh file with `record_size = 1`, `N = 2`, payload `[5]`. -/
theorem c4_get_update_roundtrip_witness :
    [5].length = (freshRmFile 1 2).file_hdr.record_size ∧
    ∃ f1 rid, (freshRmFile 1 2).insert_record [5] = (f1, .ok rid) ∧
      ∀ ops : List RmOp, (∀ op ∈ ops, opAvoids rid op = true) →
        (f1.runOps ops).get_record rid = .ok [5] ∧
        ∀ u : List Nat,
          ((f1.runOps ops).update_record rid u).2 = .ok () ∧
          ((f1.runOps ops).update_record rid u).1.get_record rid = .ok u :=
  ⟨by decide, c4_get_update_roundtrip (fresh_inv 1 2 (by decide)) [5] (by decide)⟩

/-- C5: `insert_record(rid, buf)`.  On an occupied slot it raises
`RecordNotFound` atomically — the returned state is the unmodified `f` (so
bitmap, `num_records`, slot contents and the free-list head are untouched) and
the pin trace shows the page unpinned (clean) before the throw.  On a clear
slot it writes the payload, sets the bit, bumps `num_records`, unpins dirty,
and unlinks the page from the free list exactly when the page becomes full
(otherwise the page stays on the free list and the head pointer is
unchanged). -/
theorem c5_insert_rid_atomic_and_unlink {f : RmFile} {fl : List Int}
    (hinv : RmInv f fl) {rid : Rid} (buf : List Nat)
    (hp1 : 1 ≤ rid.page_no) (hplt : rid.page_no < (f.file_hdr.num_pages : Int))
    (hs0 : 0 ≤ rid.slot_no)
    (hsN : rid.slot_no < (f.file_hdr.num_records_per_page : Int)) :
    (Bitmap.test (f.pages rid.page_no).bitmap rid.slot_no = true →
      f.insert_record_rid rid buf =
        (f, .error (.recordNotFound rid.page_no rid.slot_no),
          [.pin rid.page_no, .unpin rid.page_no false])) ∧
    (Bitmap.test (f.pages rid.page_no).bitmap rid.slot_no = false →
      (f.insert_record_rid rid buf).2.1 = .ok () ∧
      (f.insert_record_rid rid buf).2.2 =
        [.pin rid.page_no, .unpin rid.page_no true] ∧
      ((f.insert_record_rid rid buf).1.pages rid.page_no).slots.getD
        rid.slot_no.toNat [] = buf ∧
      Bitmap.test ((f.insert_record_rid rid buf).1.pages rid.page_no).bitmap
        rid.slot_no = true ∧
      ((f.insert_record_rid rid buf).1.pages rid.page_no).num_records =
        (f.pages rid.page_no).num_records + 1 ∧
      (((f.insert_record_rid rid buf).1.pages rid.page_no).num_records =
          (f.file_hdr.num_records_per_page : Int) →
        ¬ (f.insert_record_rid rid buf).1.onFreeList rid.page_no) ∧
      (((f.insert_record_rid rid buf).1.pages rid.page_no).num_records ≠
          (f.file_hdr.num_records_per_page : Int) →
        (f.insert_record_rid rid buf).1.onFreeList rid.page_no ∧
        (f.insert_record_rid rid buf).1.file_hdr.first_free_page_no =
          f.file_hdr.first_free_page_no)) := by
  constructor
  · intro hset
    exact insRid_err_set buf hplt hset
  · intro hclear
    have hclear' : (f.pages rid.page_no).bitmap.getD rid.slot_no.toNat false =
        false := hclear
    have hpmem : rid.page_no ∈ f.recordPages := mem_recordPages.mpr ⟨hp1, hplt⟩
    have hlenbm : (f.pages rid.page_no).bitmap.length =
        f.file_hdr.num_records_per_page := hinv.len_bitmap _ hpmem
    have hlensl : (f.pages rid.page_no).slots.length =
        f.file_hdr.num_records_per_page := hinv.len_slots _ hpmem
    have hjN : rid.slot_no.toNat < f.file_hdr.num_records_per_page := by omega
    have hcnt : (f.pages rid.page_no).bitmap.count true <
        f.file_hdr.num_records_per_page := by
      by_contra hge
      push_neg at hge
      have hle := List.count_le_length (a := true) (l := (f.pages rid.page_no).bitmap)
      have hcl : (f.pages rid.page_no).bitmap.count true =
          (f.pages rid.page_no).bitmap.length := by omega
      have hall := List.count_eq_length.mp hcl
      have hjlt : rid.slot_no.toNat < (f.pages rid.page_no).bitmap.length := by
        omega
      have htrue : true = (f.pages rid.page_no).bitmap[rid.slot_no.toNat] :=
        hall _ (List.getElem_mem hjlt)
      have hgd : (f.pages rid.page_no).bitmap.getD rid.slot_no.toNat false =
          (f.pages rid.page_no).bitmap[rid.slot_no.toNat] :=
        List.getD_eq_getElem (f.pages rid.page_no).bitmap false hjlt
      rw [hgd, ← htrue] at hclear'
      exact absurd hclear' (by decide)
    have hnonfull : (f.pages rid.page_no).num_records <
        (f.file_hdr.num_records_per_page : Int) := by
      rw [hinv.i2 _ hpmem]
      exact_mod_cast hcnt
    have hpfl : rid.page_no ∈ fl := hinv.mem_of_nonfull _ hpmem hnonfull
    set pg := f.pages rid.page_no with hsetpg
    set pg' : RmPageData :=
      { pg with
        slots := pg.slots.set rid.slot_no.toNat buf
        bitmap := Bitmap.setBit pg.bitmap rid.slot_no
        num_records := pg.num_records + 1 } with hsetpg'
    set f2 := f.setPage rid.page_no pg' with hsetf2
    set f3 : RmFile := if pg'.num_records =
        (f.file_hdr.num_records_per_page : Int) then
        { f2 with file_hdr :=
            { f2.file_hdr with first_free_page_no := pg'.next_free_page_no } }
      else f2 with hsetf3
    have h1 : (f.insert_record_rid rid buf).1 = f3 := by
      rw [insRid_ok buf hplt hclear]
    have h2 : (f.insert_record_rid rid buf).2 =
        (.ok (), [.pin rid.page_no, .unpin rid.page_no true]) := by
      rw [insRid_ok buf hplt hclear]
    have hpages32 : f3.pages = f2.pages := by
      rw [hsetf3]
      split <;> rfl
    have hpg3 : f3.pages rid.page_no = pg' := by
      rw [hpages32, hsetf2]
      exact pages_setPage_self f rid.page_no pg'
    have hnext : ∀ q : Int,
        (f3.pages q).next_free_page_no = (f.pages q).next_free_page_no := by
      intro q
      by_cases hq : q = rid.page_no
      · rw [hq, hpg3]
      · rw [hpages32, hsetf2, pages_setPage_ne f rid.page_no pg' hq]
    rw [h1, h2]
    refine ⟨rfl, rfl, ?_, ?_, ?_, ?_, ?_⟩
    · rw [hpg3]
      show (pg.slots.set rid.slot_no.toNat buf).getD rid.slot_no.toNat [] = buf
      rw [getD_slots_set_self (by omega)]
    · rw [hpg3]
      show (pg.bitmap.set rid.slot_no.toNat true).getD rid.slot_no.toNat false
        = true
      rw [getD_set_self (by omega)]
    · rw [hpg3]
    · intro hfull
      rw [hpg3] at hfull
      have hf3 : f3 = { f2 with file_hdr :=
          { f2.file_hdr with first_free_page_no := pg'.next_free_page_no } } := by
        rw [hsetf3, if_pos hfull]
      rintro ⟨fl', hchain', hmem'⟩
      have hfirst3 : f3.file_hdr.first_free_page_no =
          (f.pages rid.page_no).next_free_page_no := by
        rw [hf3]
      rw [hfirst3] at hchain'
      obtain ⟨l1, l2, hfl⟩ := List.append_of_mem hpfl
      have hsuf : freeChain f (f.pages rid.page_no).next_free_page_no l2
          = true :=
        freeChain_suffix (show freeChain f f.file_hdr.first_free_page_no
          (l1 ++ rid.page_no :: l2) = true from hfl ▸ hinv.chain)
      have hchain3 : freeChain f3 (f.pages rid.page_no).next_free_page_no l2
          = true :=
        freeChain_frame (fun q _ => hnext q) hsuf
      have hfl' : fl' = l2 := freeChain_unique hchain' hchain3
      have hnd2 : (l1 ++ rid.page_no :: l2).Nodup := hfl ▸ hinv.nodup
      have hnotin : rid.page_no ∉ l2 :=
        (List.nodup_cons.mp (List.nodup_append.mp hnd2).2.1).1
      exact hnotin (hfl' ▸ hmem')
    · intro hnf
      rw [hpg3] at hnf
      have hf3 : f3 = f2 := by
        rw [hsetf3, if_neg hnf]
      have hfirst : f3.file_hdr.first_free_page_no =
          f.file_hdr.first_free_page_no := by
        rw [hf3]
        rfl
      refine ⟨⟨fl, ?_, hpfl⟩, hfirst⟩
      rw [hfirst]
      exact freeChain_frame (fun q _ => hnext q) hinv.chain

/-- Concrete state for the C5 witness: a fresh file (`record_size = 1`,
`N = 2`) after one ordinary insert, so record page 1 exists, slot 0 is
occupied and slot 1 is clear. -/
def c5File : RmFile := (freshRmFile 1 2).applyOp (.ins [7])

theorem c5_insert_rid_atomic_and_unlink_witness :
    RmInv c5File [1] ∧
    (1 : Int) ≤ 1 ∧ (1 : Int) < (c5File.file_hdr.num_pages : Int) ∧
    (0 : Int) ≤ 1 ∧ (1 : Int) < (c5File.file_hdr.num_records_per_page : Int) ∧
    ((Bitmap.test (c5File.pages 1).bitmap 1 = true →
      c5File.insert_record_rid ⟨1, 1⟩ [9] =
        (c5File, .error (.recordNotFound 1 1), [.pin 1, .unpin 1 false])) ∧
     (Bitmap.test (c5File.pages 1).bitmap 1 = false →
      (c5File.insert_record_rid ⟨1, 1⟩ [9]).2.1 = .ok () ∧
      (c5File.insert_record_rid ⟨1, 1⟩ [9]).2.2 = [.pin 1, .unpin 1 true] ∧
      ((c5File.insert_record_rid ⟨1, 1⟩ [9]).1.pages 1).slots.getD 1 []
        = [9] ∧
      Bitmap.test ((c5File.insert_record_rid ⟨1, 1⟩ [9]).1.pages 1).bitmap 1
        = true ∧
      ((c5File.insert_record_rid ⟨1, 1⟩ [9]).1.pages 1).num_records =
        (c5File.pages 1).num_records + 1 ∧
      (((c5File.insert_record_rid ⟨1, 1⟩ [9]).1.pages 1).num_records =
          (c5File.file_hdr.num_records_per_page : Int) →
        ¬ (c5File.insert_record_rid ⟨1, 1⟩ [9]).1.onFreeList 1) ∧
      (((c5File.insert_record_rid ⟨1, 1⟩ [9]).1.pages 1).num_records ≠
          (c5File.file_hdr.num_records_per_page : Int) →
        (c5File.insert_record_rid ⟨1, 1⟩ [9]).1.onFreeList 1 ∧
        (c5File.insert_record_rid ⟨1, 1⟩ [9]).1.file_hdr.first_free_page_no =
          c5File.file_hdr.first_free_page_no))) :=
  have hinv : RmInv c5File [1] :=
    ⟨by decide, by decide, by decide, by decide, by decide, by decide,
      by decide, by decide, by decide⟩
  ⟨hinv, by decide, by decide, by decide, by decide,
    @c5_insert_rid_atomic_and_unlink c5File [1] hinv ⟨1, 1⟩ [9] (by decide)
      (by decide) (by decide) (by decide)⟩

/-! ## Predicate evaluation (`executor_abstract.h`, `executor_seq_scan.h`)

Column values are modelled decoded: a C `int` as `Int`, a C `float` as `Rat`
(exact for the integral promotions at issue), and a `CHAR(n)` column as the
byte list of its declared length. -/

inductive ColType where
  | tInt
  | tFloat
  | tStr
deriving DecidableEq, Repr

inductive CompOp where
  | OP_EQ
  | OP_NE
  | OP_LT
  | OP_GT
  | OP_LE
  | OP_GE
deriving DecidableEq, Repr

inductive ColVal where
  | intV (i : Int)
  | floatV (x : Rat)
  | strV (bytes : List Nat)
deriving DecidableEq, Repr

inductive ExecError where
  | incompatibleType (l r : ColType)
deriving DecidableEq, Repr

def ColVal.type : ColVal → ColType
  | .intV _ => .tInt
  | .floatV _ => .tFloat
  | .strV _ => .tStr

def ColVal.intVal : ColVal → Int
  | .intV i => i
  | _ => 0

/-- `convert` (`executor_abstract.h`): promote the INT operand with
`static_cast<float>`. -/
def ColVal.floatProm : ColVal → Rat
  | .intV i => (i : Rat)
  | .floatV x => x
  | .strV _ => 0

def ColVal.strBytes : ColVal → List Nat
  | .strV bs => bs
  | _ => []

/-- `is_numeric_type` (`executor_abstract.h`). -/
def is_numeric_type : ColType → Bool
  | .tInt => true
  | .tFloat => true
  | .tStr => false

/-- The final `switch (cond.op)` of both evaluators. -/
def cmpSatisfies (op : CompOp) (cmp : Int) : Bool :=
  match op with
  | .OP_EQ => decide (cmp = 0)
  | .OP_NE => decide (cmp ≠ 0)
  | .OP_LT => decide (cmp < 0)
  | .OP_GT => decide (0 < cmp)
  | .OP_LE => decide (cmp ≤ 0)
  | .OP_GE => decide (0 ≤ cmp)

/-- `memcmp(xs, ys, n)` over unsigned bytes (reads past a list's end are
modelled as zero bytes). -/
def memcmpBytes : Nat → List Nat → List Nat → Int
  | 0, _, _ => 0
  | n + 1, xs, ys =>
    let a := xs.headD 0
    let b := ys.headD 0
    if a < b then -1 else if b < a then 1 else memcmpBytes n xs.tail ys.tail

/-- Three-way lexicographic byte comparison: `std::string_view`'s `<`/`>`. -/
def bytesCmp : List Nat → List Nat → Int
  | [], [] => 0
  | [], _ :: _ => -1
  | _ :: _, [] => 1
  | a :: xs, b :: ys =>
    if a < b then -1 else if b < a then 1 else bytesCmp xs ys

/-- `min(declared length, strlen(data))` (`executor_abstract.h` string case);
`strlen` is the offset of the first NUL byte (the buffer's length when it
holds none). -/
def strEffLen (bs : List Nat) : Nat := min bs.length (bs.indexOf 0)

/-- The `string_view(data, actual_len)` an operand is compared as. -/
def strView (bs : List Nat) : List Nat := bs.take (strEffLen bs)

/-- `AbstractExecutor::eval_cond` (`src/src/execution/executor_abstract.h`,
the promoting evaluator): throw `IncompatibleType` iff the types differ and
are not both numeric; compare INT/INT exactly, any other numeric pair after
promotion to float, and strings as `string_view`s truncated to their
effective lengths. -/
def evalCondAbstract (op : CompOp) (lhs rhs : ColVal) : Except ExecError Bool :=
  if lhs.type ≠ rhs.type ∧
      ¬ (is_numeric_type lhs.type && is_numeric_type rhs.type) = true then
    .error (.incompatibleType lhs.type rhs.type)
  else
    let cmp : Int :=
      if (is_numeric_type lhs.type && is_numeric_type rhs.type) = true then
        if lhs.type = .tInt ∧ rhs.type = .tInt then
          if lhs.intVal < rhs.intVal then -1
          else if rhs.intVal < lhs.intVal then 1 else 0
        else
          if lhs.floatProm < rhs.floatProm then -1
          else if rhs.floatProm < lhs.floatProm then 1 else 0
      else
        bytesCmp (strView lhs.strBytes) (strView rhs.strBytes)
    .ok (cmpSatisfies op cmp)

/-- `SeqScanExecutor::eval_cond` (`src/src/execution/executor_seq_scan.h`,
the override the sequential scan actually runs): throw `IncompatibleType`
whenever the types differ at all; compare ints by subtraction, floats by the
sign of the difference, and strings with `memcmp` over the LEFT column's full
declared length (no NUL truncation). -/
def evalCondSeqScan (op : CompOp) (lhs rhs : ColVal) : Except ExecError Bool :=
  if lhs.type ≠ rhs.type then
    .error (.incompatibleType lhs.type rhs.type)
  else
    let cmp : Int :=
      if lhs.type = .tInt then
        lhs.intVal - rhs.intVal
      else if lhs.type = .tFloat then
        let diff := lhs.floatProm - rhs.floatProm
        if 0 < diff then 1 else if diff < 0 then -1 else 0
      else
        memcmpBytes lhs.strBytes.length lhs.strBytes rhs.strBytes
    .ok (cmpSatisfies op cmp)

/-- The §4.5.1 STRING comparison, written from the spec's words: compare the
byte sequences up to the shorter of the two effective lengths; on a tie the
operand with the shorter effective length is smaller. -/
def specStringCompare (xs ys : List Nat) : Int :=
  if memcmpBytes (min (strEffLen xs) (strEffLen ys)) xs ys ≠ 0 then
    memcmpBytes (min (strEffLen xs) (strEffLen ys)) xs ys
  else if strEffLen xs < strEffLen ys then -1
  else if strEffLen ys < strEffLen xs then 1
  else 0

instance {ε α : Type} [DecidableEq ε] [DecidableEq α] :
    DecidableEq (Except ε α) := fun x y =>
  match x, y with
  | .ok a, .ok b =>
    if h : a = b then isTrue (h ▸ rfl)
    else isFalse (fun hc => h (Except.ok.inj hc))
  | .error e, .error e2 =>
    if h : e = e2 then isTrue (h ▸ rfl)
    else isFalse (fun hc => h (Except.error.inj hc))
  | .ok _, .error _ => isFalse (fun hc => Except.noConfusion hc)
  | .error _, .ok _ => isFalse (fun hc => Except.noConfusion hc)

/-- Lexicographic three-way comparison is minimum-prefix comparison plus the
shorter-is-smaller tiebreak. -/
theorem bytesCmp_eq_spec : ∀ a b : List Nat,
    bytesCmp a b =
      (if memcmpBytes (min a.length b.length) a b ≠ 0 then
        memcmpBytes (min a.length b.length) a b
      else if a.length < b.length then -1
      else if b.length < a.length then 1 else 0)
  | [], [] => by simp [bytesCmp, memcmpBytes]
  | [], b :: ys => by simp [bytesCmp, memcmpBytes]
  | a :: xs, [] => by simp [bytesCmp, memcmpBytes]
  | a :: xs, b :: ys => by
    have ih := bytesCmp_eq_spec xs ys
    by_cases hab : a < b
    · simp [bytesCmp, memcmpBytes, Nat.succ_min_succ, hab]
    · by_cases hba : b < a
      · simp [bytesCmp, memcmpBytes, Nat.succ_min_succ, hab, hba]
      · simp [bytesCmp, memcmpBytes, Nat.succ_min_succ, hab, hba, ih]

/-- `memcmp` over `n` bytes only looks at the first `n` bytes, so truncations
keeping at least `n` bytes do not change it. -/
theorem memcmpBytes_take : ∀ (n : Nat) (xs ys : List Nat) (el er : Nat),
    n ≤ el → n ≤ er →
    memcmpBytes n (xs.take el) (ys.take er) = memcmpBytes n xs ys := by
  intro n
  induction n with
  | zero => intro xs ys el er _ _; rfl
  | succ n ih =>
    intro xs ys el er h1 h2
    obtain ⟨el', rfl⟩ := Nat.exists_eq_succ_of_ne_zero (show el ≠ 0 by omega)
    obtain ⟨er', rfl⟩ := Nat.exists_eq_succ_of_ne_zero (show er ≠ 0 by omega)
    have h1' : n ≤ el' := by omega
    have h2' : n ≤ er' := by omega
    cases xs with
    | nil =>
      cases ys with
      | nil => simp [memcmpBytes]
      | cons y ys' =>
        have ih' := ih [] ys' el' er' h1' h2'
        simp only [List.take_nil] at ih'
        simp [memcmpBytes, List.take_succ_cons, ih']
    | cons x xs' =>
      cases ys with
      | nil =>
        have ih' := ih xs' [] el' er' h1' h2'
        simp only [List.take_nil] at ih'
        simp [memcmpBytes, List.take_succ_cons, ih']
      | cons y ys' =>
        have ih' := ih xs' ys' el' er' h1' h2'
        simp [memcmpBytes, List.take_succ_cons, ih']

/-- The code's truncated-`string_view` comparison computes exactly the spec's
effective-length comparison. -/
theorem stringCompare_refines (xs ys : List Nat) :
    bytesCmp (strView xs) (strView ys) = specStringCompare xs ys := by
  have hex : strEffLen xs ≤ xs.length := min_le_left _ _
  have hey : strEffLen ys ≤ ys.length := min_le_left _ _
  have hlx : (strView xs).length = strEffLen xs := by
    show (xs.take (strEffLen xs)).length = strEffLen xs
    rw [List.length_take]
    omega
  have hly : (strView ys).length = strEffLen ys := by
    show (ys.take (strEffLen ys)).length = strEffLen ys
    rw [List.length_take]
    omega
  rw [bytesCmp_eq_spec, hlx, hly]
  show (if memcmpBytes (min (strEffLen xs) (strEffLen ys))
      (xs.take (strEffLen xs)) (ys.take (strEffLen ys)) ≠ 0 then
      memcmpBytes (min (strEffLen xs) (strEffLen ys))
        (xs.take (strEffLen xs)) (ys.take (strEffLen ys))
    else if strEffLen xs < strEffLen ys then -1
    else if strEffLen ys < strEffLen xs then 1 else 0) =
    specStringCompare xs ys
  rw [memcmpBytes_take _ xs ys _ _ (min_le_left _ _) (min_le_right _ _)]
  rfl

/-- C6 (amended): for `AbstractExecutor::eval_cond` the claim holds —
`IncompatibleType` is raised exactly when the operand types differ and are not
both numeric, and an INT operand paired with a FLOAT operand is promoted and
compared as floats (both orders).  `SeqScanExecutor::eval_cond`, the override
the sequential scan runs, instead raises `IncompatibleType` on every type
mismatch, including INT vs FLOAT. -/
theorem c6_numeric_promotion (op : CompOp) (lhs rhs : ColVal)
    (a : Int) (x : Rat) :
    (evalCondAbstract op lhs rhs =
        .error (.incompatibleType lhs.type rhs.type) ↔
      (lhs.type ≠ rhs.type ∧
        ¬ (is_numeric_type lhs.type && is_numeric_type rhs.type) = true)) ∧
    evalCondAbstract op (.intV a) (.floatV x) =
      .ok (cmpSatisfies op
        (if (a : Rat) < x then -1 else if x < (a : Rat) then 1 else 0)) ∧
    evalCondAbstract op (.floatV x) (.intV a) =
      .ok (cmpSatisfies op
        (if x < (a : Rat) then -1 else if (a : Rat) < x then 1 else 0)) ∧
    evalCondSeqScan op (.intV a) (.floatV x) =
      .error (.incompatibleType .tInt .tFloat) := by
  refine ⟨?_, rfl, rfl, rfl⟩
  simp only [evalCondAbstract]
  by_cases hc : lhs.type ≠ rhs.type ∧
      ¬ (is_numeric_type lhs.type && is_numeric_type rhs.type) = true
  · rw [if_pos hc]
    simp [hc]
  · rw [if_neg hc]
    constructor
    · intro h
      exact absurd h (by simp)
    · intro h
      exact absurd h hc

/-- Counterexample to C6 as stated about "the predicate evaluator": on
INT = 1 vs FLOAT = 2.0, both operands numeric, the comparison the claim
promises is produced by the abstract evaluator, but the sequential scan's own
`eval_cond` raises `IncompatibleType`. -/
theorem c6_counterexample :
    is_numeric_type ColType.tInt = true ∧
    is_numeric_type ColType.tFloat = true ∧
    evalCondSeqScan .OP_LT (.intV 1) (.floatV 2) =
      .error (.incompatibleType .tInt .tFloat) ∧
    evalCondAbstract .OP_LT (.intV 1) (.floatV 2) = .ok true := by decide

/-- C7 (amended): for `AbstractExecutor::eval_cond` the claim holds — two
STRING operands are compared exactly as the spec's effective-length
comparison (common prefix up to the shorter effective length, shorter
effective string smaller on a tie).  `SeqScanExecutor::eval_cond` instead
runs `memcmp` over the LEFT column's full declared length, with no NUL
truncation. -/
theorem c7_string_effective_compare (op : CompOp) (xs ys : List Nat) :
    evalCondAbstract op (.strV xs) (.strV ys) =
      .ok (cmpSatisfies op (specStringCompare xs ys)) ∧
    evalCondSeqScan op (.strV xs) (.strV ys) =
      .ok (cmpSatisfies op (memcmpBytes xs.length xs ys)) := by
  constructor
  · show Except.ok (cmpSatisfies op (bytesCmp (strView xs) (strView ys))) = _
    rw [stringCompare_refines]
  · rfl

/-- Counterexample to C7 as stated about "the predicate evaluator": the
3-byte operands "a\0x" and "a\0y" have equal effective views "a", so the
claimed comparison (and the abstract evaluator) makes them equal, but the
sequential scan's `eval_cond` compares all 3 declared bytes and finds them
different. -/
theorem c7_counterexample :
    strView [97, 0, 120] = strView [97, 0, 121] ∧
    specStringCompare [97, 0, 120] [97, 0, 121] = 0 ∧
    evalCondAbstract .OP_EQ (.strV [97, 0, 120]) (.strV [97, 0, 121]) =
      .ok true ∧
    evalCondSeqScan .OP_EQ (.strV [97, 0, 120]) (.strV [97, 0, 121]) =
      .ok false := by decide

/-! ## C8: nested-loop join (`part_002` and `executor_nestedloop_join.h`)

The join's children are pull-model executors over materialized record lists:
`beginTuple` resets the index to 0, `nextTuple` increments it, `is_end` is
index ≥ length, `Next` yields the indexed record.  A join state is the two
child cursors plus the `isend` flag; the condition conjunction
(`eval_join_conds` over the concatenated record) is abstracted as a boolean
predicate on the (left, right) record pair, and a child `Next` past the end
(null record) is a failing pair, as in the executors' null checks. -/

structure JnState where
  li : Nat
  ri : Nat
  isend : Bool
deriving DecidableEq, Repr

/-- `NestedLoopJoinExecutor::beginTuple` (`part_002`): rewind the left child;
if it has a tuple, rewind the right child and clear `isend`, else set it. -/
def jnBegin {α : Type} (L : List α) : JnState :=
  if L.length = 0 then ⟨0, 0, true⟩ else ⟨0, 0, false⟩

/-- `NestedLoopJoinExecutor::nextTuple` (`part_002`): step the inner (right)
child; if it is exhausted, step the outer (left) child and rewind the inner
child; when the outer child is exhausted too, set `isend`. -/
def jnNextTuple {α β : Type} (L : List α) (R : List β) (s : JnState) :
    JnState :=
  if s.isend then s
  else if R.length ≤ s.ri + 1 then
    if L.length ≤ s.li + 1 then ⟨s.li + 1, s.ri + 1, true⟩
    else ⟨s.li + 1, 0, false⟩
  else ⟨s.li, s.ri + 1, false⟩

/-- `NestedLoopJoinExecutor::Next` (`part_002`): loop until the current pair
passes the conjunction, advancing with `nextTuple` past failing or incomplete
pairs; return the matched pair without advancing past it.  `fuel` bounds the
loop (the cursor space is finite). -/
def jnNext {α β : Type} (L : List α) (R : List β) (pred : α → β → Bool) :
    Nat → JnState → JnState × Option (α × β)
  | 0, s => (s, none)
  | fuel + 1, s =>
    if s.isend then (s, none)
    else
      match L[s.li]?, R[s.ri]? with
      | some l, some r =>
        if pred l r then (s, some (l, r))
        else jnNext L R pred fuel (jnNextTuple L R s)
      | _, _ => jnNext L R pred fuel (jnNextTuple L R s)

/-- Fuel for one `Next` call: enough to visit every remaining pair. -/
def jnFuel {α β : Type} (L : List α) (R : List β) : Nat :=
  L.length * R.length + L.length + 1

/-- The standard pull loop over the join: `Next`/`nextTuple` until `is_end`,
collecting the returned pairs. -/
def jnCollect {α β : Type} (L : List α) (R : List β) (pred : α → β → Bool) :
    Nat → JnState → List (α × β)
  | 0, _ => []
  | n + 1, s =>
    if s.isend then []
    else
      match jnNext L R pred (jnFuel L R) s with
      | (s', some p) => p :: jnCollect L R pred n (jnNextTuple L R s')
      | (_, none) => []

/-- Everything the join emits from `beginTuple` on. -/
def jnRun {α β : Type} (L : List α) (R : List β) (pred : α → β → Bool) :
    List (α × β) :=
  jnCollect L R pred (L.length * R.length + 1) (jnBegin L)

/-- The cursor position one `nextTuple` after `(li, ri)` (ignoring the end
flag). -/
def jnAdvance {β : Type} (R : List β) (li ri : Nat) : Nat × Nat :=
  if R.length ≤ ri + 1 then (li + 1, 0) else (li, ri + 1)

/-- The qualifying pairs from cursor position `(li, ri)` onward, in
outer-major order. -/
def restPairs {α β : Type} (L : List α) (R : List β) (pred : α → β → Bool)
    (li ri : Nat) : List (α × β) :=
  if h : li < L.length then
    ((R.drop ri).map (fun (r : β) => (L[li], r))).filter
        (fun (p : α × β) => pred p.1 p.2) ++
      restPairs L R pred (li + 1) 0
  else []
termination_by L.length - li
decreasing_by omega

theorem restPairs_nil {α β : Type} (L : List α) (R : List β)
    (pred : α → β → Bool) {li ri : Nat} (h : ¬ li < L.length) :
    restPairs L R pred li ri = [] := by
  rw [restPairs, dif_neg h]

theorem restPairs_eq_cons {α β : Type} (L : List α) (R : List β)
    (pred : α → β → Bool) {li ri : Nat} (hli : li < L.length)
    (hri : ri < R.length) :
    restPairs L R pred li ri =
      (if pred L[li] R[ri] then [(L[li], R[ri])] else []) ++
        restPairs L R pred (jnAdvance R li ri).1 (jnAdvance R li ri).2 := by
  rw [restPairs, dif_pos hli, List.drop_eq_getElem_cons hri, List.map_cons,
    List.filter_cons]
  unfold jnAdvance
  by_cases hwrap : R.length ≤ ri + 1
  · rw [if_pos hwrap, List.drop_eq_nil_of_le hwrap]
    by_cases hp : pred L[li] R[ri] = true
    · simp [hp]
    · simp [hp]
  · rw [if_neg hwrap]
    have hnext : restPairs L R pred li (ri + 1) =
        ((R.drop (ri + 1)).map (fun (r : β) => (L[li], r))).filter
            (fun (p : α × β) => pred p.1 p.2) ++
          restPairs L R pred (li + 1) 0 := by
      rw [restPairs, dif_pos hli]
    rw [hnext]
    by_cases hp : pred L[li] R[ri] = true
    · simp [hp]
    · simp [hp]

/-- One `Next` call from a live in-range cursor either drives the join to its
end with no qualifying pair left, or stops on the first qualifying pair. -/
theorem jnNext_spec {α β : Type} (L : List α) (R : List β)
    (pred : α → β → Bool) :
    ∀ (fuel li ri : Nat), li < L.length → ri < R.length →
    (L.length - li) * R.length - ri + 1 ≤ fuel →
    (restPairs L R pred li ri = [] ∧
      ∃ s', jnNext L R pred fuel ⟨li, ri, false⟩ = (s', none) ∧
        s'.isend = true) ∨
    (∃ li2 ri2 l r, li2 < L.length ∧ ri2 < R.length ∧
      L[li2]? = some l ∧ R[ri2]? = some r ∧ pred l r = true ∧
      jnNext L R pred fuel ⟨li, ri, false⟩ =
        (⟨li2, ri2, false⟩, some (l, r)) ∧
      restPairs L R pred li ri =
        (l, r) :: restPairs L R pred (jnAdvance R li2 ri2).1
          (jnAdvance R li2 ri2).2) := by
  intro fuel
  induction fuel with
  | zero =>
    intro li ri hli hri hf
    exact absurd hf (by omega)
  | succ fuel ih =>
    intro li ri hli hri hf
    have hL : L[li]? = some L[li] := List.getElem?_eq_getElem hli
    have hR : R[ri]? = some R[ri] := List.getElem?_eq_getElem hri
    have hmul : R.length ≤ (L.length - li) * R.length := by
      have h1 : 1 ≤ L.length - li := by omega
      have h2 := Nat.mul_le_mul_right R.length h1
      rw [one_mul] at h2
      exact h2
    by_cases hp : pred L[li] R[ri] = true
    · right
      refine ⟨li, ri, L[li], R[ri], hli, hri, hL, hR, hp, ?_, ?_⟩
      · rw [jnNext]
        rw [if_neg (show ¬ ((⟨li, ri, false⟩ : JnState).isend = true) from
          Bool.false_ne_true)]
        rw [hL, hR]
        show (if pred L[li] R[ri] then _ else _) = _
        rw [if_pos hp]
      · rw [restPairs_eq_cons L R pred hli hri, if_pos hp]
        rfl
    · have hstep : jnNext L R pred (fuel + 1) ⟨li, ri, false⟩ =
          jnNext L R pred fuel (jnNextTuple L R ⟨li, ri, false⟩) := by
        rw [jnNext]
        rw [if_neg (show ¬ ((⟨li, ri, false⟩ : JnState).isend = true) from
          Bool.false_ne_true)]
        rw [hL, hR]
        show (if pred L[li] R[ri] then _ else _) = _
        rw [if_neg hp]
      have hrest : restPairs L R pred li ri =
          restPairs L R pred (jnAdvance R li ri).1 (jnAdvance R li ri).2 := by
        rw [restPairs_eq_cons L R pred hli hri, if_neg hp]
        rfl
      rw [hstep, hrest]
      by_cases hwrap : R.length ≤ ri + 1
      · have hadv1 : (jnAdvance R li ri).1 = li + 1 := by
          unfold jnAdvance
          rw [if_pos hwrap]
        have hadv2 : (jnAdvance R li ri).2 = 0 := by
          unfold jnAdvance
          rw [if_pos hwrap]
        rw [hadv1, hadv2]
        by_cases hLend : L.length ≤ li + 1
        · have hnt : jnNextTuple L R ⟨li, ri, false⟩ =
              ⟨li + 1, ri + 1, true⟩ := by
            unfold jnNextTuple
            rw [if_neg (show ¬ ((⟨li, ri, false⟩ : JnState).isend = true) from
              Bool.false_ne_true)]
            rw [if_pos hwrap, if_pos hLend]
          rw [hnt]
          left
          refine ⟨restPairs_nil L R pred (by omega), ?_⟩
          obtain ⟨f2, rfl⟩ :=
            Nat.exists_eq_succ_of_ne_zero (show fuel ≠ 0 by omega)
          refine ⟨⟨li + 1, ri + 1, true⟩, ?_, rfl⟩
          rw [jnNext]
          rw [if_pos (show ((⟨li + 1, ri + 1, true⟩ : JnState).isend = true)
            from rfl)]
        · have hnt : jnNextTuple L R ⟨li, ri, false⟩ =
              ⟨li + 1, 0, false⟩ := by
            unfold jnNextTuple
            rw [if_neg (show ¬ ((⟨li, ri, false⟩ : JnState).isend = true) from
              Bool.false_ne_true)]
            rw [if_pos hwrap, if_neg hLend]
          rw [hnt]
          have hf2 : (L.length - (li + 1)) * R.length - 0 + 1 ≤ fuel := by
            have h1 : L.length - li = (L.length - (li + 1)) + 1 := by omega
            have h2 : (L.length - li) * R.length =
                (L.length - (li + 1)) * R.length + R.length := by
              rw [h1, Nat.succ_mul]
            omega
          exact ih (li + 1) 0 (by omega) (by omega) hf2
      · have hadv1 : (jnAdvance R li ri).1 = li := by
          unfold jnAdvance
          rw [if_neg hwrap]
        have hadv2 : (jnAdvance R li ri).2 = ri + 1 := by
          unfold jnAdvance
          rw [if_neg hwrap]
        rw [hadv1, hadv2]
        have hnt : jnNextTuple L R ⟨li, ri, false⟩ = ⟨li, ri + 1, false⟩ := by
          unfold jnNextTuple
          rw [if_neg (show ¬ ((⟨li, ri, false⟩ : JnState).isend = true) from
            Bool.false_ne_true)]
          rw [if_neg hwrap]
        rw [hnt]
        exact ih li (ri + 1) hli (by omega) (by omega)

theorem jnCollect_end {α β : Type} (L : List α) (R : List β)
    (pred : α → β → Bool) :
    ∀ (n : Nat) (s : JnState), s.isend = true → jnCollect L R pred n s = []
  | 0, _, _ => rfl
  | n + 1, s, h => by rw [jnCollect, if_pos h]

/-- The pull loop from a live in-range cursor emits exactly the qualifying
pairs from that position on, in outer-major order. -/
theorem jnCollect_spec {α β : Type} (L : List α) (R : List β)
    (pred : α → β → Bool) :
    ∀ (n li ri : Nat), li < L.length → ri < R.length →
    (restPairs L R pred li ri).length < n →
    jnCollect L R pred n ⟨li, ri, false⟩ = restPairs L R pred li ri := by
  intro n
  induction n with
  | zero =>
    intro li ri _ _ h
    exact absurd h (by omega)
  | succ n ih =>
    intro li ri hli hri hlen
    have hfb : (L.length - li) * R.length - ri + 1 ≤ jnFuel L R := by
      unfold jnFuel
      have h1 : (L.length - li) * R.length ≤ L.length * R.length :=
        Nat.mul_le_mul_right _ (by omega)
      omega
    rcases jnNext_spec L R pred (jnFuel L R) li ri hli hri hfb with
      ⟨hrest, s', hres, _⟩ |
      ⟨li2, ri2, l, r, hli2, hri2, _, _, _, hres, hrest⟩
    · rw [jnCollect]
      rw [if_neg (show ¬ ((⟨li, ri, false⟩ : JnState).isend = true) from
        Bool.false_ne_true)]
      rw [hres, hrest]
    · rw [jnCollect]
      rw [if_neg (show ¬ ((⟨li, ri, false⟩ : JnState).isend = true) from
        Bool.false_ne_true)]
      rw [hres]
      show (l, r) :: jnCollect L R pred n (jnNextTuple L R ⟨li2, ri2, false⟩) =
        restPairs L R pred li ri
      rw [hrest]
      have hlen2 : (restPairs L R pred (jnAdvance R li2 ri2).1
          (jnAdvance R li2 ri2).2).length < n := by
        have hc := congrArg List.length hrest
        rw [List.length_cons] at hc
        omega
      congr 1
      by_cases hwrap : R.length ≤ ri2 + 1
      · have hadv1 : (jnAdvance R li2 ri2).1 = li2 + 1 := by
          unfold jnAdvance
          rw [if_pos hwrap]
        have hadv2 : (jnAdvance R li2 ri2).2 = 0 := by
          unfold jnAdvance
          rw [if_pos hwrap]
        rw [hadv1, hadv2] at hlen2 ⊢
        by_cases hLend : L.length ≤ li2 + 1
        · have hnt : jnNextTuple L R ⟨li2, ri2, false⟩ =
              ⟨li2 + 1, ri2 + 1, true⟩ := by
            unfold jnNextTuple
            rw [if_neg (show ¬ ((⟨li2, ri2, false⟩ : JnState).isend = true)
              from Bool.false_ne_true)]
            rw [if_pos hwrap, if_pos hLend]
          rw [hnt, jnCollect_end L R pred n _ rfl,
            restPairs_nil L R pred (by omega)]
        · have hnt : jnNextTuple L R ⟨li2, ri2, false⟩ =
              ⟨li2 + 1, 0, false⟩ := by
            unfold jnNextTuple
            rw [if_neg (show ¬ ((⟨li2, ri2, false⟩ : JnState).isend = true)
              from Bool.false_ne_true)]
            rw [if_pos hwrap, if_neg hLend]
          rw [hnt]
          exact ih (li2 + 1) 0 (by omega) (by omega) hlen2
      · have hadv1 : (jnAdvance R li2 ri2).1 = li2 := by
          unfold jnAdvance
          rw [if_neg hwrap]
        have hadv2 : (jnAdvance R li2 ri2).2 = ri2 + 1 := by
          unfold jnAdvance
          rw [if_neg hwrap]
        rw [hadv1, hadv2] at hlen2 ⊢
        have hnt : jnNextTuple L R ⟨li2, ri2, false⟩ =
            ⟨li2, ri2 + 1, false⟩ := by
          unfold jnNextTuple
          rw [if_neg (show ¬ ((⟨li2, ri2, false⟩ : JnState).isend = true)
            from Bool.false_ne_true)]
          rw [if_neg hwrap]
        rw [hnt]
        exact ih li2 (ri2 + 1) hli2 (by omega) hlen2

theorem jnNext_isend {α β : Type} (L : List α) (R : List β)
    (pred : α → β → Bool) :
    ∀ (fuel : Nat) (s : JnState), s.isend = true →
      jnNext L R pred fuel s = (s, none)
  | 0, _, _ => rfl
  | fuel + 1, s, h => by rw [jnNext, if_pos h]

/-- With an empty right child, `Next` walks the left child to exhaustion and
reports no pair. -/
theorem jnNext_rightEmpty {α β : Type} (L : List α) (pred : α → β → Bool) :
    ∀ (fuel li : Nat), L.length - li + 1 ≤ fuel →
    ∃ s', jnNext L ([] : List β) pred fuel ⟨li, 0, false⟩ = (s', none) := by
  intro fuel
  induction fuel with
  | zero =>
    intro li h
    exact absurd h (by omega)
  | succ fuel ih =>
    intro li h
    have hstep : jnNext L ([] : List β) pred (fuel + 1) ⟨li, 0, false⟩ =
        jnNext L ([] : List β) pred fuel
          (jnNextTuple L ([] : List β) ⟨li, 0, false⟩) := by
      rw [jnNext]
      rw [if_neg (show ¬ ((⟨li, 0, false⟩ : JnState).isend = true) from
        Bool.false_ne_true)]
      rcases hL : L[li]? with _ | l
      · rfl
      · rfl
    rw [hstep]
    by_cases hLend : L.length ≤ li + 1
    · have hnt : jnNextTuple L ([] : List β) ⟨li, 0, false⟩ =
          ⟨li + 1, 1, true⟩ := by
        unfold jnNextTuple
        rw [if_neg (show ¬ ((⟨li, 0, false⟩ : JnState).isend = true) from
          Bool.false_ne_true)]
        rw [if_pos (show (([] : List β)).length ≤
          (⟨li, 0, false⟩ : JnState).ri + 1 from by simp)]
        rw [if_pos hLend]
      rw [hnt, jnNext_isend L ([] : List β) pred fuel _ rfl]
      exact ⟨⟨li + 1, 1, true⟩, rfl⟩
    · have hnt : jnNextTuple L ([] : List β) ⟨li, 0, false⟩ =
          ⟨li + 1, 0, false⟩ := by
        unfold jnNextTuple
        rw [if_neg (show ¬ ((⟨li, 0, false⟩ : JnState).isend = true) from
          Bool.false_ne_true)]
        rw [if_pos (show (([] : List β)).length ≤
          (⟨li, 0, false⟩ : JnState).ri + 1 from by simp)]
        rw [if_neg hLend]
      rw [hnt]
      exact ih (li + 1) (by omega)

theorem jnCollect_step_none {α β : Type} (L : List α) (R : List β)
    (pred : α → β → Bool) {s s' : JnState} (hend : s.isend = false)
    (h : jnNext L R pred (jnFuel L R) s = (s', none)) (n : Nat) :
    jnCollect L R pred (n + 1) s = [] := by
  rw [jnCollect, if_neg (by rw [hend]; exact Bool.false_ne_true), h]

/-- `restPairs` from the start of a row is the filtered outer-major product of
the remaining rows. -/
theorem restPairs_from {α β : Type} (L : List α) (R : List β)
    (pred : α → β → Bool) (li : Nat) :
    restPairs L R pred li 0 =
      ((L.drop li).flatMap (fun (l : α) => R.map (fun (r : β) => (l, r)))).filter
        (fun (p : α × β) => pred p.1 p.2) := by
  by_cases h : li < L.length
  · rw [restPairs, dif_pos h, List.drop_zero, List.drop_eq_getElem_cons h,
      List.flatMap_cons, List.filter_append, restPairs_from L R pred (li + 1)]
  · rw [restPairs_nil L R pred h, List.drop_eq_nil_of_le (by omega)]
    rfl
termination_by L.length - li
decreasing_by omega

theorem flatMap_pairs_length {α β : Type} (L : List α) (R : List β) :
    (L.flatMap (fun (l : α) => R.map (fun (r : β) => (l, r)))).length =
      L.length * R.length := by
  induction L with
  | nil => simp
  | cons a L ih =>
    simp [ih, Nat.succ_mul]
    omega

/-- The join emits exactly the filtered outer-major product. -/
theorem jnRun_eq {α β : Type} (L : List α) (R : List β)
    (pred : α → β → Bool) :
    jnRun L R pred =
      (L.flatMap (fun (l : α) => R.map (fun (r : β) => (l, r)))).filter
        (fun (p : α × β) => pred p.1 p.2) := by
  unfold jnRun
  rcases Nat.eq_zero_or_pos L.length with hL | hL
  · have hLnil : L = [] := List.length_eq_zero.mp hL
    subst hLnil
    rw [show jnBegin ([] : List α) = ⟨0, 0, true⟩ from rfl]
    rw [jnCollect_end _ _ _ _ _ rfl]
    rfl
  · have hbegin : jnBegin L = ⟨0, 0, false⟩ := by
      unfold jnBegin
      rw [if_neg (by omega)]
    rw [hbegin]
    rcases Nat.eq_zero_or_pos R.length with hR | hR
    · have hRnil : R = [] := List.length_eq_zero.mp hR
      subst hRnil
      obtain ⟨s', hs'⟩ := jnNext_rightEmpty L pred (jnFuel L ([] : List β)) 0
        (by unfold jnFuel; simp)
      rw [jnCollect_step_none L ([] : List β) pred rfl hs'
        (L.length * (([] : List β)).length)]
      rw [show (L.flatMap (fun (l : α) =>
        (([] : List β)).map (fun (r : β) => (l, r)))) = [] from by simp]
      rfl
    · have h1 : restPairs L R pred 0 0 =
          (L.flatMap (fun (l : α) => R.map (fun (r : β) => (l, r)))).filter
            (fun (p : α × β) => pred p.1 p.2) := by
        rw [restPairs_from L R pred 0]
        rfl
      rw [← h1]
      apply jnCollect_spec L R pred _ 0 0 (by omega) (by omega)
      have h2 : (restPairs L R pred 0 0).length ≤ L.length * R.length := by
        rw [h1, ← flatMap_pairs_length L R]
        exact List.length_filter_le _ _
      omega

/-! The other checked-in join, `executor_nestedloop_join.h`: its `nextTuple`
steps the LEFT child first and rewinds the left child when it exhausts (the
left child is its inner loop), and its skip loop `find_record` can only leave
via a matching pair — the `isend = true` after the loop is dead code. -/

/-- The cursor step of `NestedLoopJoinExecutor::find_record` and `nextTuple`
(`executor_nestedloop_join.h`): `left_->nextTuple(); if (left_->is_end())
{ right_->nextTuple(); left_->beginTuple(); }`. -/
def jn2Step {α : Type} (L : List α) (s : JnState) : JnState :=
  if L.length ≤ s.li + 1 then ⟨0, s.ri + 1, false⟩ else ⟨s.li + 1, s.ri, false⟩

/-- `NestedLoopJoinExecutor::find_record` (`executor_nestedloop_join.h`):
`while (!is_end())` test the current pair and stop on a match, else step; an
out-of-range child read is a failing pair.  The loop body never sets `isend`,
so the trailing `isend = true` is unreachable; `fuel` cuts the loop off. -/
def jn2FindRec {α β : Type} (L : List α) (R : List β) (pred : α → β → Bool) :
    Nat → JnState → JnState
  | 0, s => s
  | fuel + 1, s =>
    if s.isend then s
    else
      match L[s.li]?, R[s.ri]? with
      | some l, some r =>
        if pred l r then s else jn2FindRec L R pred fuel (jn2Step L s)
      | _, _ => jn2FindRec L R pred fuel (jn2Step L s)

/-- `NestedLoopJoinExecutor::beginTuple` (`executor_nestedloop_join.h`):
rewind both children; if either is empty set `isend`, else `find_record`. -/
def jn2Begin {α β : Type} (L : List α) (R : List β) (pred : α → β → Bool)
    (fuel : Nat) : JnState :=
  if L.length = 0 ∨ R.length = 0 then ⟨0, 0, true⟩
  else jn2FindRec L R pred fuel ⟨0, 0, false⟩

/-- `NestedLoopJoinExecutor::nextTuple` (`executor_nestedloop_join.h`): step
the LEFT child (rewinding it and stepping the right child when it exhausts),
then `find_record`. -/
def jn2NextTuple {α β : Type} (L : List α) (R : List β)
    (pred : α → β → Bool) (fuel : Nat) (s : JnState) : JnState :=
  if s.isend then s else jn2FindRec L R pred fuel (jn2Step L s)

/-- `find_record` never changes the `isend` flag: once the pairs are
exhausted this join can never report its end. -/
theorem jn2FindRec_isend {α β : Type} (L : List α) (R : List β)
    (pred : α → β → Bool) :
    ∀ (fuel : Nat) (s : JnState),
      (jn2FindRec L R pred fuel s).isend = s.isend := by
  intro fuel
  induction fuel with
  | zero => intro s; rfl
  | succ fuel ih =>
    intro s
    rw [jn2FindRec]
    by_cases hs : s.isend = true
    · rw [if_pos hs]
    · rw [if_neg hs]
      have hsf : s.isend = false := Bool.eq_false_iff.mpr hs
      have hstep : (jn2Step L s).isend = false := by
        unfold jn2Step
        split <;> rfl
      have hgo : (jn2FindRec L R pred fuel (jn2Step L s)).isend = s.isend := by
        rw [ih, hstep, hsf]
      rcases hL : L[s.li]? with _ | l
      · exact hgo
      · rcases hR : R[s.ri]? with _ | r
        · exact hgo
        · show (if pred l r then s else
            jn2FindRec L R pred fuel (jn2Step L s)).isend = s.isend
          by_cases hp : pred l r = true
          · rw [if_pos hp]
          · rw [if_neg hp]
            exact hgo

/-- C8 (amended): the `part_002` nested-loop join follows the claimed
discipline — its output is exactly the filtered outer-major product of the
children (outer = left, inner = right), and on Left = {1, 2},
Right = {10, 20} with condition `L.x = R.y / 10` it emits (1,10), (2,20) in
that order.  The other checked-in join, `executor_nestedloop_join.h`, does
not: its skip loop `find_record` never changes the `isend` flag (the
`isend = true` after the loop is dead code), so it cannot report its end
when the pairs run out. -/
theorem c8_join_outer_major {α β : Type} (L : List α) (R : List β)
    (pred : α → β → Bool) :
    jnRun L R pred =
      (L.flatMap (fun (l : α) => R.map (fun (r : β) => (l, r)))).filter
        (fun (p : α × β) => pred p.1 p.2) ∧
    jnRun [(1 : Int), 2] [(10 : Int), 20]
      (fun (l r : Int) => decide (l = r / 10)) = [(1, 10), (2, 20)] ∧
    (∀ (fuel : Nat) (s : JnState),
      (jn2FindRec L R pred fuel s).isend = s.isend) :=
  ⟨jnRun_eq L R pred, by decide, jn2FindRec_isend L R pred⟩

/-- Counterexample to C8's advance discipline as a statement about both
checked-in joins: on Left = {1, 2}, Right = {10, 20} with an all-true
condition, both joins start at cursor (0, 0), and the claimed advance (which
`part_002` implements) steps the right child to (0, 1) — but one `nextTuple`
of `executor_nestedloop_join.h` steps the LEFT child, landing on (1, 0). -/
theorem c8_counterexample :
    jnBegin [(1 : Int), 2] = ⟨0, 0, false⟩ ∧
    jnNextTuple [(1 : Int), 2] [(10 : Int), 20] ⟨0, 0, false⟩ =
      ⟨0, 1, false⟩ ∧
    jn2Begin [(1 : Int), 2] [(10 : Int), 20]
      (fun (_ : Int) (_ : Int) => true) 5 = ⟨0, 0, false⟩ ∧
    jn2NextTuple [(1 : Int), 2] [(10 : Int), 20]
      (fun (_ : Int) (_ : Int) => true) 5 ⟨0, 0, false⟩ = ⟨1, 0, false⟩ := by
  decide

/-! ## C9: sort operator (`execution_sort.h`)

`SortExecutor::beginTuple` materializes every child record, then sorts the
owned list with `std::sort` and the single-key comparator below; `nextTuple`
increments the cursor and `Next` returns a copy of the current record.
`std::sort` guarantees only that the result is a permutation of the input
that is sorted for the comparator (a strict weak order) — it is NOT stable,
so the result on equal keys is any such permutation.  Records are modelled as
(key, tag) pairs; the tag stands for the rest of the record and exposes the
child-produced order. -/

/-- The `cmp` computed by the comparator lambda in
`SortExecutor::beginTuple`: ints by subtraction, floats by the sign of the
difference, strings truncated at their first NUL (`resize(strlen(...))`) and
compared as `std::string`.  `cmp` stays 0 when the branches fall through. -/
def sortCmp : ColVal → ColVal → Int
  | .intV a, .intV b => a - b
  | .floatV a, .floatV b => if 0 < a - b then 1 else if a - b < 0 then -1 else 0
  | .strV a, .strV b => bytesCmp (strView a) (strView b)
  | _, _ => 0

/-- `return is_desc_ ? (cmp > 0) : (cmp < 0)`. -/
def sortBefore (is_desc : Bool) (a b : ColVal) : Bool :=
  if is_desc then decide (0 < sortCmp a b) else decide (sortCmp a b < 0)

/-- The comparator applied to whole records through their sort key. -/
def recBefore (is_desc : Bool) (a b : ColVal × Nat) : Bool :=
  sortBefore is_desc a.1 b.1

/-- `std::sort`'s postcondition: adjacent elements are never strictly
out of order for the comparator. -/
def sortedByB {α : Type} (lt : α → α → Bool) : List α → Bool
  | [] => true
  | [_] => true
  | a :: b :: rest => !(lt b a) && sortedByB lt (b :: rest)

/-- C9 evidence: `std::sort`'s contract (a sorted permutation of the input)
does not determine the equal-key order, so the code does not guarantee the
stability the claim asserts — on the equal-key input [(1,a),(1,b)] both
orders satisfy the contract.  On the distinct keys of S5 the contract does
pin the output down: every sorted permutation of keys [3,1,2] is [1,2,3]
ascending and [3,2,1] descending. -/
theorem c9_unstable_sort_evidence :
    (List.Perm [((ColVal.intV 1), 0), (ColVal.intV 1, 1)]
        [((ColVal.intV 1), 1), (ColVal.intV 1, 0)] ∧
      sortedByB (recBefore false)
        [((ColVal.intV 1), 0), (ColVal.intV 1, 1)] = true ∧
      sortedByB (recBefore false)
        [((ColVal.intV 1), 1), (ColVal.intV 1, 0)] = true ∧
      [((ColVal.intV 1), 1), (ColVal.intV 1, 0)] ≠
        [((ColVal.intV 1), 0), (ColVal.intV 1, 1)]) ∧
    (∀ out : List (ColVal × Nat),
      List.Perm [((ColVal.intV 3), 0), (ColVal.intV 1, 1), (ColVal.intV 2, 2)]
        out →
      sortedByB (recBefore false) out = true →
      out = [(ColVal.intV 1, 1), (ColVal.intV 2, 2), (ColVal.intV 3, 0)]) ∧
    (∀ out : List (ColVal × Nat),
      List.Perm [((ColVal.intV 3), 0), (ColVal.intV 1, 1), (ColVal.intV 2, 2)]
        out →
      sortedByB (recBefore true) out = true →
      out = [(ColVal.intV 3, 0), (ColVal.intV 2, 2), (ColVal.intV 1, 1)]) := by
  refine ⟨⟨?_, by decide, by decide, by decide⟩, ?_, ?_⟩
  · decide
  · intro out hperm hsort
    have hmem : out ∈ [((ColVal.intV 3), 0), (ColVal.intV 1, 1),
        (ColVal.intV 2, 2)].permutations' :=
      List.mem_permutations'.mpr hperm.symm
    rw [show [((ColVal.intV 3), 0), (ColVal.intV 1, 1),
        (ColVal.intV 2, 2)].permutations' =
        [[(ColVal.intV 3, 0), (ColVal.intV 1, 1), (ColVal.intV 2, 2)],
         [(ColVal.intV 1, 1), (ColVal.intV 3, 0), (ColVal.intV 2, 2)],
         [(ColVal.intV 1, 1), (ColVal.intV 2, 2), (ColVal.intV 3, 0)],
         [(ColVal.intV 3, 0), (ColVal.intV 2, 2), (ColVal.intV 1, 1)],
         [(ColVal.intV 2, 2), (ColVal.intV 3, 0), (ColVal.intV 1, 1)],
         [(ColVal.intV 2, 2), (ColVal.intV 1, 1), (ColVal.intV 3, 0)]]
      from by decide] at hmem
    simp only [List.mem_cons, List.not_mem_nil, or_false] at hmem
    rcases hmem with rfl | rfl | rfl | rfl | rfl | rfl <;>
      first | rfl | exact absurd hsort (by decide)
  · intro out hperm hsort
    have hmem : out ∈ [((ColVal.intV 3), 0), (ColVal.intV 1, 1),
        (ColVal.intV 2, 2)].permutations' :=
      List.mem_permutations'.mpr hperm.symm
    rw [show [((ColVal.intV 3), 0), (ColVal.intV 1, 1),
        (ColVal.intV 2, 2)].permutations' =
        [[(ColVal.intV 3, 0), (ColVal.intV 1, 1), (ColVal.intV 2, 2)],
         [(ColVal.intV 1, 1), (ColVal.intV 3, 0), (ColVal.intV 2, 2)],
         [(ColVal.intV 1, 1), (ColVal.intV 2, 2), (ColVal.intV 3, 0)],
         [(ColVal.intV 3, 0), (ColVal.intV 2, 2), (ColVal.intV 1, 1)],
         [(ColVal.intV 2, 2), (ColVal.intV 3, 0), (ColVal.intV 1, 1)],
         [(ColVal.intV 2, 2), (ColVal.intV 1, 1), (ColVal.intV 3, 0)]]
      from by decide] at hmem
    simp only [List.mem_cons, List.not_mem_nil, or_false] at hmem
    rcases hmem with rfl | rfl | rfl | rfl | rfl | rfl <;>
      first | rfl | exact absurd hsort (by decide)

/-- C10: the page-existence check is one-sided.  `fetch_page_handle` — and
through it `get_record`, `update_record` and `delete_record` — raises
`PageNotExist` exactly when `page_no ≥ num_pages`; no lower bound is
enforced, so for every Rid with `page_no < num_pages` (page 0, the
file-header page, and negative page numbers included) the fetch succeeds and
`get_record` returns the bytes of that page's slot rather than failing. -/
theorem c10_one_sided_page_check (f : RmFile) (rid : Rid) (buf : List Nat) :
    ((f.file_hdr.num_pages : Int) ≤ rid.page_no →
      f.fetch_page_handle rid.page_no = .error (.pageNotExist rid.page_no) ∧
      f.get_record rid = .error (.pageNotExist rid.page_no) ∧
      f.update_record rid buf = (f, .error (.pageNotExist rid.page_no)) ∧
      f.delete_record rid = (f, .error (.pageNotExist rid.page_no))) ∧
    (rid.page_no < (f.file_hdr.num_pages : Int) →
      f.fetch_page_handle rid.page_no = .ok (f.pages rid.page_no) ∧
      f.get_record rid =
        .ok ((f.pages rid.page_no).slots.getD rid.slot_no.toNat [])) := by
  constructor
  · intro h
    refine ⟨fetch_err h, ?_, update_record_err_page buf h,
      delete_record_err_page h⟩
    unfold RmFile.get_record
    rw [fetch_err h]
    rfl
  · intro h
    refine ⟨fetch_ok h, ?_⟩
    unfold RmFile.get_record
    rw [fetch_ok h]
    rfl
